import Mathlib

/-!
A shallow embedding of the eszip V2 container codec (`src/v2.rs`,
`src/error.rs` of denoland/eszip) and proofs about it.

Modelling conventions:
* Bytes are `Nat`s; every byte written by the encoder is `< 256` by
  construction (`% 256`), and parsed bytes come from byte lists.
* Rust `String` values (module specifiers, redirect targets, npm package
  ids and requirement strings) are modelled as their UTF-8 byte lists;
  `String::from_utf8` is modelled as a real UTF-8 validity check returning
  the same byte list.
* `u32` arithmetic (`as u32` casts, `u32::from_be_bytes`) is modelled with
  explicit `% 2^32`.
* The `LinkedHashMap` holding the modules is modelled as an association
  list in insertion order; `HashMap`s are association lists compared up to
  permutation/lookup where their iteration order is not defined.
* Rust panics (`unwrap`, `expect`, explicit `panic!` calls) are modelled as
  `none` / a `panicked` result constructor; Rust `Err` returns as `fail`.
* Async suspension (`Poll::Pending` on a pending source slot) is modelled
  by a `blocked` poll outcome; waker bookkeeping carries no information
  relevant to the claims and is dropped from the slot state.
-/

set_option autoImplicit false

namespace Eszip

/-- A byte string: each element is a byte value (`< 256` wherever it was
produced by the encoder). -/
abbrev Bytes := List Nat

/-- Big-endian encoding of a `u32` (`u32::to_be_bytes`, together with the
`as u32` truncation of the source's casts). -/
def u32be (n : Nat) : Bytes :=
  [n / 16777216 % 256, n / 65536 % 256, n / 256 % 256, n % 256]

/-- `u32::from_be_bytes` on four bytes. -/
def decodeU32 (b0 b1 b2 b3 : Nat) : Nat :=
  b0 * 16777216 + b1 * 65536 + b2 * 256 + b3

theorem decodeU32_u32be (n : Nat) :
    decodeU32 (n / 16777216 % 256) (n / 65536 % 256) (n / 256 % 256) (n % 256) =
      n % 4294967296 := by
  unfold decodeU32
  omega

theorem u32be_length (n : Nat) : (u32be n).length = 4 := rfl

/-- A UTF-8 continuation byte (`0x80..=0xBF`). -/
def isCont (b : Nat) : Bool := 128 ≤ b ∧ b ≤ 191

/-- UTF-8 validity of a byte list: the check performed by
`String::from_utf8` (which the source uses on specifiers, redirect targets
and npm strings). A Rust `String`'s bytes always satisfy this. -/
def validUtf8 : Bytes → Bool
  | [] => true
  | b1 :: rest =>
    if b1 ≤ 127 then validUtf8 rest
    else if 194 ≤ b1 ∧ b1 ≤ 223 then
      match rest with
      | b2 :: rest2 => isCont b2 && validUtf8 rest2
      | [] => false
    else if b1 = 224 then
      match rest with
      | b2 :: b3 :: rest2 =>
        (decide (160 ≤ b2 ∧ b2 ≤ 191)) && isCont b3 && validUtf8 rest2
      | _ => false
    else if 225 ≤ b1 ∧ b1 ≤ 236 then
      match rest with
      | b2 :: b3 :: rest2 => isCont b2 && isCont b3 && validUtf8 rest2
      | _ => false
    else if b1 = 237 then
      match rest with
      | b2 :: b3 :: rest2 =>
        (decide (128 ≤ b2 ∧ b2 ≤ 159)) && isCont b3 && validUtf8 rest2
      | _ => false
    else if 238 ≤ b1 ∧ b1 ≤ 239 then
      match rest with
      | b2 :: b3 :: rest2 => isCont b2 && isCont b3 && validUtf8 rest2
      | _ => false
    else if b1 = 240 then
      match rest with
      | b2 :: b3 :: b4 :: rest2 =>
        (decide (144 ≤ b2 ∧ b2 ≤ 191)) && isCont b3 && isCont b4 && validUtf8 rest2
      | _ => false
    else if 241 ≤ b1 ∧ b1 ≤ 243 then
      match rest with
      | b2 :: b3 :: b4 :: rest2 => isCont b2 && isCont b3 && isCont b4 && validUtf8 rest2
      | _ => false
    else if b1 = 244 then
      match rest with
      | b2 :: b3 :: b4 :: rest2 =>
        (decide (128 ≤ b2 ∧ b2 ≤ 143)) && isCont b3 && isCont b4 && validUtf8 rest2
      | _ => false
    else false

/-! ### Association-list models of `LinkedHashMap` / `HashMap` operations -/

/-- First-match association lookup (`get` on the maps of the source). -/
def assocLookup {α β : Type} [DecidableEq α] : List (α × β) → α → Option β
  | [], _ => none
  | (k', v) :: rest, k => if k' = k then some v else assocLookup rest k

/-- Replace the value of the first entry with the given key, in place
(positions of all entries preserved); identity when the key is absent. -/
def assocReplace {α β : Type} [DecidableEq α] : List (α × β) → α → β → List (α × β)
  | [], _, _ => []
  | (k', v') :: rest, k, v =>
    if k' = k then (k', v) :: rest else (k', v') :: assocReplace rest k v

/-- Remove the first entry with the given key. -/
def assocEraseKey {α β : Type} [DecidableEq α] : List (α × β) → α → List (α × β)
  | [], _ => []
  | (k', v') :: rest, k => if k' = k then rest else (k', v') :: assocEraseKey rest k

/-- Remove the first entry with the given key, returning its value and the
remaining list (`HashMap::remove`). -/
def assocRemove {α β : Type} [DecidableEq α] : List (α × β) → α → Option (β × List (α × β))
  | [], _ => none
  | (k', v) :: rest, k =>
    if k' = k then some (v, rest)
    else (assocRemove rest k).map (fun p => (p.1, (k', v) :: p.2))

/-- `LinkedHashMap::insert` / `HashMap::insert`: update in place when the
key exists (keeping its position), append at the back otherwise. -/
def lhmInsert {α β : Type} [DecidableEq α] (m : List (α × β)) (k : α) (v : β) :
    List (α × β) :=
  if (assocLookup m k).isSome then assocReplace m k v else m ++ [(k, v)]

/-- `LinkedHashMap::to_front`: move the entry with the given key to the
front; identity when the key is absent. -/
def lhmToFront {α β : Type} [DecidableEq α] (m : List (α × β)) (k : α) : List (α × β) :=
  match assocLookup m k with
  | none => m
  | some v => (k, v) :: assocEraseKey m k

/-! ### Sorting (Rust `Vec::sort` on pairs of strings, byte-lexicographic) -/

/-- Byte-lexicographic `≤` on byte strings (the `Ord` of Rust `String` /
serialized package ids, which compares UTF-8 bytes lexicographically). -/
def bytesLe : Bytes → Bytes → Bool
  | [], _ => true
  | _ :: _, [] => false
  | a :: as_, b :: bs =>
    if a < b then true else if a = b then bytesLe as_ bs else false

/-- Lexicographic `≤` on pairs of byte strings (Rust `(String, String)` order). -/
def pairLe (x y : Bytes × Bytes) : Bool :=
  if x.1 = y.1 then bytesLe x.2 y.2 else bytesLe x.1 y.1

/-- Stable insertion into a sorted list (helper for `sortBy`). -/
def insertSorted {α : Type} (le : α → α → Bool) (x : α) : List α → List α
  | [] => [x]
  | y :: ys => if le x y then x :: y :: ys else y :: insertSorted le x ys

/-- Stable sort modelling Rust `Vec::sort` (insertion sort; agrees with any
stable sort for a total order, and the claims only use that the result is a
permutation of the input). -/
def sortBy {α : Type} (le : α → α → Bool) : List α → List α
  | [] => []
  | x :: xs => insertSorted le x (sortBy le xs)

theorem insertSorted_perm {α : Type} (le : α → α → Bool) (x : α) (l : List α) :
    (insertSorted le x l).Perm (x :: l) := by
  induction l with
  | nil => simp [insertSorted]
  | cons y ys ih =>
    simp only [insertSorted]
    split
    · exact List.Perm.refl _
    · exact (ih.cons y).trans (List.Perm.swap x y ys)

theorem sortBy_perm {α : Type} (le : α → α → Bool) (l : List α) :
    (sortBy le l).Perm l := by
  induction l with
  | nil => simp [sortBy]
  | cons x xs ih => exact (insertSorted_perm le x (sortBy le xs)).trans (ih.cons x)

/-! ### Data model (`src/v2.rs`) -/

/-- `ModuleKind` (`src/lib.rs`): tags 0..3 on the wire. -/
inductive ModuleKind : Type
  | javaScript
  | json
  | jsonc
  | opaqueData
deriving DecidableEq, Repr

/-- The wire tag of a module kind (`*kind as u8`). -/
def ModuleKind.toTag : ModuleKind → Nat
  | .javaScript => 0
  | .json => 1
  | .jsonc => 2
  | .opaqueData => 3

/-- `Checksum` (`src/v2.rs`): the selectable hash function. Both the
`sha256` and `xxhash3` cargo features are taken as enabled, as the spec
describes all three variants. -/
inductive Checksum : Type
  | noChecksum
  | sha256
  | xxHash3
deriving DecidableEq, Repr

/-- Wire discriminant of a checksum function (`checksum as u8`). -/
def Checksum.toTag : Checksum → Nat
  | .noChecksum => 0
  | .sha256 => 1
  | .xxHash3 => 2

/-- `Checksum::digest_size`. -/
def Checksum.digestSize : Checksum → Nat
  | .noChecksum => 0
  | .sha256 => 32
  | .xxHash3 => 8

/-- `Checksum::from_u8`: unknown discriminants yield `none`. -/
def Checksum.fromU8 (discriminant : Nat) : Option Checksum :=
  match discriminant with
  | 0 => some .noChecksum
  | 1 => some .sha256
  | 2 => some .xxHash3
  | _ => none

/-- Modelled from the spec: the digest body of the external hash crates
(`sha2::Sha256`, `xxhash_rust::xxh3` — not part of this repository). The
spec (§4.1) fixes only determinism and the digest sizes (32 bytes for
SHA-256, 8 big-endian bytes for XxHash3, none for `None`); this stand-in
is an arbitrary deterministic function of the input with the correct
digest length. -/
def hashStandIn (size : Nat) (bytes : Bytes) : Bytes :=
  (List.range size).map
    (fun i => bytes.foldl (fun acc b => (acc * 31 + b + 1) % 256) (i % 256))

/-- `Checksum::hash`: dispatch to the (modelled) hash functions; `Vec::new()`
for `NoChecksum`. -/
def Checksum.hash (c : Checksum) (bytes : Bytes) : Bytes :=
  match c with
  | .noChecksum => []
  | .sha256 => hashStandIn 32 bytes
  | .xxHash3 => hashStandIn 8 bytes

theorem hashStandIn_length (size : Nat) (bytes : Bytes) :
    (hashStandIn size bytes).length = size := by
  simp [hashStandIn]

theorem Checksum.hash_length (c : Checksum) (bytes : Bytes) :
    (c.hash bytes).length = c.digestSize := by
  cases c <;> simp [Checksum.hash, Checksum.digestSize, hashStandIn_length]

/-- `Options` (`src/v2.rs`): the checksum function and the explicit digest
size recorded in a V2.2 options section. -/
structure Options : Type where
  checksum : Option Checksum
  checksumSize : Option Nat
deriving DecidableEq, Repr

/-- The three magic byte strings (`ESZIP_V2`, `ESZIP2.1`, `ESZIP2.2` in
ASCII). -/
def ESZIP_V2_MAGIC : Bytes := [69, 83, 90, 73, 80, 95, 86, 50]

def ESZIP_V2_1_MAGIC : Bytes := [69, 83, 90, 73, 80, 50, 46, 49]

def ESZIP_V2_2_MAGIC : Bytes := [69, 83, 90, 73, 80, 50, 46, 50]

/-- `Options::default_for_version`: versions prior to V2.2 default to
SHA-256 checksums, V2.2 to no checksum (with the `sha256` feature on). -/
def Options.defaultForVersion (magic : Bytes) : Options :=
  if magic = ESZIP_V2_MAGIC ∨ magic = ESZIP_V2_1_MAGIC then
    { checksum := some .sha256, checksumSize := none }
  else
    { checksum := some .noChecksum, checksumSize := none }

/-- `Options::checksum_size` (the method): the explicit digest size when
recorded, else the digest size of the known checksum function, else
`none`. -/
def Options.checksumSizeResolved (o : Options) : Option Nat :=
  match o.checksumSize with
  | some s => some s
  | none => o.checksum.map Checksum.digestSize

/-- `EszipV2SourceSlot`: the lifecycle slot of a source / source-map
payload. The `wakers` vector of the `Pending` state carries no information
used by any claim and is dropped. -/
inductive EszipV2SourceSlot : Type
  | pending (offset length : Nat)
  | ready (bytes : Bytes)
  | taken
deriving DecidableEq, Repr

/-- `EszipV2SourceSlot::bytes`: panics (modelled `none`) unless `Ready`. -/
def EszipV2SourceSlot.bytesOf : EszipV2SourceSlot → Option Bytes
  | .ready bytes => some bytes
  | _ => none

/-- `EszipV2Module`: a module entry or a redirect record. -/
inductive EszipV2Module : Type
  | module (kind : ModuleKind) (source sourceMap : EszipV2SourceSlot)
  | redirect (target : Bytes)
deriving DecidableEq, Repr

/-- The modules map: a `LinkedHashMap` from specifier to entry, modelled as
an association list in insertion order. -/
abbrev ModMap := List (Bytes × EszipV2Module)

/-- Modelled from the spec: one element of the npm resolution snapshot
(`SerializedNpmResolutionSnapshotPackage` of the external `deno_npm`
crate). Per spec §3, a package is its serialized id together with a map
from dependency name to the id of the resolved dependency package. -/
structure NpmPackage : Type where
  id : Bytes
  dependencies : List (Bytes × Bytes)
deriving DecidableEq, Repr

/-- Modelled from the spec: the npm snapshot
(`SerializedNpmResolutionSnapshot` of the external `deno_npm` crate):
a package list (indexed by position) and the root packages, a map from
version-requirement string to package id. -/
structure NpmSnapshot : Type where
  packages : List NpmPackage
  rootPackages : List (Bytes × Bytes)
deriving DecidableEq, Repr

/-- `EszipV2`: the archive facade. -/
structure EszipV2 : Type where
  modules : ModMap
  npmSnapshot : Option NpmSnapshot
  options : Options
deriving DecidableEq, Repr

/-- `EszipV2::default()` (derived `Default`): empty modules, no snapshot,
latest-version default options. -/
def EszipV2.default : EszipV2 :=
  { modules := [], npmSnapshot := none,
    options := Options.defaultForVersion ESZIP_V2_2_MAGIC }

/-! ### The serializer: `EszipV2::into_bytes` -/

/-- The last index at which a package with the given serialized id occurs
(`ids_to_eszip_ids`: a `HashMap` built with `collect`, so a later entry
with the same id overwrites an earlier one); `none` models the `unwrap`
panic when the id is absent. -/
def idsToIndex : List NpmPackage → Bytes → Option Nat
  | [], _ => none
  | p :: rest, i =>
    match (idsToIndex rest i).map (· + 1) with
    | some j => some j
    | none => if p.id = i then some 0 else none

/-- The per-entry loop of `into_bytes`: threads the module-table body and
the sources / source-maps regions through the entries in specifier order.
`none` models the panic of `EszipV2SourceSlot::bytes()` on a non-`Ready`
slot. -/
def writeModulesLoop (checksum : Checksum) :
    List (Bytes × EszipV2Module) → Bytes → Bytes → Bytes →
      Option (Bytes × Bytes × Bytes)
  | [], header, sources, sourceMaps => some (header, sources, sourceMaps)
  | (specifier, m) :: rest, header, sources, sourceMaps =>
    let header := header ++ u32be specifier.length ++ specifier
    match m with
    | .module kind source sourceMap =>
      match source.bytesOf, sourceMap.bytesOf with
      | some sourceBytes, some sourceMapBytes =>
        let header := header ++ [0]
        let hs :=
          if sourceBytes.length % 4294967296 > 0 then
            (header ++ u32be sources.length ++ u32be sourceBytes.length,
              sources ++ sourceBytes ++ checksum.hash sourceBytes)
          else
            (header ++ u32be 0 ++ u32be 0, sources)
        let hm :=
          if sourceMapBytes.length % 4294967296 > 0 then
            (hs.1 ++ u32be sourceMaps.length ++ u32be sourceMapBytes.length,
              sourceMaps ++ sourceMapBytes ++ checksum.hash sourceMapBytes)
          else
            (hs.1 ++ u32be 0 ++ u32be 0, sourceMaps)
        writeModulesLoop checksum rest (hm.1 ++ [kind.toTag]) hs.2 hm.2
      | _, _ => none
    | .redirect target =>
      writeModulesLoop checksum rest
        (header ++ [1] ++ u32be target.length ++ target) sources sourceMaps

/-- The npm root-package records appended to the module table
(`for (req, id) in root_packages`, after sorting); `none` models the
`unwrap` panic when a root package id is not in the package list.
`PackageReq::to_string` (external crate) is modelled as the identity on
the requirement string carried by the model. -/
def writeNpmRootsLoop (packages : List NpmPackage) :
    List (Bytes × Bytes) → Bytes → Option Bytes
  | [], header => some header
  | (req, id) :: rest, header =>
    match idsToIndex packages id with
    | none => none
    | some i =>
      writeNpmRootsLoop packages rest
        (header ++ u32be req.length ++ req ++ [2] ++ u32be i)

/-- The dependency loop inside the npm package serialization. -/
def writeNpmDepsLoop (packages : List NpmPackage) :
    List (Bytes × Bytes) → Bytes → Option Bytes
  | [], acc => some acc
  | (name, id) :: rest, acc =>
    match idsToIndex packages id with
    | none => none
    | some i =>
      writeNpmDepsLoop packages rest (acc ++ u32be name.length ++ name ++ u32be i)

/-- The npm snapshot body (`for pkg in &npm_snapshot.packages`): each
package's serialized id, its dependency count, and its dependencies
sorted. -/
def writeNpmPackagesLoop (packages : List NpmPackage) :
    List NpmPackage → Bytes → Option Bytes
  | [], acc => some acc
  | p :: rest, acc =>
    match
      writeNpmDepsLoop packages (sortBy pairLe p.dependencies)
        (acc ++ u32be p.id.length ++ p.id ++ u32be p.dependencies.length)
    with
    | none => none
    | some acc' => writeNpmPackagesLoop packages rest acc'

/-- `EszipV2::into_bytes`: serializes the archive. `none` models the two
panics: `expect("checksum function should be known")` when the checksum
selector (or digest size) is unknown, and `EszipV2SourceSlot::bytes()` on
a non-`Ready` slot. The output layout is magic, options section, module
table section (with the npm root records), npm snapshot section, sources
region, source-maps region. -/
def EszipV2.intoBytes (e : EszipV2) : Option Bytes :=
  match e.options.checksum, e.options.checksumSizeResolved with
  | some checksum, some checksumSize =>
    let optionsBody : Bytes := [0, checksum.toTag, 1, checksumSize]
    let pre : Bytes :=
      ESZIP_V2_2_MAGIC ++ u32be optionsBody.length ++ optionsBody ++
        checksum.hash optionsBody
    match writeModulesLoop checksum e.modules [] [] [] with
    | none => none
    | some (tableBody0, sources, sourceMaps) =>
      let withNpm : Option (Bytes × Bytes) :=
        match e.npmSnapshot with
        | none => some (tableBody0, [])
        | some sn =>
          match writeNpmRootsLoop sn.packages (sortBy pairLe sn.rootPackages) tableBody0 with
          | none => none
          | some tableBody1 =>
            match writeNpmPackagesLoop sn.packages sn.packages [] with
            | none => none
            | some npmBytes => some (tableBody1, npmBytes)
      match withNpm with
      | none => none
      | some (tableBody, npmBytes) =>
        some (pre ++ u32be tableBody.length ++ tableBody ++ checksum.hash tableBody ++
          u32be npmBytes.length ++ npmBytes ++ checksum.hash npmBytes ++
          u32be sources.length ++ sources ++
          u32be sourceMaps.length ++ sourceMaps)
  | _, _ => none

/-! ### Archive operations -/

/-- `EszipV2::add_import_map`: move an existing entry to the front without
touching its contents, or insert a fresh entry (given kind, given source,
empty source map) and move it to the front. -/
def EszipV2.addImportMap (e : EszipV2) (kind : ModuleKind) (specifier : Bytes)
    (source : Bytes) : EszipV2 :=
  { e with
    modules :=
      if (assocLookup e.modules specifier).isSome then
        lhmToFront e.modules specifier
      else
        lhmToFront
          (lhmInsert e.modules specifier
            (.module kind (.ready source) (.ready [])))
          specifier }

/-- `EszipV2::add_opaque_data`. -/
def EszipV2.addOpaqueData (e : EszipV2) (specifier : Bytes) (data : Bytes) : EszipV2 :=
  { e with
    modules :=
      lhmInsert e.modules specifier (.module .opaqueData (.ready data) (.ready [])) }

/-- `EszipV2::add_npm_snapshot`: stored only when the serialized package
list is non-empty. -/
def EszipV2.addNpmSnapshot (e : EszipV2) (snapshot : NpmSnapshot) : EszipV2 :=
  if snapshot.packages.isEmpty then e else { e with npmSnapshot := some snapshot }

/-- `EszipV2::take_npm_snapshot` (`Option::take`): returns the snapshot and
leaves `none` behind. -/
def EszipV2.takeNpmSnapshot (e : EszipV2) : Option NpmSnapshot × EszipV2 :=
  (e.npmSnapshot, { e with npmSnapshot := none })

/-- `EszipV2::set_checksum`. -/
def EszipV2.setChecksum (e : EszipV2) (checksum : Checksum) : EszipV2 :=
  { e with options := { e.options with checksum := some checksum } }

/-- `EszipV2::should_be_checksumed`. -/
def EszipV2.shouldBeChecksumed (e : EszipV2) : Bool :=
  e.options.checksum ≠ some .noChecksum

/-- `EszipV2::is_checksumed`. -/
def EszipV2.isChecksumed (e : EszipV2) : Bool :=
  e.shouldBeChecksumed && e.options.checksum.isSome

/-! ### The slot store (`EszipV2Modules`) -/

/-- The outcome of one poll of the slot-store futures: `blocked` models
`Poll::Pending` (the caller's waker is registered and the future
suspends), `resolved v` models `Poll::Ready(v)`. -/
inductive PollValue : Type
  | blocked
  | resolved (value : Option Bytes)
deriving DecidableEq, Repr

/-- `EszipV2Modules::get_module_source`: `none` models the panics (absent
specifier `unwrap`, or a redirect entry). -/
def getModuleSourcePoll (modules : ModMap) (specifier : Bytes) : Option PollValue :=
  match assocLookup modules specifier with
  | none => none
  | some (.redirect _) => none
  | some (.module _ source _) =>
    some (match source with
      | .pending _ _ => .blocked
      | .ready bytes => .resolved (some bytes)
      | .taken => .resolved none)

/-- `EszipV2Modules::take_module_source`: on `Ready` the slot is swapped to
`Taken` and the bytes are returned. -/
def takeModuleSourcePoll (modules : ModMap) (specifier : Bytes) :
    Option (PollValue × ModMap) :=
  match assocLookup modules specifier with
  | none => none
  | some (.redirect _) => none
  | some (.module kind source sourceMap) =>
    match source with
    | .pending _ _ => some (.blocked, modules)
    | .ready bytes =>
      some (.resolved (some bytes),
        assocReplace modules specifier (.module kind .taken sourceMap))
    | .taken => some (.resolved none, modules)

/-- `EszipV2Modules::get_module_source_map`. -/
def getModuleSourceMapPoll (modules : ModMap) (specifier : Bytes) : Option PollValue :=
  match assocLookup modules specifier with
  | none => none
  | some (.redirect _) => none
  | some (.module _ _ sourceMap) =>
    some (match sourceMap with
      | .pending _ _ => .blocked
      | .ready bytes => .resolved (some bytes)
      | .taken => .resolved none)

/-- `EszipV2Modules::take_module_source_map`: first polls like the getter
(suspending while `Pending`), then unconditionally drops the source map
(sets the slot to `Taken`) once the poll resolves. -/
def takeModuleSourceMapPoll (modules : ModMap) (specifier : Bytes) :
    Option (PollValue × ModMap) :=
  match assocLookup modules specifier with
  | none => none
  | some (.redirect _) => none
  | some (.module kind source sourceMap) =>
    match sourceMap with
    | .pending _ _ => some (.blocked, modules)
    | .ready bytes =>
      some (.resolved (some bytes),
        assocReplace modules specifier (.module kind source .taken))
    | .taken =>
      some (.resolved none,
        assocReplace modules specifier (.module kind source .taken))

/-- The source slot of `specifier` is `Taken` ("the bytes have been moved
out"). -/
def sourceTakenAt (modules : ModMap) (specifier : Bytes) : Prop :=
  ∃ kind sourceMap,
    assocLookup modules specifier = some (.module kind .taken sourceMap)

/-- The source-map slot of `specifier` is `Taken`. -/
def sourceMapTakenAt (modules : ModMap) (specifier : Bytes) : Prop :=
  ∃ kind source,
    assocLookup modules specifier = some (.module kind source .taken)

/-! ### Module lookup (`EszipV2::lookup`, `get_module`, `get_import_map`) -/

/-- The metadata of a looked-up module (`Module` of `src/lib.rs`, without
the handle back into the archive). -/
structure Module : Type where
  specifier : Bytes
  kind : ModuleKind
deriving DecidableEq, Repr

/-- The redirect-chasing loop of `EszipV2::lookup`, with explicit fuel and
an explicit count of the redirect hops taken. The Rust loop terminates
because every iteration inserts the current specifier into the visited set
and bails out on a revisit; `lookup_terminates` (C2) proves that with fuel
`|modules| + 1` the fuel (outer `none`) is never exhausted. -/
def lookupLoop (modules : ModMap) :
    Nat → List Bytes → Bytes → Option (Option Module × Nat)
  | 0, _, _ => none
  | fuel + 1, visited, specifier =>
    let visited' := specifier :: visited
    match assocLookup modules specifier with
    | none => some (none, 0)
    | some (.module kind _ _) => some (some ⟨specifier, kind⟩, 0)
    | some (.redirect target) =>
      if target ∈ visited' then some (none, 0)
      else
        match lookupLoop modules fuel visited' target with
        | none => none
        | some (result, hops) => some (result, hops + 1)

/-- `EszipV2::lookup`. -/
def EszipV2.lookupModule (e : EszipV2) (specifier : Bytes) : Option Module :=
  match lookupLoop e.modules (e.modules.length + 1) [] specifier with
  | some (result, _) => result
  | none => none

/-- `EszipV2::get_module`: follows redirects, refuses `Jsonc` entries. -/
def EszipV2.getModule (e : EszipV2) (specifier : Bytes) : Option Module :=
  (e.lookupModule specifier).bind
    (fun m => if m.kind = .jsonc then none else some m)

/-- `EszipV2::get_import_map`: follows redirects, refuses `JavaScript`
entries. -/
def EszipV2.getImportMap (e : EszipV2) (specifier : Bytes) : Option Module :=
  (e.lookupModule specifier).bind
    (fun m => if m.kind = .javaScript then none else some m)

/-- `EszipV2::specifiers`. -/
def EszipV2.specifiers (e : EszipV2) : List Bytes :=
  e.modules.map Prod.fst

/-! ### The parser: `ParseError`, sections, `EszipV2::parse` -/

/-- `ParseError` (`src/error.rs`), restricted to the variants the V2 codec
constructs. The V2.2-options and npm-snapshot variants are constructed in
`src/v2.rs` (the `error.rs` in this snapshot predates them; the names
follow the usage in `v2.rs` and spec §7). External error payloads (the
`std::io::Error` and `anyhow` causes) are dropped; the positional and
specifier payloads are kept. -/
inductive ParseError : Type
  | invalidV2
  | invalidV2HeaderHash
  | invalidV2Specifier (offset : Nat)
  | invalidV2EntryKind (kind offset : Nat)
  | invalidV2ModuleKind (kind offset : Nat)
  | invalidV2Header (reason : String)
  | invalidV2SourceOffset (offset : Nat)
  | invalidV2SourceHash (specifier : Bytes)
  | invalidV22OptionsHeader (reason : String)
  | invalidV22OptionsHeaderHash
  | invalidV2NpmSnapshotHash
  | invalidV2NpmPackage (name : Bytes)
  | invalidV2NpmPackageReq (req : Bytes)
  | invalidV2NpmPackageOffset (offset : Nat)
  | ioError
deriving DecidableEq, Repr

/-- The outcome of a parsing step: `panicked` models a Rust panic
(`unwrap` / `expect` / `panic!` calls — all of them unreachable on the
streams the claims exercise), `fail` a returned `ParseError`, `ok`
success. -/
inductive PResult (α : Type) : Type
  | panicked (msg : String)
  | fail (e : ParseError)
  | ok (value : α)
deriving DecidableEq, Repr

/-- `Section` (`src/v2.rs`): the body and trailing digest of one
length-prefixed region, together with the options it was read under. -/
structure Section : Type where
  content : Bytes
  digest : Bytes
  opts : Options
deriving DecidableEq, Repr

/-- `Section::is_checksum_valid`: recompute and compare; when the recorded
checksum selector is unknown (`None`), degrade to not checksuming. -/
def Section.isChecksumValid (s : Section) : Bool :=
  match s.opts.checksum with
  | none => true
  | some c => decide (c.hash s.content = s.digest)

/-- `Section::total_len`: body plus digest bytes. -/
def Section.totalLen (s : Section) : Nat :=
  s.content.length + s.digest.length

/-- `read_u32`: four big-endian bytes; a short read is an `Io` error. -/
def readU32P (b : Bytes) : PResult (Nat × Bytes) :=
  match b with
  | b0 :: b1 :: b2 :: b3 :: rest => .ok (decodeU32 b0 b1 b2 b3, rest)
  | _ => .fail .ioError

/-- `Section::read_with_size`: read `len` body bytes plus the digest
(`expect("Checksum size must be known")` models as a panic). -/
def sectionReadWithSize (opts : Options) (len : Nat) (b : Bytes) :
    PResult (Section × Bytes) :=
  match opts.checksumSizeResolved with
  | none => .panicked "Checksum size must be known"
  | some size =>
    if b.length < len + size then .fail .ioError
    else .ok (⟨b.take len, (b.drop len).take size, opts⟩, (b.drop len).drop size)

/-- `Section::read`: a `u32` length prefix, then `read_with_size`. -/
def sectionRead (opts : Options) (b : Bytes) : PResult (Section × Bytes) :=
  match readU32P b with
  | .panicked m => .panicked m
  | .fail e => .fail e
  | .ok (len, rest) => sectionReadWithSize opts len rest

/-- The option-applying loop of `parse_with_magic`
(`options_header.content().chunks(2)`): option 0 selects the checksum
function via `Checksum::from_u8`, option 1 the digest size; unknown
option ids are ignored. Only called on even-length bodies (an odd chunk
is rejected before this loop runs). -/
def applyOptionPairs : Bytes → Options → Options
  | optId :: value :: rest, o =>
    applyOptionPairs rest
      (match optId with
        | 0 => { o with checksum := Checksum.fromU8 value }
        | 1 => { o with checksumSize := some value }
        | _ => o)
  | _, o => o

/-- The module-table record loop of `parse_with_magic`. Consumes the
section content record by record, tracking the byte position `pos` (the
source's `read` counter, used in error payloads) and accumulating the
modules map and the npm-specifier map. The fuel argument only bounds the
iteration count; every record consumes at least five bytes, so the
call sites' fuel of `content.length + 1` is never exhausted. -/
def parseHeaderRecordsLoop (supportsNpm : Bool) :
    Nat → Bytes → Nat → ModMap → List (Bytes × Nat) →
      PResult (ModMap × List (Bytes × Nat))
  | 0, _, _, _, _ => .panicked "fuel"
  | fuel + 1, b, pos, modules, npmSpecifiers =>
    match b with
    | [] => .ok (modules, npmSpecifiers)
    | l0 :: l1 :: l2 :: l3 :: afterLen =>
      let specifierLen := decodeU32 l0 l1 l2 l3
      if afterLen.length < specifierLen then .fail (.invalidV2Header "specifier")
      else
        let specifier := afterLen.take specifierLen
        let afterSpec := afterLen.drop specifierLen
        if ¬ validUtf8 specifier then .fail (.invalidV2Specifier (pos + 4 + specifierLen))
        else
          match afterSpec with
          | [] => .fail (.invalidV2Header "entry kind")
          | 0 :: afterKind =>
            match afterKind with
            | o0 :: o1 :: o2 :: o3 :: s0 :: s1 :: s2 :: s3 ::
                p0 :: p1 :: p2 :: p3 :: q0 :: q1 :: q2 :: q3 :: afterOffsets =>
              match afterOffsets with
              | kindByte :: afterModKind =>
                let sourceOffset := decodeU32 o0 o1 o2 o3
                let sourceLen := decodeU32 s0 s1 s2 s3
                let sourceMapOffset := decodeU32 p0 p1 p2 p3
                let sourceMapLen := decodeU32 q0 q1 q2 q3
                let pos' := pos + 4 + specifierLen + 1 + 16 + 1
                match (match kindByte with
                  | 0 => some ModuleKind.javaScript
                  | 1 => some ModuleKind.json
                  | 2 => some ModuleKind.jsonc
                  | 3 => some ModuleKind.opaqueData
                  | _ => none) with
                | none => .fail (.invalidV2ModuleKind kindByte pos')
                | some kind =>
                  let source :=
                    if sourceOffset = 0 ∧ sourceLen = 0 then EszipV2SourceSlot.ready []
                    else .pending sourceOffset sourceLen
                  let sourceMap :=
                    if sourceMapOffset = 0 ∧ sourceMapLen = 0 then EszipV2SourceSlot.ready []
                    else .pending sourceMapOffset sourceMapLen
                  parseHeaderRecordsLoop supportsNpm fuel afterModKind pos'
                    (lhmInsert modules specifier (.module kind source sourceMap))
                    npmSpecifiers
              | [] => .fail (.invalidV2Header "module kind")
            | _ => .fail (.invalidV2Header "source offset")
          | 1 :: afterKind =>
            match afterKind with
            | t0 :: t1 :: t2 :: t3 :: afterTargetLen =>
              let targetLen := decodeU32 t0 t1 t2 t3
              if afterTargetLen.length < targetLen then .fail (.invalidV2Header "target")
              else
                let target := afterTargetLen.take targetLen
                let afterTarget := afterTargetLen.drop targetLen
                if ¬ validUtf8 target then
                  .fail (.invalidV2Specifier (pos + 4 + specifierLen + 1 + 4 + targetLen))
                else
                  parseHeaderRecordsLoop supportsNpm fuel afterTarget
                    (pos + 4 + specifierLen + 1 + 4 + targetLen)
                    (lhmInsert modules specifier (.redirect target)) npmSpecifiers
            | _ => .fail (.invalidV2Header "target len")
          | 2 :: afterKind =>
            if supportsNpm then
              match afterKind with
              | i0 :: i1 :: i2 :: i3 :: afterIdx =>
                parseHeaderRecordsLoop supportsNpm fuel afterIdx
                  (pos + 4 + specifierLen + 1 + 4) modules
                  (lhmInsert npmSpecifiers specifier (decodeU32 i0 i1 i2 i3))
              | _ => .fail (.invalidV2Header "npm package id")
            else .fail (.invalidV2EntryKind 2 (pos + 4 + specifierLen + 1))
          | n :: _ => .fail (.invalidV2EntryKind n (pos + 4 + specifierLen + 1))
    | _ :: _ => .fail (.invalidV2Header "specifier len")

/-! ### The npm snapshot section (`read_npm_section` and helpers) -/

/-- `move_bytes`: split off `len` bytes, `(remaining, taken)`; `none`
models the `UnexpectedEof` io error. -/
def moveBytes (b : Bytes) (len : Nat) : Option (Bytes × Bytes) :=
  if b.length < len then none else some (b.drop len, b.take len)

/-- `parse_u32` (the byte-slice variant used by the npm decoder). -/
def parseU32Npm (b : Bytes) : Option (Bytes × Nat) :=
  match b with
  | b0 :: b1 :: b2 :: b3 :: rest => some (rest, decodeU32 b0 b1 b2 b3)
  | _ => none

/-- `parse_string`: a length-prefixed UTF-8 string; invalid UTF-8 is an io
error (`none`). -/
def parseStringNpm (b : Bytes) : Option (Bytes × Bytes) :=
  match parseU32Npm b with
  | none => none
  | some (rest, size) =>
    match moveBytes rest size with
    | none => none
    | some (rest2, name) => if validUtf8 name then some (rest2, name) else none

/-- `EszipNpmDependency::parse`. -/
def eszipNpmDependencyParse (b : Bytes) : Option (Bytes × (Bytes × Nat)) :=
  match parseStringNpm b with
  | none => none
  | some (rest, name) =>
    match parseU32Npm rest with
    | none => none
    | some (rest2, idx) => some (rest2, (name, idx))

/-- The dependency loop of `EszipNpmModule::parse`; dependencies go into a
`HashMap` keyed by name (modelled by `lhmInsert`). -/
def eszipNpmModuleDepsLoop :
    Nat → Bytes → List (Bytes × Nat) → Option (Bytes × List (Bytes × Nat))
  | 0, b, acc => some (b, acc)
  | n + 1, b, acc =>
    match eszipNpmDependencyParse b with
    | none => none
    | some (rest, dep) => eszipNpmModuleDepsLoop n rest (lhmInsert acc dep.1 dep.2)

/-- `EszipNpmModule::parse`: serialized package id string, dependency
count, dependencies. -/
def eszipNpmModuleParse (b : Bytes) :
    Option (Bytes × (Bytes × List (Bytes × Nat))) :=
  match parseStringNpm b with
  | none => none
  | some (rest, name) =>
    match parseU32Npm rest with
    | none => none
    | some (rest2, depCount) =>
      match eszipNpmModuleDepsLoop depCount rest2 [] with
      | none => none
      | some (rest3, deps) => some (rest3, (name, deps))

/-- The package loop of `read_npm_section` (`while !bytes.is_empty()`),
fueled: every package record consumes at least eight bytes, so the call
site's fuel of `content.length + 1` is never exhausted. A parse failure
is `InvalidV2NpmPackageOffset` at the record's byte offset. -/
def parseNpmPackagesLoop :
    Nat → Bytes → Nat → List (Bytes × List (Bytes × Nat)) →
      PResult (List (Bytes × List (Bytes × Nat)))
  | 0, _, _, _ => .panicked "fuel"
  | fuel + 1, b, originalLen, acc =>
    if b.isEmpty then .ok acc
    else
      match eszipNpmModuleParse b with
      | none => .fail (.invalidV2NpmPackageOffset (originalLen - b.length))
      | some (rest, pkg) => parseNpmPackagesLoop fuel rest originalLen (acc ++ [pkg])

/-- Dependency resolution of `read_npm_section`: each dependency's package
index is looked up in the parsed package list (by position) and replaced
by that package's id; a missing index is `InvalidV2NpmPackage`.
`NpmPackageId::from_serialized` (external crate) is modelled as accepting
every string and preserving it. -/
def resolveDepsLoop (names : List Bytes) (pkgName : Bytes) :
    List (Bytes × Nat) → PResult (List (Bytes × Bytes))
  | [] => .ok []
  | (key, idx) :: rest =>
    match names.get? idx with
    | none => .fail (.invalidV2NpmPackage pkgName)
    | some id =>
      match resolveDepsLoop names pkgName rest with
      | .panicked m => .panicked m
      | .fail e => .fail e
      | .ok deps => .ok ((key, id) :: deps)

/-- The `final_packages` loop of `read_npm_section`. -/
def buildPackagesLoop (names : List Bytes) :
    List (Bytes × List (Bytes × Nat)) → PResult (List NpmPackage)
  | [] => .ok []
  | (name, deps) :: rest =>
    match resolveDepsLoop names name deps with
    | .panicked m => .panicked m
    | .fail e => .fail e
    | .ok resolved =>
      match buildPackagesLoop names rest with
      | .panicked m => .panicked m
      | .fail e => .fail e
      | .ok packages => .ok (⟨name, resolved⟩ :: packages)

/-- The `root_packages` loop of `read_npm_section`: each npm-specifier
record's index is resolved to a package id; a missing index is
`InvalidV2NpmPackageReq`. `PackageReq::from_str` (external crate) is
modelled as accepting every requirement string and preserving it. -/
def buildRootPackagesLoop (names : List Bytes) :
    List (Bytes × Nat) → PResult (List (Bytes × Bytes))
  | [] => .ok []
  | (req, idx) :: rest =>
    match names.get? idx with
    | none => .fail (.invalidV2NpmPackageReq req)
    | some id =>
      match buildRootPackagesLoop names rest with
      | .panicked m => .panicked m
      | .fail e => .fail e
      | .ok roots => .ok ((req, id) :: roots)

/-- `read_npm_section`: a digest-checked section; an empty body is "no
snapshot"; otherwise the packages are parsed and their indices resolved. -/
def readNpmSection (opts : Options) (npmSpecifiers : List (Bytes × Nat)) (b : Bytes) :
    PResult (Option NpmSnapshot × Bytes) :=
  match sectionRead opts b with
  | .panicked m => .panicked m
  | .fail e => .fail e
  | .ok (snapshot, rest) =>
    if ¬ snapshot.isChecksumValid then .fail .invalidV2NpmSnapshotHash
    else if snapshot.content.isEmpty then .ok (none, rest)
    else
      match
        parseNpmPackagesLoop (snapshot.content.length + 1) snapshot.content
          snapshot.content.length []
      with
      | .panicked m => .panicked m
      | .fail e => .fail e
      | .ok rawPackages =>
        let names := rawPackages.map Prod.fst
        match buildPackagesLoop names rawPackages with
        | .panicked m => .panicked m
        | .fail e => .fail e
        | .ok finalPackages =>
          match buildRootPackagesLoop names npmSpecifiers with
          | .panicked m => .panicked m
          | .fail e => .fail e
          | .ok rootPackages => .ok (some ⟨finalPackages, rootPackages⟩, rest)

/-! ### The continuation future: sources and source-maps regions -/

/-- The accumulating pass of `buildOffsets` (a `HashMap` `collect` is a
fold of inserts). -/
def buildOffsetsGo (isMap : Bool) :
    List (Bytes × EszipV2Module) → List (Nat × (Nat × Bytes)) →
      List (Nat × (Nat × Bytes))
  | [], acc => acc
  | (spec, md) :: rest, acc =>
    buildOffsetsGo isMap rest
      (match isMap, md with
        | false, .module _ (.pending offset length) _ =>
          lhmInsert acc offset (length, spec)
        | true, .module _ _ (.pending offset length) =>
          lhmInsert acc offset (length, spec)
        | _, _ => acc)

/-- `source_offsets` / `source_map_offsets`: the `HashMap` from region
offset to `(length, specifier)` over the still-`Pending` slots. -/
def buildOffsets (isMap : Bool) (modules : ModMap) : List (Nat × (Nat × Bytes)) :=
  buildOffsetsGo isMap modules []

/-- The slot update performed by the continuation: flip the `Pending` slot
of `specifier` to `Ready(content)`; the panics (`expect("module not
found")`, a redirect entry, an already-populated slot) model as
`panicked`. -/
def setSlotReady (modules : ModMap) (specifier : Bytes) (isMap : Bool)
    (content : Bytes) : PResult ModMap :=
  match assocLookup modules specifier with
  | none => .panicked "module not found"
  | some (.redirect _) => .panicked "invalid module type"
  | some (.module kind source sourceMap) =>
    if isMap then
      match sourceMap with
      | .pending _ _ =>
        .ok (assocReplace modules specifier (.module kind source (.ready content)))
      | _ => .panicked "already populated source_map slot"
    else
      match source with
      | .pending _ _ =>
        .ok (assocReplace modules specifier (.module kind (.ready content) sourceMap))
      | _ => .panicked "already populated source slot"

/-- One region loop of the continuation future (`while read < sources_len`
/ the analogous source-maps loop), fueled: every iteration removes one
entry from the offsets map, so the call sites' fuel of
`offsets.length + 1` is never exhausted. -/
def runRegionLoop (opts : Options) (isMap : Bool) :
    Nat → List (Nat × (Nat × Bytes)) → ModMap → Nat → Nat → Bytes →
      PResult (ModMap × Bytes)
  | 0, _, _, _, _, _ => .panicked "fuel"
  | fuel + 1, offsets, modules, readPos, total, b =>
    if readPos < total then
      match assocRemove offsets readPos with
      | none => .fail (.invalidV2SourceOffset readPos)
      | some ((length, specifier), offsets') =>
        match sectionReadWithSize opts length b with
        | .panicked m => .panicked m
        | .fail e => .fail e
        | .ok (sec, rest) =>
          if sec.isChecksumValid then
            match setSlotReady modules specifier isMap sec.content with
            | .panicked m => .panicked m
            | .fail e => .fail e
            | .ok modules' =>
              runRegionLoop opts isMap fuel offsets' modules' (readPos + sec.totalLen)
                total rest
          else .fail (.invalidV2SourceHash specifier)
    else .ok (modules, b)

/-- The tail of `parse_with_magic` after the options are settled, plus the
continuation future run to completion: module-table section, npm snapshot
section (V2.1+), sources region, source-maps region. Returns the archive
and the remaining bytes (the reader handed back by the continuation). -/
def parseAfterOptions (options : Options) (supportsNpm : Bool) (b : Bytes) :
    PResult (EszipV2 × Bytes) :=
  match sectionRead options b with
  | .panicked m => .panicked m
  | .fail e => .fail e
  | .ok (modulesHeader, rest) =>
    if ¬ modulesHeader.isChecksumValid then .fail .invalidV2HeaderHash
    else
      match
        parseHeaderRecordsLoop supportsNpm (modulesHeader.content.length + 1)
          modulesHeader.content 0 [] []
      with
      | .panicked m => .panicked m
      | .fail e => .fail e
      | .ok (modules, npmSpecifiers) =>
        match
          (if supportsNpm then readNpmSection options npmSpecifiers rest
            else .ok (none, rest))
        with
        | .panicked m => .panicked m
        | .fail e => .fail e
        | .ok (npmSnapshot, rest2) =>
          let sourceOffsets := buildOffsets false modules
          let sourceMapOffsets := buildOffsets true modules
          match readU32P rest2 with
          | .panicked m => .panicked m
          | .fail e => .fail e
          | .ok (sourcesLen, rest3) =>
            match
              runRegionLoop options false (sourceOffsets.length + 1) sourceOffsets
                modules 0 sourcesLen rest3
            with
            | .panicked m => .panicked m
            | .fail e => .fail e
            | .ok (modules1, rest4) =>
              match readU32P rest4 with
              | .panicked m => .panicked m
              | .fail e => .fail e
              | .ok (sourceMapsLen, rest5) =>
                match
                  runRegionLoop options true (sourceMapOffsets.length + 1)
                    sourceMapOffsets modules1 0 sourceMapsLen rest5
                with
                | .panicked m => .panicked m
                | .fail e => .fail e
                | .ok (modules2, rest6) =>
                  .ok (⟨modules2, npmSnapshot, options⟩, rest6)

/-- `EszipV2::parse_with_magic`: settle the options (reading and
validating the V2.2 options section when present, else the per-version
defaults), then parse the rest. -/
def parseWithMagic (magic : Bytes) (b : Bytes) : PResult (EszipV2 × Bytes) :=
  let supportsNpm := magic ≠ ESZIP_V2_MAGIC
  let supportsOptions := magic = ESZIP_V2_2_MAGIC
  let options := Options.defaultForVersion magic
  if supportsOptions then
    let preOptions : Options := { checksum := some .noChecksum, checksumSize := none }
    match sectionRead preOptions b with
    | .panicked m => .panicked m
    | .fail e => .fail e
    | .ok (optionsHeader, rest) =>
      if optionsHeader.content.length % 2 ≠ 0 then
        .fail (.invalidV22OptionsHeader "options are expected to be byte tuples")
      else
        let options := applyOptionPairs optionsHeader.content options
        match options.checksumSizeResolved with
        | none => .fail (.invalidV22OptionsHeader "checksum size must be known")
        | some size =>
          if 1 ≤ size then
            match
              sectionReadWithSize options optionsHeader.content.length
                (optionsHeader.content ++ rest)
            with
            | .panicked m => .panicked m
            | .fail e => .fail e
            | .ok (withChecksum, rest2) =>
              if withChecksum.isChecksumValid then parseAfterOptions options supportsNpm rest2
              else .fail .invalidV22OptionsHeaderHash
          else parseAfterOptions options supportsNpm rest
  else parseAfterOptions options supportsNpm b

/-- `EszipV2::has_magic`. -/
def hasMagic (buffer : Bytes) : Bool :=
  decide (8 ≤ buffer.length ∧
    (buffer.take 8 = ESZIP_V2_MAGIC ∨ buffer.take 8 = ESZIP_V2_1_MAGIC ∨
      buffer.take 8 = ESZIP_V2_2_MAGIC))

/-- `EszipV2::parse`, with the continuation future run to completion:
read the eight magic bytes, check them, and dispatch. -/
def parseV2 (b : Bytes) : PResult (EszipV2 × Bytes) :=
  match b with
  | m0 :: m1 :: m2 :: m3 :: m4 :: m5 :: m6 :: m7 :: rest =>
    let magic : Bytes := [m0, m1, m2, m3, m4, m5, m6, m7]
    if hasMagic magic then parseWithMagic magic rest else .fail .invalidV2
  | _ => .fail .ioError

/-- An options-section body that never sets option id 0 (the checksum
selector): the first byte of every pair is non-zero. -/
def noOptId0 : Bytes → Bool
  | optId :: _ :: rest => optId ≠ 0 && noOptId0 rest
  | _ => true

/-! ### Helper lemmas on the association-list operations -/

theorem assocLookup_mem_keys {α β : Type} [DecidableEq α] {m : List (α × β)} {k : α}
    {v : β} (h : assocLookup m k = some v) : k ∈ m.map Prod.fst := by
  induction m with
  | nil => simp [assocLookup] at h
  | cons e rest ih =>
    obtain ⟨k', v'⟩ := e
    by_cases hk : k' = k
    · subst hk; simp
    · simp only [assocLookup, if_neg hk] at h
      simpa using Or.inr (ih h)

theorem assocLookup_assocReplace {α β : Type} [DecidableEq α] {m : List (α × β)}
    {k : α} {w : β} (v : β) (h : assocLookup m k = some w) :
    assocLookup (assocReplace m k v) k = some v := by
  induction m with
  | nil => simp [assocLookup] at h
  | cons e rest ih =>
    obtain ⟨k', v'⟩ := e
    by_cases hk : k' = k
    · subst hk; simp [assocReplace, assocLookup]
    · simp only [assocLookup, if_neg hk] at h
      simp only [assocReplace, if_neg hk, assocLookup, ih h]

theorem assocReplace_self {α β : Type} [DecidableEq α] {m : List (α × β)} {k : α}
    {v : β} (h : assocLookup m k = some v) : assocReplace m k v = m := by
  induction m with
  | nil => simp [assocReplace]
  | cons e rest ih =>
    obtain ⟨k', v'⟩ := e
    by_cases hk : k' = k
    · subst hk
      simp only [assocLookup, if_true, eq_self_iff_true, Option.some.injEq] at h
      simp [assocReplace]
      exact h.symm
    · simp only [assocLookup, if_neg hk] at h
      simp [assocReplace, if_neg hk, ih h]

theorem assocLookup_append_of_none {α β : Type} [DecidableEq α] {m : List (α × β)}
    {k : α} (l : List (α × β)) (h : assocLookup m k = none) :
    assocLookup (m ++ l) k = assocLookup l k := by
  induction m with
  | nil => simp
  | cons e rest ih =>
    obtain ⟨k', v'⟩ := e
    by_cases hk : k' = k
    · subst hk; simp [assocLookup] at h
    · simp only [assocLookup, if_neg hk] at h
      simp only [List.cons_append, assocLookup, if_neg hk]
      exact ih h

theorem assocEraseKey_append_of_none {α β : Type} [DecidableEq α] {m : List (α × β)}
    {k : α} (l : List (α × β)) (h : assocLookup m k = none) :
    assocEraseKey (m ++ l) k = m ++ assocEraseKey l k := by
  induction m with
  | nil => simp
  | cons e rest ih =>
    obtain ⟨k', v'⟩ := e
    by_cases hk : k' = k
    · subst hk; simp [assocLookup] at h
    · simp only [assocLookup, if_neg hk] at h
      simp only [List.cons_append, assocEraseKey, if_neg hk]
      exact congrArg (List.cons (k', v')) (ih h)

theorem take_append_of_length {α : Type} {n : Nat} (xs ys : List α)
    (h : xs.length = n) : (xs ++ ys).take n = xs := by
  subst h; exact List.take_left xs ys

theorem drop_append_of_length {α : Type} {n : Nat} (xs ys : List α)
    (h : xs.length = n) : (xs ++ ys).drop n = ys := by
  subst h; exact List.drop_left xs ys

/-! ### Termination of the redirect-chasing loop (towards C2) -/

theorem length_filter_out_cons {l : List Bytes} {s : Bytes} {visited : List Bytes}
    (hs : s ∈ l) (hnv : s ∉ visited) :
    (l.filter (fun x => decide (x ∉ s :: visited))).length <
      (l.filter (fun x => decide (x ∉ visited))).length := by
  induction l with
  | nil => simp at hs
  | cons a as ih =>
    have hmono : ∀ (t : List Bytes),
        (t.filter (fun x => decide (x ∉ s :: visited))).length ≤
          (t.filter (fun x => decide (x ∉ visited))).length := by
      intro t
      refine List.Sublist.length_le (List.monotone_filter_right t ?_)
      intro x hx
      simp only [decide_eq_true_eq] at hx ⊢
      intro hmem
      exact hx (by simp [hmem])
    by_cases ha : a = s
    · subst ha
      have h1 : (decide (a ∉ visited)) = true := decide_eq_true hnv
      have h2 : (decide (a ∉ a :: visited)) = false :=
        decide_eq_false (not_not_intro (List.mem_cons_self a visited))
      simp only [List.filter_cons, h1, h2, List.length_cons]
      exact Nat.lt_succ_of_le (hmono as)
    · have hs' : s ∈ as := by
        rcases List.mem_cons.mp hs with h | h
        · exact absurd h.symm ha
        · exact h
      by_cases hnew : a ∈ s :: visited
      · have h2 : (decide (a ∉ s :: visited)) = false :=
          decide_eq_false (not_not_intro hnew)
        simp only [List.filter_cons, h2]
        by_cases hold : a ∈ visited
        · have h1 : (decide (a ∉ visited)) = false :=
            decide_eq_false (not_not_intro hold)
          simp only [h1]
          exact ih hs'
        · have h1 : (decide (a ∉ visited)) = true := decide_eq_true hold
          simp only [h1, List.length_cons]
          exact Nat.lt_succ_of_lt (ih hs')
      · have h2 : (decide (a ∉ s :: visited)) = true := decide_eq_true hnew
        have hold : a ∉ visited := fun hmem => hnew (List.mem_cons_of_mem s hmem)
        have h1 : (decide (a ∉ visited)) = true := decide_eq_true hold
        simp only [List.filter_cons, h1, h2, List.length_cons]
        exact Nat.succ_lt_succ (ih hs')

/-- The count of not-yet-visited (distinct) specifier keys: the decreasing
measure of the redirect loop. -/
def unvisitedKeys (modules : ModMap) (visited : List Bytes) : Nat :=
  ((modules.map Prod.fst).dedup.filter (fun x => decide (x ∉ visited))).length

theorem lookupLoop_terminates_aux (modules : ModMap) :
    ∀ (fuel : Nat) (visited : List Bytes) (s : Bytes),
      s ∉ visited →
      unvisitedKeys modules visited < fuel →
      ∃ res hops, lookupLoop modules fuel visited s = some (res, hops) ∧
        hops ≤ unvisitedKeys modules visited ∧
        (∀ m, res = some m → ∃ kind source sourceMap,
          assocLookup modules m.specifier = some (.module kind source sourceMap)) := by
  intro fuel
  induction fuel with
  | zero => intro visited s _ hlt; exact absurd hlt (Nat.not_lt_zero _)
  | succ fuel ih =>
    intro visited s hnv hlt
    match hlook : assocLookup modules s with
    | none =>
      refine ⟨none, 0, ?_, Nat.zero_le _, ?_⟩
      · simp [lookupLoop, hlook]
      · intro m hm; cases hm
    | some (.module kind source sourceMap) =>
      refine ⟨some ⟨s, kind⟩, 0, ?_, Nat.zero_le _, ?_⟩
      · simp [lookupLoop, hlook]
      · intro m hm
        cases hm
        exact ⟨kind, source, sourceMap, hlook⟩
    | some (.redirect target) =>
      by_cases hvis : target ∈ s :: visited
      · refine ⟨none, 0, ?_, Nat.zero_le _, ?_⟩
        · simp [lookupLoop, hlook, hvis]
        · intro m hm; cases hm
      · have hkey : s ∈ (modules.map Prod.fst).dedup :=
          List.mem_dedup.mpr (assocLookup_mem_keys hlook)
        have hdec : unvisitedKeys modules (s :: visited) < unvisitedKeys modules visited :=
          length_filter_out_cons hkey hnv
        obtain ⟨res, hops, heq, hbound, hprop⟩ :=
          ih (s :: visited) target hvis (Nat.lt_of_lt_of_le hdec (Nat.lt_succ_iff.mp hlt))
        refine ⟨res, hops + 1, ?_, ?_, hprop⟩
        · simp [lookupLoop, hlook, hvis, heq]
        · exact Nat.succ_le_of_lt (Nat.lt_of_le_of_lt hbound hdec)

/-! ### Stepping lemmas for the module-table record loop -/

theorem parseHeaderRecordsLoop_nil (supportsNpm : Bool) (fuel pos : Nat)
    (modules : ModMap) (npmAcc : List (Bytes × Nat)) :
    parseHeaderRecordsLoop supportsNpm (fuel + 1) [] pos modules npmAcc =
      .ok (modules, npmAcc) := rfl

theorem parseHeaderRecordsLoop_module_step (supportsNpm : Bool) (fuel : Nat)
    (spec tail : Bytes) (so sl smo sml pos : Nat) (kind : ModuleKind)
    (modules : ModMap) (npmAcc : List (Bytes × Nat))
    (hspec : validUtf8 spec = true) (hlen : spec.length < 4294967296)
    (hso : so < 4294967296) (hsl : sl < 4294967296)
    (hsmo : smo < 4294967296) (hsml : sml < 4294967296) :
    parseHeaderRecordsLoop supportsNpm (fuel + 1)
        (u32be spec.length ++ spec ++ [0] ++ u32be so ++ u32be sl ++
          u32be smo ++ u32be sml ++ [kind.toTag] ++ tail) pos modules npmAcc =
      parseHeaderRecordsLoop supportsNpm fuel tail
        (pos + 4 + spec.length + 1 + 16 + 1)
        (lhmInsert modules spec
          (.module kind
            (if so = 0 ∧ sl = 0 then .ready [] else .pending so sl)
            (if smo = 0 ∧ sml = 0 then .ready [] else .pending smo sml)))
        npmAcc := by
  have harr : u32be spec.length ++ spec ++ [0] ++ u32be so ++ u32be sl ++
      u32be smo ++ u32be sml ++ [kind.toTag] ++ tail =
      (spec.length / 16777216 % 256) :: (spec.length / 65536 % 256) ::
        (spec.length / 256 % 256) :: (spec.length % 256) ::
        (spec ++ (0 :: (so / 16777216 % 256) :: (so / 65536 % 256) ::
          (so / 256 % 256) :: (so % 256) ::
          (sl / 16777216 % 256) :: (sl / 65536 % 256) ::
          (sl / 256 % 256) :: (sl % 256) ::
          (smo / 16777216 % 256) :: (smo / 65536 % 256) ::
          (smo / 256 % 256) :: (smo % 256) ::
          (sml / 16777216 % 256) :: (sml / 65536 % 256) ::
          (sml / 256 % 256) :: (sml % 256) :: kind.toTag :: tail)) := by
    simp [u32be]
  rw [harr]
  have hnotlt : ¬ ((spec ++ (0 :: (so / 16777216 % 256) :: (so / 65536 % 256) ::
      (so / 256 % 256) :: (so % 256) ::
      (sl / 16777216 % 256) :: (sl / 65536 % 256) ::
      (sl / 256 % 256) :: (sl % 256) ::
      (smo / 16777216 % 256) :: (smo / 65536 % 256) ::
      (smo / 256 % 256) :: (smo % 256) ::
      (sml / 16777216 % 256) :: (sml / 65536 % 256) ::
      (sml / 256 % 256) :: (sml % 256) :: kind.toTag :: tail)).length <
      spec.length) := by
    simp only [List.length_append, List.length_cons]
    omega
  simp only [parseHeaderRecordsLoop, decodeU32_u32be, Nat.mod_eq_of_lt hlen,
    Nat.mod_eq_of_lt hso, Nat.mod_eq_of_lt hsl, Nat.mod_eq_of_lt hsmo,
    Nat.mod_eq_of_lt hsml, if_neg hnotlt, take_append_of_length _ _ rfl,
    drop_append_of_length _ _ rfl, hspec, not_true_eq_false, Bool.false_eq_true,
    if_false]
  cases kind <;> rfl

theorem parseHeaderRecordsLoop_redirect_step (supportsNpm : Bool) (fuel : Nat)
    (spec target tail : Bytes) (pos : Nat) (modules : ModMap)
    (npmAcc : List (Bytes × Nat))
    (hspec : validUtf8 spec = true) (hlen : spec.length < 4294967296)
    (htarget : validUtf8 target = true) (htlen : target.length < 4294967296) :
    parseHeaderRecordsLoop supportsNpm (fuel + 1)
        (u32be spec.length ++ spec ++ [1] ++ u32be target.length ++ target ++ tail)
        pos modules npmAcc =
      parseHeaderRecordsLoop supportsNpm fuel tail
        (pos + 4 + spec.length + 1 + 4 + target.length)
        (lhmInsert modules spec (.redirect target)) npmAcc := by
  have harr : u32be spec.length ++ spec ++ [1] ++ u32be target.length ++ target ++ tail =
      (spec.length / 16777216 % 256) :: (spec.length / 65536 % 256) ::
        (spec.length / 256 % 256) :: (spec.length % 256) ::
        (spec ++ (1 :: (target.length / 16777216 % 256) ::
          (target.length / 65536 % 256) :: (target.length / 256 % 256) ::
          (target.length % 256) :: (target ++ tail))) := by
    simp [u32be]
  rw [harr]
  have hnotlt : ¬ ((spec ++ (1 :: (target.length / 16777216 % 256) ::
      (target.length / 65536 % 256) :: (target.length / 256 % 256) ::
      (target.length % 256) :: (target ++ tail))).length < spec.length) := by
    simp only [List.length_append, List.length_cons]
    omega
  have hnotlt2 : ¬ ((target ++ tail).length < target.length) := by
    simp only [List.length_append]
    omega
  simp only [parseHeaderRecordsLoop, decodeU32_u32be, Nat.mod_eq_of_lt hlen,
    Nat.mod_eq_of_lt htlen, if_neg hnotlt, if_neg hnotlt2,
    take_append_of_length _ _ rfl, drop_append_of_length _ _ rfl, hspec, htarget,
    not_true_eq_false, Bool.false_eq_true, if_false]

theorem parseHeaderRecordsLoop_npm_step (fuel : Nat) (spec tail : Bytes)
    (idx pos : Nat) (modules : ModMap) (npmAcc : List (Bytes × Nat))
    (hspec : validUtf8 spec = true) (hlen : spec.length < 4294967296)
    (hidx : idx < 4294967296) :
    parseHeaderRecordsLoop true (fuel + 1)
        (u32be spec.length ++ spec ++ [2] ++ u32be idx ++ tail) pos modules npmAcc =
      parseHeaderRecordsLoop true fuel tail (pos + 4 + spec.length + 1 + 4)
        modules (lhmInsert npmAcc spec idx) := by
  have harr : u32be spec.length ++ spec ++ [2] ++ u32be idx ++ tail =
      (spec.length / 16777216 % 256) :: (spec.length / 65536 % 256) ::
        (spec.length / 256 % 256) :: (spec.length % 256) ::
        (spec ++ (2 :: (idx / 16777216 % 256) :: (idx / 65536 % 256) ::
          (idx / 256 % 256) :: (idx % 256) :: tail)) := by
    simp [u32be]
  rw [harr]
  have hnotlt : ¬ ((spec ++ (2 :: (idx / 16777216 % 256) :: (idx / 65536 % 256) ::
      (idx / 256 % 256) :: (idx % 256) :: tail)).length < spec.length) := by
    simp only [List.length_append, List.length_cons]
    omega
  simp only [parseHeaderRecordsLoop, decodeU32_u32be, Nat.mod_eq_of_lt hlen,
    Nat.mod_eq_of_lt hidx, if_neg hnotlt, take_append_of_length _ _ rfl,
    drop_append_of_length _ _ rfl, hspec, not_true_eq_false, Bool.false_eq_true,
    if_false, if_true]

/-! ### Round-trip infrastructure (towards C1)

Well-formedness of an archive about to be serialized: exactly the
invariants every archive reachable through the public API satisfies
(strings are UTF-8 because they come from Rust `String`s, lengths fit in
`u32` on 64-bit streams the writer can produce, slots are `Ready` because
either the builder made them so or the parse continuation completed, the
maps have distinct keys because they model hash maps). -/

/-- Well-formedness of one module-map entry for serialization. -/
def entryWFB (entry : Bytes × EszipV2Module) : Bool :=
  validUtf8 entry.1 && decide (entry.1.length < 4294967296) &&
    (match entry.2 with
      | .module _ (.ready sourceBytes) (.ready sourceMapBytes) =>
        decide (sourceBytes.length < 4294967296) &&
          decide (sourceMapBytes.length < 4294967296)
      | .redirect target =>
        validUtf8 target && decide (target.length < 4294967296)
      | _ => false)

/-- Well-formedness of an npm snapshot for serialization: non-empty (the
only kind `add_npm_snapshot` stores), valid strings, in-range lengths,
resolvable package ids, and hash-map key distinctness. -/
def npmWFB (sn : NpmSnapshot) : Bool :=
  decide (sn.packages ≠ []) && decide (sn.packages.length < 4294967296) &&
  sn.packages.all (fun p =>
    validUtf8 p.id && decide (p.id.length < 4294967296) &&
      decide (p.dependencies.length < 4294967296) &&
      decide ((p.dependencies.map Prod.fst).Nodup) &&
      p.dependencies.all (fun dep =>
        validUtf8 dep.1 && decide (dep.1.length < 4294967296) &&
          (idsToIndex sn.packages dep.2).isSome)) &&
  decide ((sn.rootPackages.map Prod.fst).Nodup) &&
  sn.rootPackages.all (fun r =>
    validUtf8 r.1 && decide (r.1.length < 4294967296) &&
      (idsToIndex sn.packages r.2).isSome)

/-- The `(specifier, body)` pairs of the modules with a non-empty source,
in specifier order: the bodies laid out in the sources region. -/
def srcEntries : List (Bytes × EszipV2Module) → List (Bytes × Bytes)
  | [] => []
  | (spec, .module _ (.ready sourceBytes) _) :: rest =>
    if sourceBytes.length % 4294967296 > 0 then (spec, sourceBytes) :: srcEntries rest
    else srcEntries rest
  | _ :: rest => srcEntries rest

/-- Likewise for source maps. -/
def mapEntries : List (Bytes × EszipV2Module) → List (Bytes × Bytes)
  | [] => []
  | (spec, .module _ _ (.ready sourceMapBytes)) :: rest =>
    if sourceMapBytes.length % 4294967296 > 0 then (spec, sourceMapBytes) :: mapEntries rest
    else mapEntries rest
  | _ :: rest => mapEntries rest

/-- The bytes of a data region: each body followed by its digest. -/
def regionBytes (c : Checksum) : List (Bytes × Bytes) → Bytes
  | [] => []
  | (_, b) :: rest => b ++ (c.hash b ++ regionBytes c rest)

/-- The offsets map of a data region, starting at a given offset. -/
def offsetsOf (c : Checksum) : List (Bytes × Bytes) → Nat → List (Nat × (Nat × Bytes))
  | [], _ => []
  | (spec, b) :: rest, pos =>
    (pos, (b.length, spec)) :: offsetsOf c rest (pos + b.length + c.digestSize)

/-- The modules map as the header parser leaves it: `Pending` slots at the
offsets the writer assigned, `Ready []` slots for empty payloads. -/
def parsedEntries (c : Checksum) :
    List (Bytes × EszipV2Module) → Nat → Nat → ModMap
  | [], _, _ => []
  | (spec, .module kind (.ready sb) (.ready smb)) :: rest, so, mo =>
    (spec, .module kind
      (if sb.length % 4294967296 > 0 then .pending so sb.length else .ready [])
      (if smb.length % 4294967296 > 0 then .pending mo smb.length else .ready [])) ::
      parsedEntries c rest
        (if sb.length % 4294967296 > 0 then so + sb.length + c.digestSize else so)
        (if smb.length % 4294967296 > 0 then mo + smb.length + c.digestSize else mo)
  | (spec, .redirect target) :: rest, so, mo =>
    (spec, .redirect target) :: parsedEntries c rest so mo
  | _ :: rest, so, mo => parsedEntries c rest so mo

/-- The modules map after the sources region has been consumed: source
slots `Ready` with their bytes, source-map slots still as parsed. -/
def halfFilled (c : Checksum) : List (Bytes × EszipV2Module) → Nat → ModMap
  | [], _ => []
  | (spec, .module kind (.ready sb) (.ready smb)) :: rest, mo =>
    (spec, .module kind (.ready sb)
      (if smb.length % 4294967296 > 0 then .pending mo smb.length else .ready [])) ::
      halfFilled c rest
        (if smb.length % 4294967296 > 0 then mo + smb.length + c.digestSize else mo)
  | (spec, .redirect target) :: rest, mo =>
    (spec, .redirect target) :: halfFilled c rest mo
  | _ :: rest, mo => halfFilled c rest mo

/-- The slot update the region loop performs at each step (total form of
`setSlotReady` on the success path). -/
def setReadyForce (isMap : Bool) (modules : ModMap) (specifier : Bytes)
    (content : Bytes) : ModMap :=
  match assocLookup modules specifier with
  | some (.module kind source sourceMap) =>
    assocReplace modules specifier
      (if isMap then .module kind source (.ready content)
        else .module kind (.ready content) sourceMap)
  | _ => modules

/-- All region bodies applied in order. -/
def fillSlots (isMap : Bool) (modules : ModMap) : List (Bytes × Bytes) → ModMap
  | [] => modules
  | (spec, b) :: rest => fillSlots isMap (setReadyForce isMap modules spec b) rest

/-- The invariant the region loop maintains: each listed entry's slot is
`Pending` at the running offset with the body's length, in the map as
updated by all earlier steps. -/
def ModsMatch (c : Checksum) (isMap : Bool) :
    ModMap → List (Bytes × Bytes) → Nat → Prop
  | _, [], _ => True
  | modules, (spec, b) :: rest, pos =>
    (∃ kind source sourceMap,
      assocLookup modules spec = some (.module kind source sourceMap) ∧
      (if isMap then sourceMap else source) = .pending pos b.length) ∧
    ModsMatch c isMap (setReadyForce isMap modules spec b) rest
      (pos + b.length + c.digestSize)

/-- Fold a list of entries into a map with `lhmInsert` (the shape both
accumulating loops of the header parser produce). -/
def insertList {α β : Type} [DecidableEq α] (m : List (α × β))
    (entries : List (α × β)) : List (α × β) :=
  entries.foldl (fun acc e => lhmInsert acc e.1 e.2) m

/-- The npm-specifier records' view of the root packages: requirement
string paired with the written package index. -/
def rootsIdx (packages : List NpmPackage) (roots : List (Bytes × Bytes)) :
    List (Bytes × Nat) :=
  roots.map (fun r => (r.1, (idsToIndex packages r.2).getD 0))

/-- The byte length of one module-table record. -/
def recordLenOf (e : Bytes × EszipV2Module) : Nat :=
  match e.2 with
  | .module _ _ _ => e.1.length + 22
  | .redirect target => e.1.length + target.length + 9

/-- The byte length of the module records of the table body. -/
def tableLenOf (ms : List (Bytes × EszipV2Module)) : Nat :=
  (ms.map recordLenOf).sum

/-- The byte length of the npm root records of the table body. -/
def rootsLenOf (roots : List (Bytes × Bytes)) : Nat :=
  (roots.map (fun r => r.1.length + 9)).sum

/-- The byte length of one npm dependency record. -/
def depRecordLen (d : Bytes × Bytes) : Nat := d.1.length + 8

/-- The byte length of one npm package record. -/
def pkgRecordLenOf (p : NpmPackage) : Nat :=
  p.id.length + 8 + (p.dependencies.map depRecordLen).sum

/-- The byte length of the npm snapshot body. -/
def npmBytesLenOf (pkgs : List NpmPackage) : Nat :=
  (pkgs.map pkgRecordLenOf).sum

theorem tableLenOf_ge (ms : List (Bytes × EszipV2Module)) :
    ms.length ≤ tableLenOf ms := by
  induction ms with
  | nil => simp [tableLenOf]
  | cons e rest ih =>
    have he : 1 ≤ recordLenOf e := by
      obtain ⟨spec, md⟩ := e
      cases md <;> simp [recordLenOf]
    simp only [tableLenOf, List.map_cons, List.sum_cons, List.length_cons]
    simp only [tableLenOf] at ih
    omega

theorem rootsLenOf_ge (roots : List (Bytes × Bytes)) :
    roots.length ≤ rootsLenOf roots := by
  induction roots with
  | nil => simp [rootsLenOf]
  | cons r rest ih =>
    simp only [rootsLenOf, List.map_cons, List.sum_cons, List.length_cons]
    simp only [rootsLenOf] at ih
    omega

theorem Checksum.fromU8_toTag (c : Checksum) : Checksum.fromU8 c.toTag = some c := by
  cases c <;> rfl

theorem idsToIndex_lt_length {packages : List NpmPackage} {id : Bytes} {n : Nat}
    (h : idsToIndex packages id = some n) : n < packages.length := by
  induction packages generalizing n with
  | nil => simp [idsToIndex] at h
  | cons p rest ih =>
    simp only [idsToIndex] at h
    cases hr : (idsToIndex rest id).map (· + 1) with
    | none =>
      rw [hr] at h
      by_cases hid : p.id = id
      · simp only [hid, if_true] at h
        cases h
        simp
      · simp [hid] at h
    | some j =>
      rw [hr] at h
      cases h
      obtain ⟨j', hj', rfl⟩ := Option.map_eq_some'.mp hr
      exact Nat.succ_lt_succ (ih hj')

theorem idsToIndex_get {packages : List NpmPackage} {id : Bytes} {n : Nat}
    (h : idsToIndex packages id = some n) :
    (packages.map NpmPackage.id).get? n = some id := by
  induction packages generalizing n with
  | nil => simp [idsToIndex] at h
  | cons p rest ih =>
    simp only [idsToIndex] at h
    cases hr : (idsToIndex rest id).map (· + 1) with
    | none =>
      rw [hr] at h
      by_cases hid : p.id = id
      · simp only [hid, if_true] at h
        cases h
        simp [hid]
      · simp [hid] at h
    | some j =>
      rw [hr] at h
      cases h
      obtain ⟨j', hj', rfl⟩ := Option.map_eq_some'.mp hr
      simpa using ih hj'

theorem regionBytes_length (c : Checksum) (L : List (Bytes × Bytes)) :
    (regionBytes c L).length =
      (L.map (fun e => e.2.length + c.digestSize)).sum := by
  induction L with
  | nil => rfl
  | cons e rest ih =>
    obtain ⟨spec, b⟩ := e
    simp [regionBytes, ih, Checksum.hash_length, Nat.add_assoc]

/-- The module-table correspondence: on well-formed entries the writer
loop succeeds, appends the table records to the header and the payloads
to the two regions, and the header parser consumes exactly those records,
inserting the `parsedEntries` image of the archive. -/
theorem writeModulesLoop_spec (c : Checksum) :
    ∀ (ms : List (Bytes × EszipV2Module)) (h s m : Bytes),
      (∀ e ∈ ms, entryWFB e = true) →
      s.length + (regionBytes c (srcEntries ms)).length < 4294967296 →
      m.length + (regionBytes c (mapEntries ms)).length < 4294967296 →
      ∃ Δ, writeModulesLoop c ms h s m =
          some (h ++ Δ, s ++ regionBytes c (srcEntries ms),
            m ++ regionBytes c (mapEntries ms)) ∧
        Δ.length = tableLenOf ms ∧
        ∀ (supportsNpm : Bool) (fuel : Nat) (tail : Bytes) (pos : Nat)
          (mods : ModMap) (npmAcc : List (Bytes × Nat)),
          parseHeaderRecordsLoop supportsNpm (fuel + ms.length) (Δ ++ tail) pos
              mods npmAcc =
            parseHeaderRecordsLoop supportsNpm fuel tail (pos + Δ.length)
              (insertList mods (parsedEntries c ms s.length m.length)) npmAcc := by
  intro ms
  induction ms with
  | nil =>
    intro h s m _ _ _
    refine ⟨[], ?_, rfl, ?_⟩
    · simp [writeModulesLoop, srcEntries, mapEntries, regionBytes]
    · intro supportsNpm fuel tail pos mods npmAcc
      simp [insertList, parsedEntries]
  | cons entry rest ih =>
    intro h s m hWF hsrcB hmapB
    obtain ⟨spec, md⟩ := entry
    have hWFhead := hWF (spec, md) (List.mem_cons_self _ _)
    have hWFrest : ∀ e ∈ rest, entryWFB e = true :=
      fun e he => hWF e (List.mem_cons_of_mem _ he)
    simp only [entryWFB, Bool.and_eq_true, decide_eq_true_eq] at hWFhead
    obtain ⟨⟨hspec, hlen⟩, hmd⟩ := hWFhead
    cases md with
    | module kind source sourceMap =>
      cases source with
      | pending o l => simp at hmd
      | taken => simp at hmd
      | ready sb =>
        cases sourceMap with
        | pending o l => simp at hmd
        | taken => simp at hmd
        | ready smb =>
          simp only [Bool.and_eq_true, decide_eq_true_eq] at hmd
          obtain ⟨hsb, hsmb⟩ := hmd
          by_cases c1 : sb.length % 4294967296 > 0
          · have hsbpos : 0 < sb.length := by omega
            have hsbne : ¬ (s.length = 0 ∧ sb.length = 0) := by omega
            have hsrcE : srcEntries ((spec, .module kind (.ready sb) (.ready smb)) :: rest) =
                (spec, sb) :: srcEntries rest := by
              simp only [srcEntries, if_pos c1]
            have hRsrc : regionBytes c ((spec, sb) :: srcEntries rest) =
                sb ++ (c.hash sb ++ regionBytes c (srcEntries rest)) := rfl
            have hsB' : (s ++ sb ++ c.hash sb).length =
                s.length + sb.length + c.digestSize := by
              simp only [List.length_append, Checksum.hash_length]
            by_cases c2 : smb.length % 4294967296 > 0
            · -- both payloads present
              have hsmbpos : 0 < smb.length := by omega
              have hsmbne : ¬ (m.length = 0 ∧ smb.length = 0) := by omega
              have hmapE : mapEntries ((spec, .module kind (.ready sb) (.ready smb)) :: rest) =
                  (spec, smb) :: mapEntries rest := by
                simp only [mapEntries, if_pos c2]
              have hmB' : (m ++ smb ++ c.hash smb).length =
                  m.length + smb.length + c.digestSize := by
                simp only [List.length_append, Checksum.hash_length]
              have hsrcB' : (s ++ sb ++ c.hash sb).length +
                  (regionBytes c (srcEntries rest)).length < 4294967296 := by
                rw [hsB']
                rw [hsrcE, hRsrc] at hsrcB
                simp only [List.length_append, Checksum.hash_length] at hsrcB
                omega
              have hmapB' : (m ++ smb ++ c.hash smb).length +
                  (regionBytes c (mapEntries rest)).length < 4294967296 := by
                rw [hmB']
                rw [hmapE] at hmapB
                simp only [regionBytes, List.length_append, Checksum.hash_length] at hmapB
                omega
              obtain ⟨Δr, hwrite, hlenr, hparse⟩ :=
                ih (h ++ u32be spec.length ++ spec ++ [0] ++ u32be s.length ++
                    u32be sb.length ++ u32be m.length ++ u32be smb.length ++ [kind.toTag])
                  (s ++ sb ++ c.hash sb) (m ++ smb ++ c.hash smb) hWFrest hsrcB' hmapB'
              refine ⟨(u32be spec.length ++ spec ++ [0] ++ u32be s.length ++
                  u32be sb.length ++ u32be m.length ++ u32be smb.length ++
                  [kind.toTag]) ++ Δr, ?_, ?_, ?_⟩
              · simp only [writeModulesLoop, EszipV2SourceSlot.bytesOf, if_pos c1,
                  if_pos c2, hwrite, hsrcE, hmapE, hRsrc]
                simp [List.append_assoc, regionBytes]
              · simp only [List.length_append, List.length_cons, List.length_nil,
                  u32be_length, tableLenOf, recordLenOf, List.map_cons, List.sum_cons]
                simp only [tableLenOf] at hlenr
                omega
              · intro supportsNpm fuel tail pos mods npmAcc
                have hb : ((u32be spec.length ++ spec ++ [0] ++ u32be s.length ++
                    u32be sb.length ++ u32be m.length ++ u32be smb.length ++
                    [kind.toTag]) ++ Δr) ++ tail =
                    u32be spec.length ++ spec ++ [0] ++ u32be s.length ++
                      u32be sb.length ++ u32be m.length ++ u32be smb.length ++
                      [kind.toTag] ++ (Δr ++ tail) := by
                  simp [List.append_assoc]
                rw [hb]
                have hfuel : fuel + ((spec, EszipV2Module.module kind (.ready sb)
                    (.ready smb)) :: rest).length = (fuel + rest.length) + 1 := by
                  simp only [List.length_cons]
                  omega
                rw [hfuel]
                rw [parseHeaderRecordsLoop_module_step supportsNpm (fuel + rest.length)
                  spec (Δr ++ tail) s.length sb.length m.length smb.length pos kind
                  mods npmAcc hspec hlen (by omega) hsb (by omega) hsmb]
                rw [if_neg hsbne, if_neg hsmbne]
                rw [hparse supportsNpm fuel tail _ _ npmAcc]
                have hpe : parsedEntries c ((spec, EszipV2Module.module kind (.ready sb)
                    (.ready smb)) :: rest) s.length m.length =
                    (spec, .module kind (.pending s.length sb.length)
                      (.pending m.length smb.length)) ::
                      parsedEntries c rest (s.length + sb.length + c.digestSize)
                        (m.length + smb.length + c.digestSize) := by
                  simp only [parsedEntries, if_pos c1, if_pos c2]
                rw [hpe, hsB', hmB']
                have hpos : pos + 4 + spec.length + 1 + 16 + 1 + Δr.length =
                    pos + (((u32be spec.length ++ spec ++ [0] ++ u32be s.length ++
                      u32be sb.length ++ u32be m.length ++ u32be smb.length ++
                      [kind.toTag]) ++ Δr).length) := by
                  simp only [List.length_append, List.length_cons, List.length_nil,
                    u32be_length]
                  omega
                rw [hpos]
                rfl
            · -- source present, source map absent
              have hsmb0 : smb.length = 0 := by omega
              have hsmbnil : smb = [] := List.length_eq_zero.mp hsmb0
              have hmapE : mapEntries ((spec, .module kind (.ready sb) (.ready smb)) :: rest) =
                  mapEntries rest := by
                simp only [mapEntries, if_neg c2]
              have hsrcB' : (s ++ sb ++ c.hash sb).length +
                  (regionBytes c (srcEntries rest)).length < 4294967296 := by
                rw [hsB']
                rw [hsrcE, hRsrc] at hsrcB
                simp only [List.length_append, Checksum.hash_length] at hsrcB
                omega
              have hmapB' : m.length + (regionBytes c (mapEntries rest)).length
                  < 4294967296 := by
                rw [hmapE] at hmapB
                exact hmapB
              obtain ⟨Δr, hwrite, hlenr, hparse⟩ :=
                ih (h ++ u32be spec.length ++ spec ++ [0] ++ u32be s.length ++
                    u32be sb.length ++ u32be 0 ++ u32be 0 ++ [kind.toTag])
                  (s ++ sb ++ c.hash sb) m hWFrest hsrcB' hmapB'
              refine ⟨(u32be spec.length ++ spec ++ [0] ++ u32be s.length ++
                  u32be sb.length ++ u32be 0 ++ u32be 0 ++ [kind.toTag]) ++ Δr,
                  ?_, ?_, ?_⟩
              · simp only [writeModulesLoop, EszipV2SourceSlot.bytesOf, if_pos c1,
                  if_neg c2, hwrite, hsrcE, hmapE, hRsrc]
                simp [List.append_assoc, regionBytes]
              · simp only [List.length_append, List.length_cons, List.length_nil,
                  u32be_length, tableLenOf, recordLenOf, List.map_cons, List.sum_cons]
                simp only [tableLenOf] at hlenr
                omega
              · intro supportsNpm fuel tail pos mods npmAcc
                have hb : ((u32be spec.length ++ spec ++ [0] ++ u32be s.length ++
                    u32be sb.length ++ u32be 0 ++ u32be 0 ++ [kind.toTag]) ++ Δr) ++
                    tail =
                    u32be spec.length ++ spec ++ [0] ++ u32be s.length ++
                      u32be sb.length ++ u32be 0 ++ u32be 0 ++ [kind.toTag] ++
                      (Δr ++ tail) := by
                  simp [List.append_assoc]
                rw [hb]
                have hfuel : fuel + ((spec, EszipV2Module.module kind (.ready sb)
                    (.ready smb)) :: rest).length = (fuel + rest.length) + 1 := by
                  simp only [List.length_cons]
                  omega
                rw [hfuel]
                rw [parseHeaderRecordsLoop_module_step supportsNpm (fuel + rest.length)
                  spec (Δr ++ tail) s.length sb.length 0 0 pos kind mods npmAcc
                  hspec hlen (by omega) hsb (by omega) (by omega)]
                rw [if_neg hsbne, if_pos ⟨rfl, rfl⟩]
                rw [hparse supportsNpm fuel tail _ _ npmAcc]
                have hpe : parsedEntries c ((spec, EszipV2Module.module kind (.ready sb)
                    (.ready smb)) :: rest) s.length m.length =
                    (spec, .module kind (.pending s.length sb.length) (.ready [])) ::
                      parsedEntries c rest (s.length + sb.length + c.digestSize)
                        m.length := by
                  simp only [parsedEntries, if_pos c1, if_neg c2]
                rw [hpe, hsB']
                have hpos : pos + 4 + spec.length + 1 + 16 + 1 + Δr.length =
                    pos + (((u32be spec.length ++ spec ++ [0] ++ u32be s.length ++
                      u32be sb.length ++ u32be 0 ++ u32be 0 ++
                      [kind.toTag]) ++ Δr).length) := by
                  simp only [List.length_append, List.length_cons, List.length_nil,
                    u32be_length]
                  omega
                rw [hpos]
                rfl
          · -- source absent
            have hsb0 : sb.length = 0 := by omega
            have hsbnil : sb = [] := List.length_eq_zero.mp hsb0
            have hsrcE : srcEntries ((spec, .module kind (.ready sb) (.ready smb)) :: rest) =
                srcEntries rest := by
              simp only [srcEntries, if_neg c1]
            have hsrcB' : s.length + (regionBytes c (srcEntries rest)).length
                < 4294967296 := by
              rw [hsrcE] at hsrcB
              exact hsrcB
            by_cases c2 : smb.length % 4294967296 > 0
            · -- source absent, source map present
              have hsmbpos : 0 < smb.length := by omega
              have hsmbne : ¬ (m.length = 0 ∧ smb.length = 0) := by omega
              have hmapE : mapEntries ((spec, .module kind (.ready sb) (.ready smb)) :: rest) =
                  (spec, smb) :: mapEntries rest := by
                simp only [mapEntries, if_pos c2]
              have hmB' : (m ++ smb ++ c.hash smb).length =
                  m.length + smb.length + c.digestSize := by
                simp only [List.length_append, Checksum.hash_length]
              have hmapB' : (m ++ smb ++ c.hash smb).length +
                  (regionBytes c (mapEntries rest)).length < 4294967296 := by
                rw [hmB']
                rw [hmapE] at hmapB
                simp only [regionBytes, List.length_append, Checksum.hash_length] at hmapB
                omega
              obtain ⟨Δr, hwrite, hlenr, hparse⟩ :=
                ih (h ++ u32be spec.length ++ spec ++ [0] ++ u32be 0 ++ u32be 0 ++
                    u32be m.length ++ u32be smb.length ++ [kind.toTag])
                  s (m ++ smb ++ c.hash smb) hWFrest hsrcB' hmapB'
              refine ⟨(u32be spec.length ++ spec ++ [0] ++ u32be 0 ++ u32be 0 ++
                  u32be m.length ++ u32be smb.length ++ [kind.toTag]) ++ Δr,
                  ?_, ?_, ?_⟩
              · simp only [writeModulesLoop, EszipV2SourceSlot.bytesOf, if_neg c1,
                  if_pos c2, hwrite, hsrcE, hmapE]
                simp [List.append_assoc, regionBytes]
              · simp only [List.length_append, List.length_cons, List.length_nil,
                  u32be_length, tableLenOf, recordLenOf, List.map_cons, List.sum_cons]
                simp only [tableLenOf] at hlenr
                omega
              · intro supportsNpm fuel tail pos mods npmAcc
                have hb : ((u32be spec.length ++ spec ++ [0] ++ u32be 0 ++ u32be 0 ++
                    u32be m.length ++ u32be smb.length ++ [kind.toTag]) ++ Δr) ++
                    tail =
                    u32be spec.length ++ spec ++ [0] ++ u32be 0 ++ u32be 0 ++
                      u32be m.length ++ u32be smb.length ++ [kind.toTag] ++
                      (Δr ++ tail) := by
                  simp [List.append_assoc]
                rw [hb]
                have hfuel : fuel + ((spec, EszipV2Module.module kind (.ready sb)
                    (.ready smb)) :: rest).length = (fuel + rest.length) + 1 := by
                  simp only [List.length_cons]
                  omega
                rw [hfuel]
                rw [parseHeaderRecordsLoop_module_step supportsNpm (fuel + rest.length)
                  spec (Δr ++ tail) 0 0 m.length smb.length pos kind mods npmAcc
                  hspec hlen (by omega) (by omega) (by omega) hsmb]
                rw [if_pos ⟨rfl, rfl⟩, if_neg hsmbne]
                rw [hparse supportsNpm fuel tail _ _ npmAcc]
                have hpe : parsedEntries c ((spec, EszipV2Module.module kind (.ready sb)
                    (.ready smb)) :: rest) s.length m.length =
                    (spec, .module kind (.ready [])
                      (.pending m.length smb.length)) ::
                      parsedEntries c rest s.length
                        (m.length + smb.length + c.digestSize) := by
                  simp only [parsedEntries, if_neg c1, if_pos c2]
                rw [hpe, hmB']
                have hpos : pos + 4 + spec.length + 1 + 16 + 1 + Δr.length =
                    pos + (((u32be spec.length ++ spec ++ [0] ++ u32be 0 ++ u32be 0 ++
                      u32be m.length ++ u32be smb.length ++
                      [kind.toTag]) ++ Δr).length) := by
                  simp only [List.length_append, List.length_cons, List.length_nil,
                    u32be_length]
                  omega
                rw [hpos]
                rfl
            · -- neither payload present
              have hsmb0 : smb.length = 0 := by omega
              have hsmbnil : smb = [] := List.length_eq_zero.mp hsmb0
              have hmapE : mapEntries ((spec, .module kind (.ready sb) (.ready smb)) :: rest) =
                  mapEntries rest := by
                simp only [mapEntries, if_neg c2]
              have hmapB' : m.length + (regionBytes c (mapEntries rest)).length
                  < 4294967296 := by
                rw [hmapE] at hmapB
                exact hmapB
              obtain ⟨Δr, hwrite, hlenr, hparse⟩ :=
                ih (h ++ u32be spec.length ++ spec ++ [0] ++ u32be 0 ++ u32be 0 ++
                    u32be 0 ++ u32be 0 ++ [kind.toTag]) s m hWFrest hsrcB' hmapB'
              refine ⟨(u32be spec.length ++ spec ++ [0] ++ u32be 0 ++ u32be 0 ++
                  u32be 0 ++ u32be 0 ++ [kind.toTag]) ++ Δr, ?_, ?_, ?_⟩
              · simp only [writeModulesLoop, EszipV2SourceSlot.bytesOf, if_neg c1,
                  if_neg c2, hwrite, hsrcE, hmapE]
                simp [List.append_assoc]
              · simp only [List.length_append, List.length_cons, List.length_nil,
                  u32be_length, tableLenOf, recordLenOf, List.map_cons, List.sum_cons]
                simp only [tableLenOf] at hlenr
                omega
              · intro supportsNpm fuel tail pos mods npmAcc
                have hb : ((u32be spec.length ++ spec ++ [0] ++ u32be 0 ++ u32be 0 ++
                    u32be 0 ++ u32be 0 ++ [kind.toTag]) ++ Δr) ++ tail =
                    u32be spec.length ++ spec ++ [0] ++ u32be 0 ++ u32be 0 ++
                      u32be 0 ++ u32be 0 ++ [kind.toTag] ++ (Δr ++ tail) := by
                  simp [List.append_assoc]
                rw [hb]
                have hfuel : fuel + ((spec, EszipV2Module.module kind (.ready sb)
                    (.ready smb)) :: rest).length = (fuel + rest.length) + 1 := by
                  simp only [List.length_cons]
                  omega
                rw [hfuel]
                rw [parseHeaderRecordsLoop_module_step supportsNpm (fuel + rest.length)
                  spec (Δr ++ tail) 0 0 0 0 pos kind mods npmAcc hspec hlen
                  (by omega) (by omega) (by omega) (by omega)]
                rw [if_pos ⟨rfl, rfl⟩]
                rw [hparse supportsNpm fuel tail _ _ npmAcc]
                have hpe : parsedEntries c ((spec, EszipV2Module.module kind (.ready sb)
                    (.ready smb)) :: rest) s.length m.length =
                    (spec, .module kind (.ready []) (.ready [])) ::
                      parsedEntries c rest s.length m.length := by
                  simp only [parsedEntries, if_neg c1, if_neg c2]
                rw [hpe]
                have hpos : pos + 4 + spec.length + 1 + 16 + 1 + Δr.length =
                    pos + (((u32be spec.length ++ spec ++ [0] ++ u32be 0 ++ u32be 0 ++
                      u32be 0 ++ u32be 0 ++ [kind.toTag]) ++ Δr).length) := by
                  simp only [List.length_append, List.length_cons, List.length_nil,
                    u32be_length]
                  omega
                rw [hpos]
                rfl
    | redirect target =>
      simp only [Bool.and_eq_true, decide_eq_true_eq] at hmd
      obtain ⟨htarget, htlen⟩ := hmd
      have hsrcE : srcEntries ((spec, EszipV2Module.redirect target) :: rest) =
          srcEntries rest := rfl
      have hmapE : mapEntries ((spec, EszipV2Module.redirect target) :: rest) =
          mapEntries rest := rfl
      obtain ⟨Δr, hwrite, hlenr, hparse⟩ :=
        ih (h ++ u32be spec.length ++ spec ++ [1] ++ u32be target.length ++ target)
          s m hWFrest (by rw [hsrcE] at hsrcB; exact hsrcB)
          (by rw [hmapE] at hmapB; exact hmapB)
      refine ⟨(u32be spec.length ++ spec ++ [1] ++ u32be target.length ++ target) ++ Δr,
          ?_, ?_, ?_⟩
      · simp only [writeModulesLoop, hwrite, hsrcE, hmapE]
        simp [List.append_assoc]
      · simp only [List.length_append, List.length_cons, List.length_nil,
          u32be_length, tableLenOf, recordLenOf, List.map_cons, List.sum_cons]
        simp only [tableLenOf] at hlenr
        omega
      · intro supportsNpm fuel tail pos mods npmAcc
        have hb : ((u32be spec.length ++ spec ++ [1] ++ u32be target.length ++
            target) ++ Δr) ++ tail =
            u32be spec.length ++ spec ++ [1] ++ u32be target.length ++ target ++
              (Δr ++ tail) := by
          simp [List.append_assoc]
        rw [hb]
        have hfuel : fuel + ((spec, EszipV2Module.redirect target) :: rest).length =
            (fuel + rest.length) + 1 := by
          simp only [List.length_cons]
          omega
        rw [hfuel]
        rw [parseHeaderRecordsLoop_redirect_step supportsNpm (fuel + rest.length)
          spec target (Δr ++ tail) pos mods npmAcc hspec hlen htarget htlen]
        rw [hparse supportsNpm fuel tail _ _ npmAcc]
        have hpe : parsedEntries c ((spec, EszipV2Module.redirect target) :: rest)
            s.length m.length =
            (spec, EszipV2Module.redirect target) ::
              parsedEntries c rest s.length m.length := rfl
        rw [hpe]
        have hpos : pos + 4 + spec.length + 1 + 4 + target.length + Δr.length =
            pos + (((u32be spec.length ++ spec ++ [1] ++ u32be target.length ++
              target) ++ Δr).length) := by
          simp only [List.length_append, List.length_cons, List.length_nil,
            u32be_length]
          omega
        rw [hpos]
        rfl

theorem lhmInsert_of_none {α β : Type} [DecidableEq α] {m : List (α × β)} {k : α}
    (v : β) (h : assocLookup m k = none) : lhmInsert m k v = m ++ [(k, v)] := by
  simp [lhmInsert, h]

/-- Folding fresh, distinct keys into a map with `lhmInsert` is plain
appending. -/
theorem insertList_append {α β : Type} [DecidableEq α] :
    ∀ (entries mods : List (α × β)),
      (∀ k ∈ entries.map Prod.fst, assocLookup mods k = none) →
      (entries.map Prod.fst).Nodup →
      insertList mods entries = mods ++ entries
  | [], mods, _, _ => by simp [insertList]
  | (k, v) :: rest, mods, hdisj, hnodup => by
    have hk : assocLookup mods k = none := hdisj k (by simp)
    have hstep : insertList mods ((k, v) :: rest) =
        insertList (lhmInsert mods k v) rest := rfl
    rw [hstep, lhmInsert_of_none v hk]
    simp only [List.map_cons, List.nodup_cons] at hnodup
    have hdisj' : ∀ k' ∈ rest.map Prod.fst,
        assocLookup (mods ++ [(k, v)]) k' = none := by
      intro k' hk'
      rw [assocLookup_append_of_none _ (hdisj k' (by simp [hk']))]
      have hne : k ≠ k' := fun he => hnodup.1 (he ▸ hk')
      simp [assocLookup, hne]
    rw [insertList_append rest (mods ++ [(k, v)]) hdisj' hnodup.2]
    simp

/-- The header parser's module map has exactly the archive's keys, in
order. -/
theorem parsedEntries_keys (c : Checksum) :
    ∀ (ms : List (Bytes × EszipV2Module)) (so mo : Nat),
      (∀ e ∈ ms, entryWFB e = true) →
      (parsedEntries c ms so mo).map Prod.fst = ms.map Prod.fst
  | [], _, _, _ => rfl
  | (spec, md) :: rest, so, mo, hWF => by
    have hWFhead := hWF (spec, md) (List.mem_cons_self _ _)
    have hWFrest : ∀ e ∈ rest, entryWFB e = true :=
      fun e he => hWF e (List.mem_cons_of_mem _ he)
    cases md with
    | module kind source sourceMap =>
      cases source with
      | pending o l => simp [entryWFB] at hWFhead
      | taken => simp [entryWFB] at hWFhead
      | ready sb =>
        cases sourceMap with
        | pending o l => simp [entryWFB] at hWFhead
        | taken => simp [entryWFB] at hWFhead
        | ready smb =>
          simp only [parsedEntries, List.map_cons]
          rw [parsedEntries_keys c rest _ _ hWFrest]
    | redirect target =>
      simp only [parsedEntries, List.map_cons]
      rw [parsedEntries_keys c rest so mo hWFrest]

/-- The npm root-record correspondence: the writer appends one
`NpmSpecifier` record per root package (indices resolved through
`ids_to_eszip_ids`), and the header parser consumes them, inserting the
requirement-to-index map. -/
theorem writeNpmRootsLoop_spec (pkgs : List NpmPackage) (hpkgs : pkgs.length < 4294967296) :
    ∀ (roots : List (Bytes × Bytes)) (h : Bytes),
      (∀ r ∈ roots, validUtf8 r.1 = true ∧ r.1.length < 4294967296 ∧
        (idsToIndex pkgs r.2).isSome = true) →
      ∃ Δ, writeNpmRootsLoop pkgs roots h = some (h ++ Δ) ∧
        Δ.length = rootsLenOf roots ∧
        ∀ (fuel : Nat) (tail : Bytes) (pos : Nat) (mods : ModMap)
          (npmAcc : List (Bytes × Nat)),
          parseHeaderRecordsLoop true (fuel + roots.length) (Δ ++ tail) pos mods
              npmAcc =
            parseHeaderRecordsLoop true fuel tail (pos + Δ.length) mods
              (insertList npmAcc (rootsIdx pkgs roots))
  | [], h, _ => by
    refine ⟨[], by simp [writeNpmRootsLoop], rfl, ?_⟩
    intro fuel tail pos mods npmAcc
    simp [insertList, rootsIdx]
  | (req, id) :: rest, h, hWF => by
    obtain ⟨hreq, hreqlen, hidx⟩ := hWF (req, id) (List.mem_cons_self _ _)
    have hWFrest : ∀ r ∈ rest, validUtf8 r.1 = true ∧ r.1.length < 4294967296 ∧
        (idsToIndex pkgs r.2).isSome = true :=
      fun r hr => hWF r (List.mem_cons_of_mem _ hr)
    obtain ⟨i, hi⟩ := Option.isSome_iff_exists.mp hidx
    obtain ⟨Δr, hwrite, hlenr, hparse⟩ :=
      writeNpmRootsLoop_spec pkgs hpkgs rest
        (h ++ u32be req.length ++ req ++ [2] ++ u32be i) hWFrest
    refine ⟨(u32be req.length ++ req ++ [2] ++ u32be i) ++ Δr, ?_, ?_, ?_⟩
    · simp only [writeNpmRootsLoop, hi, hwrite]
      simp [List.append_assoc]
    · simp only [List.length_append, List.length_cons, List.length_nil,
        u32be_length, rootsLenOf, List.map_cons, List.sum_cons]
      simp only [rootsLenOf] at hlenr
      omega
    · intro fuel tail pos mods npmAcc
      have hb : ((u32be req.length ++ req ++ [2] ++ u32be i) ++ Δr) ++ tail =
          u32be req.length ++ req ++ [2] ++ u32be i ++ (Δr ++ tail) := by
        simp [List.append_assoc]
      rw [hb]
      have hfuel : fuel + ((req, id) :: rest).length = (fuel + rest.length) + 1 := by
        simp only [List.length_cons]
        omega
      rw [hfuel]
      rw [parseHeaderRecordsLoop_npm_step (fuel + rest.length) req (Δr ++ tail) i pos
        mods npmAcc hreq hreqlen (by have := idsToIndex_lt_length hi; omega)]
      rw [hparse fuel tail _ _ _]
      have hroots : rootsIdx pkgs ((req, id) :: rest) =
          (req, i) :: rootsIdx pkgs rest := by
        simp [rootsIdx, hi]
      rw [hroots]
      have hpos : pos + 4 + req.length + 1 + 4 + Δr.length =
          pos + (((u32be req.length ++ req ++ [2] ++ u32be i) ++ Δr).length) := by
        simp only [List.length_append, List.length_cons, List.length_nil, u32be_length]
        omega
      rw [hpos]
      rfl

/-! ### The npm snapshot section correspondence -/

/-- Dependencies as written on the wire: name paired with the resolved
package index. -/
def depsIdx (pkgs : List NpmPackage) (deps : List (Bytes × Bytes)) :
    List (Bytes × Nat) :=
  deps.map (fun d => (d.1, (idsToIndex pkgs d.2).getD 0))

/-- The raw package list the npm package loop parses back: serialized id
and indexed, sorted dependencies. -/
def rawOf (pkgs : List NpmPackage) (l : List NpmPackage) :
    List (Bytes × List (Bytes × Nat)) :=
  l.map (fun p => (p.id, depsIdx pkgs (sortBy pairLe p.dependencies)))

/-- Well-formedness of one npm package for serialization. -/
def pkgWFB (pkgsAll : List NpmPackage) (p : NpmPackage) : Bool :=
  validUtf8 p.id && decide (p.id.length < 4294967296) &&
    decide (p.dependencies.length < 4294967296) &&
    decide ((p.dependencies.map Prod.fst).Nodup) &&
    p.dependencies.all (fun d =>
      validUtf8 d.1 && decide (d.1.length < 4294967296) &&
        (idsToIndex pkgsAll d.2).isSome)

theorem moveBytes_append (b rest : Bytes) :
    moveBytes (b ++ rest) b.length = some (rest, b) := by
  have hnot : ¬ ((b ++ rest).length < b.length) := by
    simp only [List.length_append]
    omega
  simp only [moveBytes, if_neg hnot, take_append_of_length _ _ rfl,
    drop_append_of_length _ _ rfl]

theorem parseU32Npm_u32be (n : Nat) (rest : Bytes) :
    parseU32Npm (u32be n ++ rest) = some (rest, n % 4294967296) := by
  simp only [u32be, List.cons_append, List.nil_append, parseU32Npm, decodeU32_u32be]

theorem parseStringNpm_spec (strB rest : Bytes) (hv : validUtf8 strB = true)
    (hl : strB.length < 4294967296) :
    parseStringNpm (u32be strB.length ++ (strB ++ rest)) = some (rest, strB) := by
  simp only [parseStringNpm, parseU32Npm_u32be, Nat.mod_eq_of_lt hl,
    moveBytes_append, hv, if_true]

theorem eszipNpmDependencyParse_spec (name : Bytes) (i : Nat) (rest : Bytes)
    (hv : validUtf8 name = true) (hl : name.length < 4294967296)
    (hi : i < 4294967296) :
    eszipNpmDependencyParse (u32be name.length ++ (name ++ (u32be i ++ rest))) =
      some (rest, (name, i)) := by
  simp only [eszipNpmDependencyParse, parseStringNpm_spec name (u32be i ++ rest) hv hl,
    parseU32Npm_u32be, Nat.mod_eq_of_lt hi]

/-- The npm dependency correspondence: the writer appends each dependency
record, and the dependency loop parses them back into the (name, index)
map. -/
theorem writeNpmDepsLoop_spec (pkgs : List NpmPackage)
    (hpkgs : pkgs.length < 4294967296) :
    ∀ (deps : List (Bytes × Bytes)) (acc : Bytes),
      (∀ d ∈ deps, validUtf8 d.1 = true ∧ d.1.length < 4294967296 ∧
        (idsToIndex pkgs d.2).isSome = true) →
      ∃ Δ, writeNpmDepsLoop pkgs deps acc = some (acc ++ Δ) ∧
        Δ.length = (deps.map depRecordLen).sum ∧
        ∀ (tail : Bytes) (dacc : List (Bytes × Nat)),
          eszipNpmModuleDepsLoop deps.length (Δ ++ tail) dacc =
            some (tail, insertList dacc (depsIdx pkgs deps))
  | [], acc, _ => by
    refine ⟨[], by simp [writeNpmDepsLoop], rfl, ?_⟩
    intro tail dacc
    simp [eszipNpmModuleDepsLoop, insertList, depsIdx]
  | (name, id) :: rest, acc, hWF => by
    obtain ⟨hname, hnamelen, hidx⟩ := hWF (name, id) (List.mem_cons_self _ _)
    have hWFrest : ∀ d ∈ rest, validUtf8 d.1 = true ∧ d.1.length < 4294967296 ∧
        (idsToIndex pkgs d.2).isSome = true :=
      fun d hd => hWF d (List.mem_cons_of_mem _ hd)
    obtain ⟨i, hi⟩ := Option.isSome_iff_exists.mp hidx
    obtain ⟨Δr, hwrite, hlenr, hparse⟩ :=
      writeNpmDepsLoop_spec pkgs hpkgs rest
        (acc ++ u32be name.length ++ name ++ u32be i) hWFrest
    refine ⟨(u32be name.length ++ name ++ u32be i) ++ Δr, ?_, ?_, ?_⟩
    · simp only [writeNpmDepsLoop, hi, hwrite]
      simp [List.append_assoc]
    · simp only [List.length_append, u32be_length, List.map_cons, List.sum_cons,
        depRecordLen, hlenr]
      omega
    · intro tail dacc
      have hb : ((u32be name.length ++ name ++ u32be i) ++ Δr) ++ tail =
          u32be name.length ++ (name ++ (u32be i ++ (Δr ++ tail))) := by
        simp [List.append_assoc]
      rw [hb]
      have hlen : ((name, id) :: rest).length = rest.length + 1 := rfl
      rw [hlen]
      have hstep : eszipNpmModuleDepsLoop (rest.length + 1)
          (u32be name.length ++ (name ++ (u32be i ++ (Δr ++ tail)))) dacc =
          eszipNpmModuleDepsLoop rest.length (Δr ++ tail) (lhmInsert dacc name i) := by
        simp only [eszipNpmModuleDepsLoop,
          eszipNpmDependencyParse_spec name i (Δr ++ tail) hname hnamelen
            (by have := idsToIndex_lt_length hi; omega)]
      rw [hstep, hparse tail _]
      have hdeps : depsIdx pkgs ((name, id) :: rest) =
          (name, i) :: depsIdx pkgs rest := by
        simp [depsIdx, hi]
      rw [hdeps]
      rfl

/-- The npm package-record correspondence: the writer appends each
package record, and the fueled package loop parses them all back. -/
theorem writeNpmPackagesLoop_spec (pkgsAll : List NpmPackage)
    (hpkgs : pkgsAll.length < 4294967296) :
    ∀ (l : List NpmPackage) (acc : Bytes),
      (∀ p ∈ l, pkgWFB pkgsAll p = true) →
      ∃ Δ, writeNpmPackagesLoop pkgsAll l acc = some (acc ++ Δ) ∧
        Δ.length = npmBytesLenOf l ∧
        ∀ (fuel origLen : Nat) (pacc : List (Bytes × List (Bytes × Nat))),
          parseNpmPackagesLoop (fuel + 1 + l.length) Δ origLen pacc =
            .ok (pacc ++ rawOf pkgsAll l)
  | [], acc, _ => by
    refine ⟨[], by simp [writeNpmPackagesLoop], rfl, ?_⟩
    intro fuel origLen pacc
    simp [parseNpmPackagesLoop, rawOf]
  | p :: rest, acc, hWF => by
    have hWFhead := hWF p (List.mem_cons_self _ _)
    have hWFrest : ∀ q ∈ rest, pkgWFB pkgsAll q = true :=
      fun q hq => hWF q (List.mem_cons_of_mem _ hq)
    simp only [pkgWFB, Bool.and_eq_true, decide_eq_true_eq, List.all_eq_true] at hWFhead
    obtain ⟨⟨⟨⟨hid, hidlen⟩, hdlen⟩, hdnodup⟩, hdeps⟩ := hWFhead
    have hdepsWF : ∀ d ∈ sortBy pairLe p.dependencies,
        validUtf8 d.1 = true ∧ d.1.length < 4294967296 ∧
        (idsToIndex pkgsAll d.2).isSome = true := by
      intro d hd
      have hd' : d ∈ p.dependencies := (sortBy_perm pairLe p.dependencies).mem_iff.mp hd
      have := hdeps d hd'
      simp only [Bool.and_eq_true, decide_eq_true_eq] at this
      exact ⟨this.1.1, this.1.2, this.2⟩
    obtain ⟨Δd, hdwrite, hdΔlen, hdparse⟩ :=
      writeNpmDepsLoop_spec pkgsAll hpkgs (sortBy pairLe p.dependencies)
        (acc ++ u32be p.id.length ++ p.id ++ u32be p.dependencies.length) hdepsWF
    obtain ⟨Δr, hrwrite, hrlen, hrparse⟩ :=
      writeNpmPackagesLoop_spec pkgsAll hpkgs rest
        (acc ++ u32be p.id.length ++ p.id ++ u32be p.dependencies.length ++ Δd)
        hWFrest
    refine ⟨(u32be p.id.length ++ p.id ++ u32be p.dependencies.length ++ Δd) ++ Δr,
        ?_, ?_, ?_⟩
    · simp only [writeNpmPackagesLoop, hdwrite, hrwrite]
      simp [List.append_assoc]
    · have hsortlen : (sortBy pairLe p.dependencies).map depRecordLen =
          ((sortBy pairLe p.dependencies).map depRecordLen) := rfl
      have hpermsum : ((sortBy pairLe p.dependencies).map depRecordLen).sum =
          (p.dependencies.map depRecordLen).sum :=
        ((sortBy_perm pairLe p.dependencies).map depRecordLen).sum_eq
      simp only [List.length_append, u32be_length, npmBytesLenOf, List.map_cons,
        List.sum_cons, pkgRecordLenOf, hdΔlen, hpermsum]
      simp only [npmBytesLenOf] at hrlen
      omega
    · intro fuel origLen pacc
      have hb : ((u32be p.id.length ++ p.id ++ u32be p.dependencies.length ++ Δd) ++
          Δr) =
          u32be p.id.length ++ (p.id ++ (u32be p.dependencies.length ++ (Δd ++ Δr))) := by
        simp [List.append_assoc]
      rw [hb]
      have hfuel : fuel + 1 + (p :: rest).length = (fuel + 1 + rest.length) + 1 := by
        simp only [List.length_cons]
        omega
      rw [hfuel]
      have hne : (u32be p.id.length ++ (p.id ++ (u32be p.dependencies.length ++
          (Δd ++ Δr)))).isEmpty = false := by
        simp [u32be]
      have hrecord : eszipNpmModuleParse
          (u32be p.id.length ++ (p.id ++ (u32be p.dependencies.length ++ (Δd ++ Δr)))) =
          some (Δr, (p.id, insertList [] (depsIdx pkgsAll (sortBy pairLe p.dependencies)))) := by
        simp only [eszipNpmModuleParse, parseStringNpm_spec p.id _ hid hidlen,
          parseU32Npm_u32be, Nat.mod_eq_of_lt hdlen]
        have hcount : p.dependencies.length = (sortBy pairLe p.dependencies).length :=
          ((sortBy_perm pairLe p.dependencies).length_eq).symm
        rw [hcount, hdparse Δr []]
      simp only [parseNpmPackagesLoop, hne, Bool.false_eq_true, if_false, hrecord]
      have hinsert : insertList ([] : List (Bytes × Nat))
          (depsIdx pkgsAll (sortBy pairLe p.dependencies)) =
          depsIdx pkgsAll (sortBy pairLe p.dependencies) := by
        have hkeys : (depsIdx pkgsAll (sortBy pairLe p.dependencies)).map Prod.fst =
            (sortBy pairLe p.dependencies).map Prod.fst := by
          simp [depsIdx]
        refine (insertList_append _ [] ?_ ?_).trans (List.nil_append _)
        · intro k _
          rfl
        · rw [hkeys]
          exact (((sortBy_perm pairLe p.dependencies).map Prod.fst).nodup_iff).mpr hdnodup
      rw [hinsert]
      rw [hrparse fuel origLen (pacc ++ [(p.id, depsIdx pkgsAll (sortBy pairLe p.dependencies))])]
      simp [rawOf, List.append_assoc]

theorem rawOf_keys (pkgs l : List NpmPackage) :
    (rawOf pkgs l).map Prod.fst = l.map NpmPackage.id := by
  simp [rawOf]

theorem resolveDepsLoop_spec (pkgsAll : List NpmPackage) (pkgName : Bytes) :
    ∀ (L : List (Bytes × Bytes)),
      (∀ d ∈ L, (idsToIndex pkgsAll d.2).isSome = true) →
      resolveDepsLoop (pkgsAll.map NpmPackage.id) pkgName (depsIdx pkgsAll L) =
        .ok L
  | [], _ => rfl
  | (name, id) :: rest, hWF => by
    obtain ⟨i, hi⟩ := Option.isSome_iff_exists.mp (hWF (name, id) (List.mem_cons_self _ _))
    have hWFrest : ∀ d ∈ rest, (idsToIndex pkgsAll d.2).isSome = true :=
      fun d hd => hWF d (List.mem_cons_of_mem _ hd)
    have hdeps : depsIdx pkgsAll ((name, id) :: rest) =
        (name, i) :: depsIdx pkgsAll rest := by
      simp [depsIdx, hi]
    rw [hdeps]
    simp only [resolveDepsLoop, idsToIndex_get hi,
      resolveDepsLoop_spec pkgsAll pkgName rest hWFrest]

theorem buildPackagesLoop_spec (pkgsAll : List NpmPackage) :
    ∀ (l : List NpmPackage),
      (∀ p ∈ l, ∀ d ∈ p.dependencies, (idsToIndex pkgsAll d.2).isSome = true) →
      buildPackagesLoop (pkgsAll.map NpmPackage.id) (rawOf pkgsAll l) =
        .ok (l.map (fun p => ⟨p.id, sortBy pairLe p.dependencies⟩))
  | [], _ => rfl
  | p :: rest, hWF => by
    have hWFhead : ∀ d ∈ sortBy pairLe p.dependencies,
        (idsToIndex pkgsAll d.2).isSome = true := by
      intro d hd
      exact hWF p (List.mem_cons_self _ _) d
        ((sortBy_perm pairLe p.dependencies).mem_iff.mp hd)
    have hWFrest : ∀ q ∈ rest, ∀ d ∈ q.dependencies,
        (idsToIndex pkgsAll d.2).isSome = true :=
      fun q hq => hWF q (List.mem_cons_of_mem _ hq)
    have hraw : rawOf pkgsAll (p :: rest) =
        (p.id, depsIdx pkgsAll (sortBy pairLe p.dependencies)) :: rawOf pkgsAll rest :=
      rfl
    rw [hraw]
    simp only [buildPackagesLoop,
      resolveDepsLoop_spec pkgsAll p.id (sortBy pairLe p.dependencies) hWFhead,
      buildPackagesLoop_spec pkgsAll rest hWFrest, List.map_cons]

theorem buildRootPackagesLoop_spec (pkgsAll : List NpmPackage) :
    ∀ (roots : List (Bytes × Bytes)),
      (∀ r ∈ roots, (idsToIndex pkgsAll r.2).isSome = true) →
      buildRootPackagesLoop (pkgsAll.map NpmPackage.id) (rootsIdx pkgsAll roots) =
        .ok roots
  | [], _ => rfl
  | (req, id) :: rest, hWF => by
    obtain ⟨i, hi⟩ := Option.isSome_iff_exists.mp (hWF (req, id) (List.mem_cons_self _ _))
    have hWFrest : ∀ r ∈ rest, (idsToIndex pkgsAll r.2).isSome = true :=
      fun r hr => hWF r (List.mem_cons_of_mem _ hr)
    have hroots : rootsIdx pkgsAll ((req, id) :: rest) =
        (req, i) :: rootsIdx pkgsAll rest := by
      simp [rootsIdx, hi]
    rw [hroots]
    simp only [buildRootPackagesLoop, idsToIndex_get hi,
      buildRootPackagesLoop_spec pkgsAll rest hWFrest]

/-! ### Exact section reads -/

theorem sectionReadWithSize_exact (opts : Options) (n : Nat) (body digest rest : Bytes)
    (hsize : opts.checksumSizeResolved = some n) (hdig : digest.length = n) :
    sectionReadWithSize opts body.length (body ++ (digest ++ rest)) =
      .ok (⟨body, digest, opts⟩, rest) := by
  have hnot : ¬ ((body ++ (digest ++ rest)).length < body.length + n) := by
    simp only [List.length_append]
    omega
  simp only [sectionReadWithSize, hsize, if_neg hnot, take_append_of_length _ _ rfl,
    drop_append_of_length _ _ rfl, take_append_of_length _ _ hdig,
    drop_append_of_length _ _ hdig]

theorem readU32P_u32be (n : Nat) (rest : Bytes) :
    readU32P (u32be n ++ rest) = .ok (n % 4294967296, rest) := by
  simp only [u32be, List.cons_append, List.nil_append, readU32P, decodeU32_u32be]

theorem sectionRead_exact (opts : Options) (n : Nat) (body digest rest : Bytes)
    (hsize : opts.checksumSizeResolved = some n) (hdig : digest.length = n)
    (hb : body.length < 4294967296) :
    sectionRead opts (u32be body.length ++ (body ++ (digest ++ rest))) =
      .ok (⟨body, digest, opts⟩, rest) := by
  simp only [sectionRead, readU32P_u32be, Nat.mod_eq_of_lt hb,
    sectionReadWithSize_exact opts n body digest rest hsize hdig]

theorem section_hash_valid (c : Checksum) (sz : Option Nat) (body : Bytes) :
    (Section.mk body (c.hash body) ⟨some c, sz⟩).isChecksumValid = true := by
  simp [Section.isChecksumValid]

/-- The npm-section correspondence for an archive with a snapshot, given
the packed package bytes. -/
theorem readNpmSection_some (c : Checksum) (pkgs : List NpmPackage)
    (roots : List (Bytes × Bytes)) (NB rest : Bytes)
    (hNB : NB.length < 4294967296) (hne : NB ≠ [])
    (hploop : parseNpmPackagesLoop (NB.length + 1) NB NB.length [] =
      .ok (rawOf pkgs pkgs))
    (hdeps : ∀ p ∈ pkgs, ∀ d ∈ p.dependencies, (idsToIndex pkgs d.2).isSome = true)
    (hroots : ∀ r ∈ roots, (idsToIndex pkgs r.2).isSome = true) :
    readNpmSection ⟨some c, some c.digestSize⟩ (rootsIdx pkgs roots)
        (u32be NB.length ++ (NB ++ (c.hash NB ++ rest))) =
      .ok (some ⟨pkgs.map (fun p => ⟨p.id, sortBy pairLe p.dependencies⟩), roots⟩,
        rest) := by
  have hread := sectionRead_exact ⟨some c, some c.digestSize⟩ c.digestSize NB
    (c.hash NB) rest rfl (Checksum.hash_length c NB) hNB
  have hempty : NB.isEmpty = false := by
    cases NB with
    | nil => exact absurd rfl hne
    | cons a t => rfl
  simp only [readNpmSection, hread, section_hash_valid, not_true_eq_false,
    Bool.false_eq_true, if_false, hempty, hploop, rawOf_keys,
    buildPackagesLoop_spec pkgs pkgs hdeps,
    buildRootPackagesLoop_spec pkgs roots hroots]

/-- The npm-section correspondence for an archive without a snapshot. -/
theorem readNpmSection_none (c : Checksum) (specs : List (Bytes × Nat)) (rest : Bytes) :
    readNpmSection ⟨some c, some c.digestSize⟩ specs
        (u32be ([] : Bytes).length ++ ([] ++ (c.hash [] ++ rest))) =
      .ok (none, rest) := by
  have hread := sectionRead_exact ⟨some c, some c.digestSize⟩ c.digestSize []
    (c.hash []) rest rfl (Checksum.hash_length c []) (by simp)
  simp only [readNpmSection, hread, section_hash_valid, not_true_eq_false,
    Bool.false_eq_true, if_false, List.isEmpty_nil, if_true]

/-! ### The data-region correspondence -/

theorem assocLookup_none_of_not_mem {α β : Type} [DecidableEq α] :
    ∀ {m : List (α × β)} {k : α}, k ∉ m.map Prod.fst → assocLookup m k = none
  | [], _, _ => rfl
  | (k', v) :: rest, k, h => by
    simp only [List.map_cons, List.mem_cons, not_or] at h
    simp only [assocLookup, if_neg (Ne.symm h.1)]
    exact assocLookup_none_of_not_mem h.2

theorem assocReplace_append_of_none {α β : Type} [DecidableEq α]
    {m : List (α × β)} {k : α} (l : List (α × β)) (v : β)
    (h : assocLookup m k = none) :
    assocReplace (m ++ l) k v = m ++ assocReplace l k v := by
  induction m with
  | nil => simp
  | cons e rest ih =>
    obtain ⟨k', v'⟩ := e
    by_cases hk : k' = k
    · subst hk; simp [assocLookup] at h
    · simp only [assocLookup, if_neg hk] at h
      simp only [List.cons_append, assocReplace, if_neg hk]
      exact congrArg (List.cons (k', v')) (ih h)

/-- One successful iteration of the region loop. -/
theorem runRegionLoop_step (opts : Options) (isMap : Bool) (fuel : Nat)
    (offsets offsets' : List (Nat × (Nat × Bytes))) (modules modules' : ModMap)
    (readPos total length : Nat) (specifier : Bytes) (b rest : Bytes) (sec : Section)
    (hlt : readPos < total)
    (hrem : assocRemove offsets readPos = some ((length, specifier), offsets'))
    (hsec : sectionReadWithSize opts length b = .ok (sec, rest))
    (hvalid : sec.isChecksumValid = true)
    (hset : setSlotReady modules specifier isMap sec.content = .ok modules') :
    runRegionLoop opts isMap (fuel + 1) offsets modules readPos total b =
      runRegionLoop opts isMap fuel offsets' modules' (readPos + sec.totalLen)
        total rest := by
  simp only [runRegionLoop, if_pos hlt, hrem, hsec, hvalid, if_true, hset]

/-- The region loop consumes an exactly-laid-out region, flipping each
listed slot to `Ready` in offset order. -/
theorem runRegionLoop_spec (c : Checksum) (isMap : Bool) :
    ∀ (L : List (Bytes × Bytes)) (mods : ModMap) (readPos total : Nat) (tail : Bytes),
      total = readPos + (regionBytes c L).length →
      (∀ e ∈ L, 0 < e.2.length) →
      ModsMatch c isMap mods L readPos →
      runRegionLoop ⟨some c, some c.digestSize⟩ isMap (L.length + 1)
          (offsetsOf c L readPos) mods readPos total (regionBytes c L ++ tail) =
        .ok (fillSlots isMap mods L, tail)
  | [], mods, readPos, total, tail, htotal, _, _ => by
    have hnot : ¬ (readPos < total) := by
      simp only [regionBytes, List.length_nil] at htotal
      omega
    simp [runRegionLoop, offsetsOf, regionBytes, fillSlots, hnot]
  | (spec, b) :: rest, mods, readPos, total, tail, htotal, hpos, hmatch => by
    simp only [ModsMatch] at hmatch
    obtain ⟨⟨kind, source, sourceMap, hlook, hslot⟩, hmatchrest⟩ := hmatch
    have hb : 0 < b.length := hpos (spec, b) (List.mem_cons_self _ _)
    have hposrest : ∀ e ∈ rest, 0 < e.2.length :=
      fun e he => hpos e (List.mem_cons_of_mem _ he)
    have hregion : regionBytes c ((spec, b) :: rest) =
        b ++ (c.hash b ++ regionBytes c rest) := rfl
    have hlt : readPos < total := by
      rw [htotal, hregion]
      simp only [List.length_append, Checksum.hash_length]
      omega
    have hbytes : regionBytes c ((spec, b) :: rest) ++ tail =
        b ++ (c.hash b ++ (regionBytes c rest ++ tail)) := by
      rw [hregion]
      simp [List.append_assoc]
    have hsec := sectionReadWithSize_exact ⟨some c, some c.digestSize⟩ c.digestSize
      b (c.hash b) (regionBytes c rest ++ tail) rfl (Checksum.hash_length c b)
    have hset : setSlotReady mods spec isMap b = .ok (setReadyForce isMap mods spec b) := by
      cases isMap with
      | false =>
        have hsrc : source = .pending readPos b.length := by simpa using hslot
        subst hsrc
        simp [setSlotReady, hlook, setReadyForce]
      | true =>
        have hsmap : sourceMap = .pending readPos b.length := by simpa using hslot
        subst hsmap
        simp [setSlotReady, hlook, setReadyForce]
    have hrem : assocRemove (offsetsOf c ((spec, b) :: rest) readPos) readPos =
        some ((b.length, spec), offsetsOf c rest (readPos + b.length + c.digestSize)) := by
      simp [offsetsOf, assocRemove]
    have hfuel : ((spec, b) :: rest).length + 1 = (rest.length + 1) + 1 := by
      simp
    rw [hbytes, hfuel]
    rw [runRegionLoop_step ⟨some c, some c.digestSize⟩ isMap (rest.length + 1)
      (offsetsOf c ((spec, b) :: rest) readPos)
      (offsetsOf c rest (readPos + b.length + c.digestSize)) mods
      (setReadyForce isMap mods spec b) readPos total b.length spec
      (b ++ (c.hash b ++ (regionBytes c rest ++ tail))) (regionBytes c rest ++ tail)
      ⟨b, c.hash b, ⟨some c, some c.digestSize⟩⟩ hlt hrem hsec
      (section_hash_valid c _ b) hset]
    have htl : (Section.mk b (c.hash b) ⟨some c, some c.digestSize⟩).totalLen =
        b.length + c.digestSize := by
      simp [Section.totalLen, Checksum.hash_length]
    rw [htl]
    have hpos' : readPos + (b.length + c.digestSize) =
        readPos + b.length + c.digestSize := by omega
    rw [hpos']
    rw [runRegionLoop_spec c isMap rest (setReadyForce isMap mods spec b)
      (readPos + b.length + c.digestSize) total tail
      (by rw [htotal, hregion]; simp only [List.length_append, Checksum.hash_length]; omega)
      hposrest hmatchrest]
    rfl

/-- The source-offsets map the parser builds from the parsed entries is
exactly the writer's layout of the sources region. -/
theorem buildOffsetsGo_src (c : Checksum) :
    ∀ (ms : List (Bytes × EszipV2Module)) (so mo : Nat)
      (acc : List (Nat × (Nat × Bytes))),
      (∀ e ∈ ms, entryWFB e = true) →
      (∀ k ∈ acc.map Prod.fst, k < so) →
      buildOffsetsGo false (parsedEntries c ms so mo) acc =
        acc ++ offsetsOf c (srcEntries ms) so
  | [], so, mo, acc, _, _ => by
    simp [parsedEntries, buildOffsetsGo, srcEntries, offsetsOf]
  | (spec, md) :: rest, so, mo, acc, hWF, hacc => by
    have hWFhead := hWF (spec, md) (List.mem_cons_self _ _)
    have hWFrest : ∀ e ∈ rest, entryWFB e = true :=
      fun e he => hWF e (List.mem_cons_of_mem _ he)
    cases md with
    | module kind source sourceMap =>
      cases source with
      | pending o l => simp [entryWFB] at hWFhead
      | taken => simp [entryWFB] at hWFhead
      | ready sb =>
        cases sourceMap with
        | pending o l => simp [entryWFB] at hWFhead
        | taken => simp [entryWFB] at hWFhead
        | ready smb =>
          by_cases c1 : sb.length % 4294967296 > 0
          · have hsbpos : 0 < sb.length := by
              by_cases hz : sb.length = 0
              · rw [hz] at c1; simp at c1
              · omega
            have hlook : assocLookup acc so = none :=
              assocLookup_none_of_not_mem
                (fun hmem => Nat.lt_irrefl so (hacc so hmem))
            have hIH := buildOffsetsGo_src c rest
              (so + sb.length + c.digestSize)
              (if smb.length % 4294967296 > 0 then mo + smb.length + c.digestSize
                else mo)
              (acc ++ [(so, (sb.length, spec))]) hWFrest (by
                intro k hk
                simp only [List.map_append, List.mem_append, List.map_cons,
                  List.mem_singleton] at hk
                rcases hk with hk | hk
                · have := hacc k hk
                  omega
                · simp at hk
                  omega)
            simp only [parsedEntries, if_pos c1, buildOffsetsGo,
              lhmInsert_of_none _ hlook, hIH, srcEntries, offsetsOf]
            simp [List.append_assoc]
          · have hIH := buildOffsetsGo_src c rest so
              (if smb.length % 4294967296 > 0 then mo + smb.length + c.digestSize
                else mo) acc hWFrest hacc
            simp only [parsedEntries, if_neg c1, buildOffsetsGo, hIH, srcEntries]
    | redirect target =>
      have hIH := buildOffsetsGo_src c rest so mo acc hWFrest hacc
      simp only [parsedEntries, buildOffsetsGo, hIH, srcEntries]

/-- Likewise for the source-map offsets. -/
theorem buildOffsetsGo_map (c : Checksum) :
    ∀ (ms : List (Bytes × EszipV2Module)) (so mo : Nat)
      (acc : List (Nat × (Nat × Bytes))),
      (∀ e ∈ ms, entryWFB e = true) →
      (∀ k ∈ acc.map Prod.fst, k < mo) →
      buildOffsetsGo true (parsedEntries c ms so mo) acc =
        acc ++ offsetsOf c (mapEntries ms) mo
  | [], so, mo, acc, _, _ => by
    simp [parsedEntries, buildOffsetsGo, mapEntries, offsetsOf]
  | (spec, md) :: rest, so, mo, acc, hWF, hacc => by
    have hWFhead := hWF (spec, md) (List.mem_cons_self _ _)
    have hWFrest : ∀ e ∈ rest, entryWFB e = true :=
      fun e he => hWF e (List.mem_cons_of_mem _ he)
    cases md with
    | module kind source sourceMap =>
      cases source with
      | pending o l => simp [entryWFB] at hWFhead
      | taken => simp [entryWFB] at hWFhead
      | ready sb =>
        cases sourceMap with
        | pending o l => simp [entryWFB] at hWFhead
        | taken => simp [entryWFB] at hWFhead
        | ready smb =>
          by_cases c2 : smb.length % 4294967296 > 0
          · have hsmbpos : 0 < smb.length := by
              by_cases hz : smb.length = 0
              · rw [hz] at c2; simp at c2
              · omega
            have hlook : assocLookup acc mo = none :=
              assocLookup_none_of_not_mem
                (fun hmem => Nat.lt_irrefl mo (hacc mo hmem))
            have hIH := buildOffsetsGo_map c rest
              (if sb.length % 4294967296 > 0 then so + sb.length + c.digestSize
                else so)
              (mo + smb.length + c.digestSize)
              (acc ++ [(mo, (smb.length, spec))]) hWFrest (by
                intro k hk
                simp only [List.map_append, List.mem_append, List.map_cons,
                  List.mem_singleton] at hk
                rcases hk with hk | hk
                · have := hacc k hk
                  omega
                · simp at hk
                  omega)
            simp only [parsedEntries, if_pos c2, buildOffsetsGo,
              lhmInsert_of_none _ hlook, hIH, mapEntries, offsetsOf]
            simp [List.append_assoc]
          · have hIH := buildOffsetsGo_map c rest
              (if sb.length % 4294967296 > 0 then so + sb.length + c.digestSize
                else so) mo acc hWFrest hacc
            simp only [parsedEntries, if_neg c2, buildOffsetsGo, hIH, mapEntries]
    | redirect target =>
      have hIH := buildOffsetsGo_map c rest so mo acc hWFrest hacc
      simp only [parsedEntries, buildOffsetsGo, hIH, mapEntries]

theorem setReadyForce_at {front P : ModMap} {spec : Bytes} (md new : EszipV2Module)
    (isMap : Bool) (b : Bytes)
    (hfront : assocLookup front spec = none)
    (hmd : ∃ kind source sourceMap, md = .module kind source sourceMap ∧
      (if isMap then .module kind source (.ready b)
        else .module kind (.ready b) sourceMap) = new) :
    setReadyForce isMap (front ++ (spec, md) :: P) spec b =
      front ++ (spec, new) :: P := by
  obtain ⟨kind, source, sourceMap, rfl, hnew⟩ := hmd
  have hlook : assocLookup (front ++ (spec, .module kind source sourceMap) :: P) spec =
      some (.module kind source sourceMap) := by
    rw [assocLookup_append_of_none _ hfront]
    simp [assocLookup]
  simp only [setReadyForce, hlook]
  rw [assocReplace_append_of_none _ _ hfront]
  simp [assocReplace, hnew]

/-- The parsed map satisfies the source-region invariant. -/
theorem modsMatch_src (c : Checksum) :
    ∀ (ms : List (Bytes × EszipV2Module)) (front : ModMap) (so mo : Nat),
      (∀ e ∈ ms, entryWFB e = true) →
      (∀ k ∈ ms.map Prod.fst, assocLookup front k = none) →
      (ms.map Prod.fst).Nodup →
      ModsMatch c false (front ++ parsedEntries c ms so mo) (srcEntries ms) so
  | [], front, so, mo, _, _, _ => by
    simp [parsedEntries, srcEntries, ModsMatch]
  | (spec, md) :: rest, front, so, mo, hWF, hfront, hnodup => by
    have hWFhead := hWF (spec, md) (List.mem_cons_self _ _)
    have hWFrest : ∀ e ∈ rest, entryWFB e = true :=
      fun e he => hWF e (List.mem_cons_of_mem _ he)
    have hfronthead : assocLookup front spec = none := hfront spec (by simp)
    simp only [List.map_cons, List.nodup_cons] at hnodup
    have hfront' : ∀ new : EszipV2Module, ∀ k ∈ rest.map Prod.fst,
        assocLookup (front ++ [(spec, new)]) k = none := by
      intro new k hk
      rw [assocLookup_append_of_none _ (hfront k (by simp [hk]))]
      have hne : spec ≠ k := fun he => hnodup.1 (he ▸ hk)
      simp [assocLookup, hne]
    cases md with
    | module kind source sourceMap =>
      cases source with
      | pending o l => simp [entryWFB] at hWFhead
      | taken => simp [entryWFB] at hWFhead
      | ready sb =>
        cases sourceMap with
        | pending o l => simp [entryWFB] at hWFhead
        | taken => simp [entryWFB] at hWFhead
        | ready smb =>
          by_cases c1 : sb.length % 4294967296 > 0
          · have hpe : parsedEntries c ((spec, .module kind (.ready sb) (.ready smb)) :: rest) so mo =
                (spec, .module kind (.pending so sb.length)
                  (if smb.length % 4294967296 > 0 then .pending mo smb.length
                    else .ready [])) ::
                  parsedEntries c rest (so + sb.length + c.digestSize)
                    (if smb.length % 4294967296 > 0 then mo + smb.length + c.digestSize
                      else mo) := by
              simp only [parsedEntries, if_pos c1]
            have hse : srcEntries ((spec, .module kind (.ready sb) (.ready smb)) :: rest) =
                (spec, sb) :: srcEntries rest := by
              simp only [srcEntries, if_pos c1]
            rw [hpe, hse]
            constructor
            · refine ⟨kind, .pending so sb.length,
                (if smb.length % 4294967296 > 0 then .pending mo smb.length
                  else .ready []), ?_, by simp⟩
              rw [assocLookup_append_of_none _ hfronthead]
              simp [assocLookup]
            · rw [setReadyForce_at
                (.module kind (.pending so sb.length)
                  (if smb.length % 4294967296 > 0 then .pending mo smb.length
                    else .ready []))
                (.module kind (.ready sb)
                  (if smb.length % 4294967296 > 0 then .pending mo smb.length
                    else .ready []))
                false sb hfronthead
                ⟨kind, .pending so sb.length, _, rfl, by simp⟩]
              have hmove : front ++ (spec, EszipV2Module.module kind (.ready sb)
                  (if smb.length % 4294967296 > 0 then EszipV2SourceSlot.pending mo smb.length
                    else .ready [])) ::
                  parsedEntries c rest (so + sb.length + c.digestSize)
                    (if smb.length % 4294967296 > 0 then mo + smb.length + c.digestSize
                      else mo) =
                  (front ++ [(spec, EszipV2Module.module kind (.ready sb)
                    (if smb.length % 4294967296 > 0 then EszipV2SourceSlot.pending mo smb.length
                      else .ready []))]) ++
                  parsedEntries c rest (so + sb.length + c.digestSize)
                    (if smb.length % 4294967296 > 0 then mo + smb.length + c.digestSize
                      else mo) := by
                simp
              rw [hmove]
              exact modsMatch_src c rest _ _ _ hWFrest (hfront' _) hnodup.2
          · have hpe : parsedEntries c ((spec, .module kind (.ready sb) (.ready smb)) :: rest) so mo =
                (spec, .module kind (.ready [])
                  (if smb.length % 4294967296 > 0 then .pending mo smb.length
                    else .ready [])) ::
                  parsedEntries c rest so
                    (if smb.length % 4294967296 > 0 then mo + smb.length + c.digestSize
                      else mo) := by
              simp only [parsedEntries, if_neg c1]
            have hse : srcEntries ((spec, .module kind (.ready sb) (.ready smb)) :: rest) =
                srcEntries rest := by
              simp only [srcEntries, if_neg c1]
            rw [hpe, hse]
            have hmove : front ++ (spec, EszipV2Module.module kind (.ready [])
                (if smb.length % 4294967296 > 0 then EszipV2SourceSlot.pending mo smb.length
                  else .ready [])) ::
                parsedEntries c rest so
                  (if smb.length % 4294967296 > 0 then mo + smb.length + c.digestSize
                    else mo) =
                (front ++ [(spec, EszipV2Module.module kind (.ready [])
                  (if smb.length % 4294967296 > 0 then EszipV2SourceSlot.pending mo smb.length
                    else .ready []))]) ++
                parsedEntries c rest so
                  (if smb.length % 4294967296 > 0 then mo + smb.length + c.digestSize
                    else mo) := by
              simp
            rw [hmove]
            exact modsMatch_src c rest _ _ _ hWFrest (hfront' _) hnodup.2
    | redirect target =>
      have hpe : parsedEntries c ((spec, EszipV2Module.redirect target) :: rest) so mo =
          (spec, EszipV2Module.redirect target) :: parsedEntries c rest so mo := rfl
      have hse : srcEntries ((spec, EszipV2Module.redirect target) :: rest) =
          srcEntries rest := rfl
      rw [hpe, hse]
      have hmove : front ++ (spec, EszipV2Module.redirect target) ::
          parsedEntries c rest so mo =
          (front ++ [(spec, EszipV2Module.redirect target)]) ++
            parsedEntries c rest so mo := by
        simp
      rw [hmove]
      exact modsMatch_src c rest _ _ _ hWFrest (hfront' _) hnodup.2

/-- Running the source-region bodies over the parsed map fills the source
slots, leaving the map half filled. -/
theorem fillSlots_src (c : Checksum) :
    ∀ (ms : List (Bytes × EszipV2Module)) (front : ModMap) (so mo : Nat),
      (∀ e ∈ ms, entryWFB e = true) →
      (∀ k ∈ ms.map Prod.fst, assocLookup front k = none) →
      (ms.map Prod.fst).Nodup →
      fillSlots false (front ++ parsedEntries c ms so mo) (srcEntries ms) =
        front ++ halfFilled c ms mo
  | [], front, so, mo, _, _, _ => by
    simp [parsedEntries, srcEntries, halfFilled, fillSlots]
  | (spec, md) :: rest, front, so, mo, hWF, hfront, hnodup => by
    have hWFhead := hWF (spec, md) (List.mem_cons_self _ _)
    have hWFrest : ∀ e ∈ rest, entryWFB e = true :=
      fun e he => hWF e (List.mem_cons_of_mem _ he)
    have hfronthead : assocLookup front spec = none := hfront spec (by simp)
    simp only [List.map_cons, List.nodup_cons] at hnodup
    have hfront' : ∀ new : EszipV2Module, ∀ k ∈ rest.map Prod.fst,
        assocLookup (front ++ [(spec, new)]) k = none := by
      intro new k hk
      rw [assocLookup_append_of_none _ (hfront k (by simp [hk]))]
      have hne : spec ≠ k := fun he => hnodup.1 (he ▸ hk)
      simp [assocLookup, hne]
    cases md with
    | module kind source sourceMap =>
      cases source with
      | pending o l => simp [entryWFB] at hWFhead
      | taken => simp [entryWFB] at hWFhead
      | ready sb =>
        cases sourceMap with
        | pending o l => simp [entryWFB] at hWFhead
        | taken => simp [entryWFB] at hWFhead
        | ready smb =>
          have hsblt : sb.length < 4294967296 := by
            simp [entryWFB] at hWFhead; exact hWFhead.2.1
          by_cases c1 : sb.length % 4294967296 > 0
          · have hpe : parsedEntries c ((spec, .module kind (.ready sb) (.ready smb)) :: rest) so mo =
                (spec, .module kind (.pending so sb.length)
                  (if smb.length % 4294967296 > 0 then .pending mo smb.length
                    else .ready [])) ::
                  parsedEntries c rest (so + sb.length + c.digestSize)
                    (if smb.length % 4294967296 > 0 then mo + smb.length + c.digestSize
                      else mo) := by
              simp only [parsedEntries, if_pos c1]
            have hse : srcEntries ((spec, .module kind (.ready sb) (.ready smb)) :: rest) =
                (spec, sb) :: srcEntries rest := by
              simp only [srcEntries, if_pos c1]
            have hhf : halfFilled c ((spec, .module kind (.ready sb) (.ready smb)) :: rest) mo =
                (spec, .module kind (.ready sb)
                  (if smb.length % 4294967296 > 0 then .pending mo smb.length
                    else .ready [])) ::
                  halfFilled c rest
                    (if smb.length % 4294967296 > 0 then mo + smb.length + c.digestSize
                      else mo) := rfl
            rw [hpe, hse, hhf]
            show fillSlots false (setReadyForce false _ spec sb) (srcEntries rest) = _
            rw [setReadyForce_at
              (.module kind (.pending so sb.length)
                (if smb.length % 4294967296 > 0 then .pending mo smb.length
                  else .ready []))
              (.module kind (.ready sb)
                (if smb.length % 4294967296 > 0 then .pending mo smb.length
                  else .ready []))
              false sb hfronthead
              ⟨kind, .pending so sb.length, _, rfl, by simp⟩]
            have hIH := fillSlots_src c rest
              (front ++ [(spec, EszipV2Module.module kind (.ready sb)
                (if smb.length % 4294967296 > 0 then EszipV2SourceSlot.pending mo smb.length
                  else .ready []))])
              (so + sb.length + c.digestSize)
              (if smb.length % 4294967296 > 0 then mo + smb.length + c.digestSize
                else mo)
              hWFrest (hfront' _) hnodup.2
            simpa using hIH
          · have hsb : sb = [] := by
              have : sb.length % 4294967296 = sb.length := Nat.mod_eq_of_lt hsblt
              have hz : sb.length = 0 := by omega
              exact List.length_eq_zero.mp hz
            subst hsb
            have hpe : parsedEntries c ((spec, .module kind (.ready []) (.ready smb)) :: rest) so mo =
                (spec, .module kind (.ready [])
                  (if smb.length % 4294967296 > 0 then .pending mo smb.length
                    else .ready [])) ::
                  parsedEntries c rest so
                    (if smb.length % 4294967296 > 0 then mo + smb.length + c.digestSize
                      else mo) := by
              simp only [parsedEntries, if_neg c1]
            have hse : srcEntries ((spec, .module kind (.ready []) (.ready smb)) :: rest) =
                srcEntries rest := by
              simp only [srcEntries, if_neg c1]
            have hhf : halfFilled c ((spec, .module kind (.ready []) (.ready smb)) :: rest) mo =
                (spec, .module kind (.ready [])
                  (if smb.length % 4294967296 > 0 then .pending mo smb.length
                    else .ready [])) ::
                  halfFilled c rest
                    (if smb.length % 4294967296 > 0 then mo + smb.length + c.digestSize
                      else mo) := rfl
            rw [hpe, hse, hhf]
            have hIH := fillSlots_src c rest
              (front ++ [(spec, EszipV2Module.module kind (.ready [])
                (if smb.length % 4294967296 > 0 then EszipV2SourceSlot.pending mo smb.length
                  else .ready []))])
              so
              (if smb.length % 4294967296 > 0 then mo + smb.length + c.digestSize
                else mo)
              hWFrest (hfront' _) hnodup.2
            simpa using hIH
    | redirect target =>
      have hpe : parsedEntries c ((spec, EszipV2Module.redirect target) :: rest) so mo =
          (spec, EszipV2Module.redirect target) :: parsedEntries c rest so mo := rfl
      have hse : srcEntries ((spec, EszipV2Module.redirect target) :: rest) =
          srcEntries rest := rfl
      have hhf : halfFilled c ((spec, EszipV2Module.redirect target) :: rest) mo =
          (spec, EszipV2Module.redirect target) :: halfFilled c rest mo := rfl
      rw [hpe, hse, hhf]
      have hIH := fillSlots_src c rest
        (front ++ [(spec, EszipV2Module.redirect target)]) so mo
        hWFrest (hfront' _) hnodup.2
      simpa using hIH

/-- The half-filled map satisfies the source-map-region invariant. -/
theorem modsMatch_map (c : Checksum) :
    ∀ (ms : List (Bytes × EszipV2Module)) (front : ModMap) (mo : Nat),
      (∀ e ∈ ms, entryWFB e = true) →
      (∀ k ∈ ms.map Prod.fst, assocLookup front k = none) →
      (ms.map Prod.fst).Nodup →
      ModsMatch c true (front ++ halfFilled c ms mo) (mapEntries ms) mo
  | [], front, mo, _, _, _ => by
    simp [halfFilled, mapEntries, ModsMatch]
  | (spec, md) :: rest, front, mo, hWF, hfront, hnodup => by
    have hWFhead := hWF (spec, md) (List.mem_cons_self _ _)
    have hWFrest : ∀ e ∈ rest, entryWFB e = true :=
      fun e he => hWF e (List.mem_cons_of_mem _ he)
    have hfronthead : assocLookup front spec = none := hfront spec (by simp)
    simp only [List.map_cons, List.nodup_cons] at hnodup
    have hfront' : ∀ new : EszipV2Module, ∀ k ∈ rest.map Prod.fst,
        assocLookup (front ++ [(spec, new)]) k = none := by
      intro new k hk
      rw [assocLookup_append_of_none _ (hfront k (by simp [hk]))]
      have hne : spec ≠ k := fun he => hnodup.1 (he ▸ hk)
      simp [assocLookup, hne]
    cases md with
    | module kind source sourceMap =>
      cases source with
      | pending o l => simp [entryWFB] at hWFhead
      | taken => simp [entryWFB] at hWFhead
      | ready sb =>
        cases sourceMap with
        | pending o l => simp [entryWFB] at hWFhead
        | taken => simp [entryWFB] at hWFhead
        | ready smb =>
          by_cases c2 : smb.length % 4294967296 > 0
          · have hhf : halfFilled c ((spec, .module kind (.ready sb) (.ready smb)) :: rest) mo =
                (spec, .module kind (.ready sb) (.pending mo smb.length)) ::
                  halfFilled c rest (mo + smb.length + c.digestSize) := by
              simp only [halfFilled, if_pos c2]
            have hme : mapEntries ((spec, .module kind (.ready sb) (.ready smb)) :: rest) =
                (spec, smb) :: mapEntries rest := by
              simp only [mapEntries, if_pos c2]
            rw [hhf, hme]
            constructor
            · refine ⟨kind, .ready sb, .pending mo smb.length, ?_, by simp⟩
              rw [assocLookup_append_of_none _ hfronthead]
              simp [assocLookup]
            · rw [setReadyForce_at
                (.module kind (.ready sb) (.pending mo smb.length))
                (.module kind (.ready sb) (.ready smb))
                true smb hfronthead
                ⟨kind, .ready sb, .pending mo smb.length, rfl, by simp⟩]
              have hIH := modsMatch_map c rest
                (front ++ [(spec, EszipV2Module.module kind (.ready sb) (.ready smb))])
                (mo + smb.length + c.digestSize)
                hWFrest (hfront' _) hnodup.2
              simpa using hIH
          · have hhf : halfFilled c ((spec, .module kind (.ready sb) (.ready smb)) :: rest) mo =
                (spec, .module kind (.ready sb) (.ready [])) ::
                  halfFilled c rest mo := by
              simp only [halfFilled, if_neg c2]
            have hme : mapEntries ((spec, .module kind (.ready sb) (.ready smb)) :: rest) =
                mapEntries rest := by
              simp only [mapEntries, if_neg c2]
            rw [hhf, hme]
            have hIH := modsMatch_map c rest
              (front ++ [(spec, EszipV2Module.module kind (.ready sb) (.ready []))])
              mo hWFrest (hfront' _) hnodup.2
            simpa using hIH
    | redirect target =>
      have hhf : halfFilled c ((spec, EszipV2Module.redirect target) :: rest) mo =
          (spec, EszipV2Module.redirect target) :: halfFilled c rest mo := rfl
      have hme : mapEntries ((spec, EszipV2Module.redirect target) :: rest) =
          mapEntries rest := rfl
      rw [hhf, hme]
      have hIH := modsMatch_map c rest
        (front ++ [(spec, EszipV2Module.redirect target)]) mo
        hWFrest (hfront' _) hnodup.2
      simpa using hIH

/-- Running the source-map-region bodies over the half-filled map restores
the archive's original modules. -/
theorem fillSlots_map (c : Checksum) :
    ∀ (ms : List (Bytes × EszipV2Module)) (front : ModMap) (mo : Nat),
      (∀ e ∈ ms, entryWFB e = true) →
      (∀ k ∈ ms.map Prod.fst, assocLookup front k = none) →
      (ms.map Prod.fst).Nodup →
      fillSlots true (front ++ halfFilled c ms mo) (mapEntries ms) =
        front ++ ms
  | [], front, mo, _, _, _ => by
    simp [halfFilled, mapEntries, fillSlots]
  | (spec, md) :: rest, front, mo, hWF, hfront, hnodup => by
    have hWFhead := hWF (spec, md) (List.mem_cons_self _ _)
    have hWFrest : ∀ e ∈ rest, entryWFB e = true :=
      fun e he => hWF e (List.mem_cons_of_mem _ he)
    have hfronthead : assocLookup front spec = none := hfront spec (by simp)
    simp only [List.map_cons, List.nodup_cons] at hnodup
    have hfront' : ∀ new : EszipV2Module, ∀ k ∈ rest.map Prod.fst,
        assocLookup (front ++ [(spec, new)]) k = none := by
      intro new k hk
      rw [assocLookup_append_of_none _ (hfront k (by simp [hk]))]
      have hne : spec ≠ k := fun he => hnodup.1 (he ▸ hk)
      simp [assocLookup, hne]
    cases md with
    | module kind source sourceMap =>
      cases source with
      | pending o l => simp [entryWFB] at hWFhead
      | taken => simp [entryWFB] at hWFhead
      | ready sb =>
        cases sourceMap with
        | pending o l => simp [entryWFB] at hWFhead
        | taken => simp [entryWFB] at hWFhead
        | ready smb =>
          have hsmblt : smb.length < 4294967296 := by
            simp [entryWFB] at hWFhead; exact hWFhead.2.2
          by_cases c2 : smb.length % 4294967296 > 0
          · have hhf : halfFilled c ((spec, .module kind (.ready sb) (.ready smb)) :: rest) mo =
                (spec, .module kind (.ready sb) (.pending mo smb.length)) ::
                  halfFilled c rest (mo + smb.length + c.digestSize) := by
              simp only [halfFilled, if_pos c2]
            have hme : mapEntries ((spec, .module kind (.ready sb) (.ready smb)) :: rest) =
                (spec, smb) :: mapEntries rest := by
              simp only [mapEntries, if_pos c2]
            rw [hhf, hme]
            show fillSlots true (setReadyForce true _ spec smb) (mapEntries rest) = _
            rw [setReadyForce_at
              (.module kind (.ready sb) (.pending mo smb.length))
              (.module kind (.ready sb) (.ready smb))
              true smb hfronthead
              ⟨kind, .ready sb, .pending mo smb.length, rfl, by simp⟩]
            have hIH := fillSlots_map c rest
              (front ++ [(spec, EszipV2Module.module kind (.ready sb) (.ready smb))])
              (mo + smb.length + c.digestSize)
              hWFrest (hfront' _) hnodup.2
            simpa using hIH
          · have hsmb : smb = [] := by
              have : smb.length % 4294967296 = smb.length := Nat.mod_eq_of_lt hsmblt
              have hz : smb.length = 0 := by omega
              exact List.length_eq_zero.mp hz
            subst hsmb
            have hhf : halfFilled c ((spec, .module kind (.ready sb) (.ready [])) :: rest) mo =
                (spec, .module kind (.ready sb) (.ready [])) ::
                  halfFilled c rest mo := by
              simp only [halfFilled, if_neg c2]
            have hme : mapEntries ((spec, .module kind (.ready sb) (.ready [])) :: rest) =
                mapEntries rest := by
              simp only [mapEntries, if_neg c2]
            rw [hhf, hme]
            have hIH := fillSlots_map c rest
              (front ++ [(spec, EszipV2Module.module kind (.ready sb) (.ready []))])
              mo hWFrest (hfront' _) hnodup.2
            simpa using hIH
    | redirect target =>
      have hhf : halfFilled c ((spec, EszipV2Module.redirect target) :: rest) mo =
          (spec, EszipV2Module.redirect target) :: halfFilled c rest mo := rfl
      have hme : mapEntries ((spec, EszipV2Module.redirect target) :: rest) =
          mapEntries rest := rfl
      rw [hhf, hme]
      have hIH := fillSlots_map c rest
        (front ++ [(spec, EszipV2Module.redirect target)]) mo
        hWFrest (hfront' _) hnodup.2
      simpa using hIH

/-! ### Top-level round-trip assembly -/

theorem offsetsOf_length (c : Checksum) :
    ∀ (L : List (Bytes × Bytes)) (pos : Nat), (offsetsOf c L pos).length = L.length
  | [], _ => rfl
  | (spec, b) :: rest, pos => by
    simp only [offsetsOf, List.length_cons, offsetsOf_length c rest]

theorem srcEntries_pos :
    ∀ (ms : List (Bytes × EszipV2Module)), ∀ e ∈ srcEntries ms, 0 < e.2.length
  | [], e, he => by simp [srcEntries] at he
  | (spec, md) :: rest, e, he => by
    cases md with
    | module kind source sourceMap =>
      cases source with
      | ready sb =>
        by_cases c1 : sb.length % 4294967296 > 0
        · simp only [srcEntries, if_pos c1, List.mem_cons] at he
          rcases he with he | he
          · subst he
            have : 0 < sb.length := Nat.lt_of_lt_of_le c1 (Nat.mod_le _ _)
            simpa using this
          · exact srcEntries_pos rest e he
        · simp only [srcEntries, if_neg c1] at he
          exact srcEntries_pos rest e he
      | pending o l => exact srcEntries_pos rest e he
      | taken => exact srcEntries_pos rest e he
    | redirect target => exact srcEntries_pos rest e he

theorem mapEntries_pos :
    ∀ (ms : List (Bytes × EszipV2Module)), ∀ e ∈ mapEntries ms, 0 < e.2.length
  | [], e, he => by simp [mapEntries] at he
  | (spec, md) :: rest, e, he => by
    cases md with
    | module kind source sourceMap =>
      cases sourceMap with
      | ready smb =>
        by_cases c2 : smb.length % 4294967296 > 0
        · simp only [mapEntries, if_pos c2, List.mem_cons] at he
          rcases he with he | he
          · subst he
            have : 0 < smb.length := Nat.lt_of_lt_of_le c2 (Nat.mod_le _ _)
            simpa using this
          · exact mapEntries_pos rest e he
        · simp only [mapEntries, if_neg c2] at he
          exact mapEntries_pos rest e he
      | pending o l => exact mapEntries_pos rest e he
      | taken => exact mapEntries_pos rest e he
    | redirect target => exact mapEntries_pos rest e he

theorem npmBytesLenOf_ge (pkgs : List NpmPackage) :
    pkgs.length ≤ npmBytesLenOf pkgs := by
  induction pkgs with
  | nil => simp [npmBytesLenOf]
  | cons p rest ih =>
    have hp : 1 ≤ pkgRecordLenOf p := by
      simp only [pkgRecordLenOf]
      omega
    simp only [npmBytesLenOf, List.map_cons, List.sum_cons, List.length_cons]
    simp only [npmBytesLenOf] at ih
    omega

/-- Dispatch through the magic bytes for a V2.2 stream. -/
theorem parseV2_v22 (tail : Bytes) :
    parseV2 (ESZIP_V2_2_MAGIC ++ tail) = parseWithMagic ESZIP_V2_2_MAGIC tail := by
  show parseV2 (69 :: 83 :: 90 :: 73 :: 80 :: 50 :: 46 :: 50 :: tail) = _
  have hmagic : hasMagic [69, 83, 90, 73, 80, 50, 46, 50] = true := by decide
  simp only [parseV2, hmagic, if_true]
  rfl

/-- The options pairs the writer emits select exactly the archive's
checksum function and digest size. -/
theorem applyOptionPairs_writer (c : Checksum) (n : Nat) (d : Options) :
    applyOptionPairs [0, c.toTag, 1, n] d = ⟨some c, some n⟩ := by
  simp only [applyOptionPairs, Checksum.fromU8_toTag]

set_option maxHeartbeats 1000000 in
/-- Reading the options section the writer emits: the V2.2 parser settles
on the written checksum function and digest size and hands the remaining
bytes to the common tail. -/
theorem parseWithMagic_v22 (c : Checksum) (R : Bytes) :
    parseWithMagic ESZIP_V2_2_MAGIC
        (u32be 4 ++ ([0, c.toTag, 1, c.digestSize] ++
          (c.hash [0, c.toTag, 1, c.digestSize] ++ R))) =
      parseAfterOptions ⟨some c, some c.digestSize⟩ true R := by
  have hOBlen : (([0, c.toTag, 1, c.digestSize] : Bytes)).length = 4 := rfl
  have hsec := sectionRead_exact ⟨some .noChecksum, none⟩ 0
    [0, c.toTag, 1, c.digestSize] []
    (c.hash [0, c.toTag, 1, c.digestSize] ++ R) rfl rfl
    (by rw [hOBlen]; decide)
  rw [hOBlen, List.nil_append] at hsec
  simp only [parseWithMagic, hsec]
  rw [if_pos trivial]
  have hcond : ¬ (([0, c.toTag, 1, c.digestSize] : Bytes).length % 2 ≠ 0) := by
    rw [hOBlen]
    decide
  rw [if_neg hcond]
  have hsn : decide (ESZIP_V2_2_MAGIC ≠ ESZIP_V2_MAGIC) = true := by decide
  rw [hsn]
  rw [applyOptionPairs_writer c c.digestSize]
  have hres : (Options.mk (some c) (some c.digestSize)).checksumSizeResolved =
      some c.digestSize := rfl
  simp only [hres]
  by_cases hds : 1 ≤ c.digestSize
  · rw [if_pos hds]
    have hread := sectionReadWithSize_exact ⟨some c, some c.digestSize⟩ c.digestSize
      [0, c.toTag, 1, c.digestSize] (c.hash [0, c.toTag, 1, c.digestSize]) R rfl
      (Checksum.hash_length c _)
    rw [hread]
    simp [section_hash_valid]
  · rw [if_neg hds]
    have hzero : c.hash [0, c.toTag, 1, c.digestSize] = [] := by
      cases c with
      | noChecksum => rfl
      | sha256 => exact absurd (by decide : 1 ≤ Checksum.sha256.digestSize) hds
      | xxHash3 => exact absurd (by decide : 1 ≤ Checksum.xxHash3.digestSize) hds
    rw [hzero, List.nil_append]

set_option maxHeartbeats 1000000 in
/-- The common tail of the parser on a writer-produced stream, archive
without an npm snapshot: module-table section, empty npm section, sources
region, source-maps region. -/
theorem parseAfterOptions_none (c : Checksum) (ms : List (Bytes × EszipV2Module))
    (Δm : Bytes)
    (hWF : ∀ e ∈ ms, entryWFB e = true)
    (hnodup : (ms.map Prod.fst).Nodup)
    (htable : Δm.length < 4294967296)
    (hmslen : ms.length ≤ Δm.length)
    (hsrcB : (regionBytes c (srcEntries ms)).length < 4294967296)
    (hmapB : (regionBytes c (mapEntries ms)).length < 4294967296)
    (hΔparse : ∀ (fuel : Nat) (tail : Bytes) (pos : Nat) (mods : ModMap)
      (npmAcc : List (Bytes × Nat)),
      parseHeaderRecordsLoop true (fuel + ms.length) (Δm ++ tail) pos mods npmAcc =
        parseHeaderRecordsLoop true fuel tail (pos + Δm.length)
          (insertList mods (parsedEntries c ms 0 0)) npmAcc) :
    parseAfterOptions ⟨some c, some c.digestSize⟩ true
        (u32be Δm.length ++ (Δm ++ (c.hash Δm ++
          (u32be 0 ++ (c.hash [] ++
            (u32be (regionBytes c (srcEntries ms)).length ++
              (regionBytes c (srcEntries ms) ++
                (u32be (regionBytes c (mapEntries ms)).length ++
                  regionBytes c (mapEntries ms))))))))) =
      .ok (⟨ms, none, ⟨some c, some c.digestSize⟩⟩, []) := by
  have hsec1 := sectionRead_exact ⟨some c, some c.digestSize⟩ c.digestSize Δm
    (c.hash Δm)
    (u32be 0 ++ (c.hash [] ++
      (u32be (regionBytes c (srcEntries ms)).length ++
        (regionBytes c (srcEntries ms) ++
          (u32be (regionBytes c (mapEntries ms)).length ++
            regionBytes c (mapEntries ms))))))
    rfl (Checksum.hash_length c Δm) htable
  have hinsert : insertList ([] : ModMap) (parsedEntries c ms 0 0) =
      parsedEntries c ms 0 0 := by
    have := insertList_append (parsedEntries c ms 0 0) [] (fun k _ => rfl)
      (by rw [parsedEntries_keys c ms 0 0 hWF]; exact hnodup)
    simpa using this
  have hheader : parseHeaderRecordsLoop true (Δm.length + 1) Δm 0 [] [] =
      .ok (parsedEntries c ms 0 0, []) := by
    have h1 := hΔparse (Δm.length + 1 - ms.length) [] 0 [] []
    rw [List.append_nil] at h1
    have hFfuel : Δm.length + 1 - ms.length + ms.length = Δm.length + 1 := by omega
    rw [hFfuel] at h1
    rw [h1, hinsert]
    obtain ⟨F', hF'⟩ : ∃ F', Δm.length + 1 - ms.length = F' + 1 :=
      ⟨Δm.length - ms.length, by omega⟩
    rw [hF']
    exact parseHeaderRecordsLoop_nil true F' _ _ _
  have hnpmsec : readNpmSection ⟨some c, some c.digestSize⟩ []
      (u32be 0 ++ (c.hash [] ++
        (u32be (regionBytes c (srcEntries ms)).length ++
          (regionBytes c (srcEntries ms) ++
            (u32be (regionBytes c (mapEntries ms)).length ++
              regionBytes c (mapEntries ms)))))) =
      .ok (none,
        u32be (regionBytes c (srcEntries ms)).length ++
          (regionBytes c (srcEntries ms) ++
            (u32be (regionBytes c (mapEntries ms)).length ++
              regionBytes c (mapEntries ms)))) := by
    have := readNpmSection_none c []
      (u32be (regionBytes c (srcEntries ms)).length ++
        (regionBytes c (srcEntries ms) ++
          (u32be (regionBytes c (mapEntries ms)).length ++
            regionBytes c (mapEntries ms))))
    simpa using this
  have hbo1 : buildOffsets false (parsedEntries c ms 0 0) =
      offsetsOf c (srcEntries ms) 0 := by
    have := buildOffsetsGo_src c ms 0 0 [] hWF (by intro k hk; simp at hk)
    simpa [buildOffsets] using this
  have hbo2 : buildOffsets true (parsedEntries c ms 0 0) =
      offsetsOf c (mapEntries ms) 0 := by
    have := buildOffsetsGo_map c ms 0 0 [] hWF (by intro k hk; simp at hk)
    simpa [buildOffsets] using this
  have hr1 : readU32P
      (u32be (regionBytes c (srcEntries ms)).length ++
        (regionBytes c (srcEntries ms) ++
          (u32be (regionBytes c (mapEntries ms)).length ++
            regionBytes c (mapEntries ms)))) =
      .ok ((regionBytes c (srcEntries ms)).length,
        regionBytes c (srcEntries ms) ++
          (u32be (regionBytes c (mapEntries ms)).length ++
            regionBytes c (mapEntries ms))) := by
    rw [readU32P_u32be, Nat.mod_eq_of_lt hsrcB]
  have hfs1 : fillSlots false (parsedEntries c ms 0 0) (srcEntries ms) =
      halfFilled c ms 0 := by
    have := fillSlots_src c ms [] 0 0 hWF (fun k _ => rfl) hnodup
    simpa using this
  have hmm1 : ModsMatch c false (parsedEntries c ms 0 0) (srcEntries ms) 0 := by
    have := modsMatch_src c ms [] 0 0 hWF (fun k _ => rfl) hnodup
    simpa using this
  have hrun1 : runRegionLoop ⟨some c, some c.digestSize⟩ false
      ((srcEntries ms).length + 1) (offsetsOf c (srcEntries ms) 0)
      (parsedEntries c ms 0 0) 0 (regionBytes c (srcEntries ms)).length
      (regionBytes c (srcEntries ms) ++
        (u32be (regionBytes c (mapEntries ms)).length ++
          regionBytes c (mapEntries ms))) =
      .ok (halfFilled c ms 0,
        u32be (regionBytes c (mapEntries ms)).length ++
          regionBytes c (mapEntries ms)) := by
    rw [runRegionLoop_spec c false (srcEntries ms) (parsedEntries c ms 0 0) 0
      (regionBytes c (srcEntries ms)).length
      (u32be (regionBytes c (mapEntries ms)).length ++ regionBytes c (mapEntries ms))
      (by omega) (srcEntries_pos ms) hmm1]
    rw [hfs1]
  have hr2 : readU32P
      (u32be (regionBytes c (mapEntries ms)).length ++
        regionBytes c (mapEntries ms)) =
      .ok ((regionBytes c (mapEntries ms)).length,
        regionBytes c (mapEntries ms)) := by
    rw [readU32P_u32be, Nat.mod_eq_of_lt hmapB]
  have hfs2 : fillSlots true (halfFilled c ms 0) (mapEntries ms) = ms := by
    have := fillSlots_map c ms [] 0 hWF (fun k _ => rfl) hnodup
    simpa using this
  have hmm2 : ModsMatch c true (halfFilled c ms 0) (mapEntries ms) 0 := by
    have := modsMatch_map c ms [] 0 hWF (fun k _ => rfl) hnodup
    simpa using this
  have hrun2 : runRegionLoop ⟨some c, some c.digestSize⟩ true
      ((mapEntries ms).length + 1) (offsetsOf c (mapEntries ms) 0)
      (halfFilled c ms 0) 0 (regionBytes c (mapEntries ms)).length
      (regionBytes c (mapEntries ms)) =
      .ok (ms, []) := by
    have := runRegionLoop_spec c true (mapEntries ms) (halfFilled c ms 0) 0
      (regionBytes c (mapEntries ms)).length []
      (by omega) (mapEntries_pos ms) hmm2
    rw [List.append_nil] at this
    rw [this, hfs2]
  simp only [parseAfterOptions, hsec1, section_hash_valid, not_true_eq_false,
    Bool.false_eq_true, if_false, if_true, hheader, hnpmsec, hbo1, hbo2,
    offsetsOf_length, hr1, hrun1, hr2, hrun2]

set_option maxHeartbeats 1000000 in
/-- The common tail of the parser on a writer-produced stream, archive
with an npm snapshot: module-table section with the root records, npm
snapshot section, sources region, source-maps region. `roots` is the
root-package list as written (already sorted by the writer). -/
theorem parseAfterOptions_some (c : Checksum) (ms : List (Bytes × EszipV2Module))
    (Δm Δr NB : Bytes) (pkgs : List NpmPackage) (roots : List (Bytes × Bytes))
    (hWF : ∀ e ∈ ms, entryWFB e = true)
    (hnodup : (ms.map Prod.fst).Nodup)
    (htable : (Δm ++ Δr).length < 4294967296)
    (hmslen : ms.length ≤ Δm.length)
    (hrootslen : roots.length ≤ Δr.length)
    (hrootsNodup : (roots.map Prod.fst).Nodup)
    (hsrcB : (regionBytes c (srcEntries ms)).length < 4294967296)
    (hmapB : (regionBytes c (mapEntries ms)).length < 4294967296)
    (hNBlt : NB.length < 4294967296) (hNBne : NB ≠ [])
    (hpkgslen : pkgs.length ≤ NB.length)
    (hdeps : ∀ p ∈ pkgs, ∀ d ∈ p.dependencies, (idsToIndex pkgs d.2).isSome = true)
    (hroots : ∀ r ∈ roots, (idsToIndex pkgs r.2).isSome = true)
    (hΔparse : ∀ (fuel : Nat) (tail : Bytes) (pos : Nat) (mods : ModMap)
      (npmAcc : List (Bytes × Nat)),
      parseHeaderRecordsLoop true (fuel + ms.length) (Δm ++ tail) pos mods npmAcc =
        parseHeaderRecordsLoop true fuel tail (pos + Δm.length)
          (insertList mods (parsedEntries c ms 0 0)) npmAcc)
    (hΔrparse : ∀ (fuel : Nat) (tail : Bytes) (pos : Nat) (mods : ModMap)
      (npmAcc : List (Bytes × Nat)),
      parseHeaderRecordsLoop true (fuel + roots.length) (Δr ++ tail) pos mods
          npmAcc =
        parseHeaderRecordsLoop true fuel tail (pos + Δr.length) mods
          (insertList npmAcc (rootsIdx pkgs roots)))
    (hNBparse : ∀ (fuel origLen : Nat) (pacc : List (Bytes × List (Bytes × Nat))),
      parseNpmPackagesLoop (fuel + 1 + pkgs.length) NB origLen pacc =
        .ok (pacc ++ rawOf pkgs pkgs)) :
    parseAfterOptions ⟨some c, some c.digestSize⟩ true
        (u32be (Δm ++ Δr).length ++ ((Δm ++ Δr) ++ (c.hash (Δm ++ Δr) ++
          (u32be NB.length ++ (NB ++ (c.hash NB ++
            (u32be (regionBytes c (srcEntries ms)).length ++
              (regionBytes c (srcEntries ms) ++
                (u32be (regionBytes c (mapEntries ms)).length ++
                  regionBytes c (mapEntries ms)))))))))) =
      .ok (⟨ms,
        some ⟨pkgs.map (fun p => ⟨p.id, sortBy pairLe p.dependencies⟩), roots⟩,
        ⟨some c, some c.digestSize⟩⟩, []) := by
  have hsec1 := sectionRead_exact ⟨some c, some c.digestSize⟩ c.digestSize (Δm ++ Δr)
    (c.hash (Δm ++ Δr))
    (u32be NB.length ++ (NB ++ (c.hash NB ++
      (u32be (regionBytes c (srcEntries ms)).length ++
        (regionBytes c (srcEntries ms) ++
          (u32be (regionBytes c (mapEntries ms)).length ++
            regionBytes c (mapEntries ms)))))))
    rfl (Checksum.hash_length c (Δm ++ Δr)) htable
  have hinsert : insertList ([] : ModMap) (parsedEntries c ms 0 0) =
      parsedEntries c ms 0 0 := by
    have := insertList_append (parsedEntries c ms 0 0) [] (fun k _ => rfl)
      (by rw [parsedEntries_keys c ms 0 0 hWF]; exact hnodup)
    simpa using this
  have hinsertR : insertList ([] : List (Bytes × Nat)) (rootsIdx pkgs roots) =
      rootsIdx pkgs roots := by
    have := insertList_append (rootsIdx pkgs roots) [] (fun k _ => rfl)
      (by
        have hkeys : (rootsIdx pkgs roots).map Prod.fst = roots.map Prod.fst := by
          simp [rootsIdx]
        rw [hkeys]
        exact hrootsNodup)
    simpa using this
  have hheader : parseHeaderRecordsLoop true ((Δm ++ Δr).length + 1) (Δm ++ Δr)
      0 [] [] = .ok (parsedEntries c ms 0 0, rootsIdx pkgs roots) := by
    have hfuel1 : (Δm ++ Δr).length + 1 =
        (Δm.length + Δr.length + 1 - ms.length - roots.length + roots.length) +
          ms.length := by
      simp only [List.length_append]
      omega
    rw [hfuel1, hΔparse _ Δr 0 [] [], hinsert]
    have h2 := hΔrparse (Δm.length + Δr.length + 1 - ms.length - roots.length) []
      (0 + Δm.length) (parsedEntries c ms 0 0) []
    rw [List.append_nil] at h2
    rw [h2, hinsertR]
    obtain ⟨F', hF'⟩ :
        ∃ F', Δm.length + Δr.length + 1 - ms.length - roots.length = F' + 1 :=
      ⟨Δm.length + Δr.length - ms.length - roots.length, by omega⟩
    rw [hF']
    exact parseHeaderRecordsLoop_nil true F' _ _ _
  have hploop : parseNpmPackagesLoop (NB.length + 1) NB NB.length [] =
      .ok (rawOf pkgs pkgs) := by
    have := hNBparse (NB.length - pkgs.length) NB.length []
    rw [show NB.length - pkgs.length + 1 + pkgs.length = NB.length + 1 by omega]
      at this
    simpa using this
  have hnpmsec := readNpmSection_some c pkgs roots NB
    (u32be (regionBytes c (srcEntries ms)).length ++
      (regionBytes c (srcEntries ms) ++
        (u32be (regionBytes c (mapEntries ms)).length ++
          regionBytes c (mapEntries ms))))
    hNBlt hNBne hploop hdeps hroots
  have hbo1 : buildOffsets false (parsedEntries c ms 0 0) =
      offsetsOf c (srcEntries ms) 0 := by
    have := buildOffsetsGo_src c ms 0 0 [] hWF (by intro k hk; simp at hk)
    simpa [buildOffsets] using this
  have hbo2 : buildOffsets true (parsedEntries c ms 0 0) =
      offsetsOf c (mapEntries ms) 0 := by
    have := buildOffsetsGo_map c ms 0 0 [] hWF (by intro k hk; simp at hk)
    simpa [buildOffsets] using this
  have hr1 : readU32P
      (u32be (regionBytes c (srcEntries ms)).length ++
        (regionBytes c (srcEntries ms) ++
          (u32be (regionBytes c (mapEntries ms)).length ++
            regionBytes c (mapEntries ms)))) =
      .ok ((regionBytes c (srcEntries ms)).length,
        regionBytes c (srcEntries ms) ++
          (u32be (regionBytes c (mapEntries ms)).length ++
            regionBytes c (mapEntries ms))) := by
    rw [readU32P_u32be, Nat.mod_eq_of_lt hsrcB]
  have hfs1 : fillSlots false (parsedEntries c ms 0 0) (srcEntries ms) =
      halfFilled c ms 0 := by
    have := fillSlots_src c ms [] 0 0 hWF (fun k _ => rfl) hnodup
    simpa using this
  have hmm1 : ModsMatch c false (parsedEntries c ms 0 0) (srcEntries ms) 0 := by
    have := modsMatch_src c ms [] 0 0 hWF (fun k _ => rfl) hnodup
    simpa using this
  have hrun1 : runRegionLoop ⟨some c, some c.digestSize⟩ false
      ((srcEntries ms).length + 1) (offsetsOf c (srcEntries ms) 0)
      (parsedEntries c ms 0 0) 0 (regionBytes c (srcEntries ms)).length
      (regionBytes c (srcEntries ms) ++
        (u32be (regionBytes c (mapEntries ms)).length ++
          regionBytes c (mapEntries ms))) =
      .ok (halfFilled c ms 0,
        u32be (regionBytes c (mapEntries ms)).length ++
          regionBytes c (mapEntries ms)) := by
    rw [runRegionLoop_spec c false (srcEntries ms) (parsedEntries c ms 0 0) 0
      (regionBytes c (srcEntries ms)).length
      (u32be (regionBytes c (mapEntries ms)).length ++ regionBytes c (mapEntries ms))
      (by omega) (srcEntries_pos ms) hmm1]
    rw [hfs1]
  have hr2 : readU32P
      (u32be (regionBytes c (mapEntries ms)).length ++
        regionBytes c (mapEntries ms)) =
      .ok ((regionBytes c (mapEntries ms)).length,
        regionBytes c (mapEntries ms)) := by
    rw [readU32P_u32be, Nat.mod_eq_of_lt hmapB]
  have hfs2 : fillSlots true (halfFilled c ms 0) (mapEntries ms) = ms := by
    have := fillSlots_map c ms [] 0 hWF (fun k _ => rfl) hnodup
    simpa using this
  have hmm2 : ModsMatch c true (halfFilled c ms 0) (mapEntries ms) 0 := by
    have := modsMatch_map c ms [] 0 hWF (fun k _ => rfl) hnodup
    simpa using this
  have hrun2 : runRegionLoop ⟨some c, some c.digestSize⟩ true
      ((mapEntries ms).length + 1) (offsetsOf c (mapEntries ms) 0)
      (halfFilled c ms 0) 0 (regionBytes c (mapEntries ms)).length
      (regionBytes c (mapEntries ms)) =
      .ok (ms, []) := by
    have := runRegionLoop_spec c true (mapEntries ms) (halfFilled c ms 0) 0
      (regionBytes c (mapEntries ms)).length []
      (by omega) (mapEntries_pos ms) hmm2
    rw [List.append_nil] at this
    rw [this, hfs2]
  simp only [parseAfterOptions, hsec1, section_hash_valid, not_true_eq_false,
    Bool.false_eq_true, if_false, if_true, hheader, hnpmsec, hbo1, hbo2,
    offsetsOf_length, hr1, hrun1, hr2, hrun2]

/-- Snapshot equality up to the hash-map orderings the wire format does
not preserve: same package sequence with equal ids, each dependency map
and the root-package map equal as sets of pairs (they are `HashMap`s in
the source, so only their contents are meaningful). -/
def npmSnapshotMatches : Option NpmSnapshot → Option NpmSnapshot → Prop
  | none, none => True
  | some sn, some parsed =>
    List.Forall₂
      (fun p p' : NpmPackage => p.id = p'.id ∧ p.dependencies.Perm p'.dependencies)
      sn.packages parsed.packages ∧
    sn.rootPackages.Perm parsed.rootPackages
  | _, _ => False

theorem forall2_sorted (pkgs : List NpmPackage) :
    List.Forall₂
      (fun p p' : NpmPackage => p.id = p'.id ∧ p.dependencies.Perm p'.dependencies)
      pkgs (pkgs.map fun p => (⟨p.id, sortBy pairLe p.dependencies⟩ : NpmPackage)) := by
  induction pkgs with
  | nil => exact .nil
  | cons p rest ih =>
    exact .cons ⟨rfl, (sortBy_perm pairLe p.dependencies).symm⟩ ih

/-! ## The claims -/

/-- C2: for every archive state (any finite module map, including redirect
graphs with cycles and redirects to absent specifiers) and every specifier,
the redirect-chasing loop of `get_module` terminates within its visited-set
bound (fuel `|modules| + 1` is never exhausted), returns either `none` or a
module whose entry in the map is a `Module` (never a `Redirect`), and
follows at most `|modules|` redirect hops. -/
theorem C2_lookup_terminates (e : EszipV2) (s : Bytes) :
    ∃ res hops,
      lookupLoop e.modules (e.modules.length + 1) [] s = some (res, hops) ∧
        hops ≤ e.modules.length ∧
        (∀ m, res = some m → ∃ kind source sourceMap,
          assocLookup e.modules m.specifier = some (.module kind source sourceMap)) := by
  have hsub : unvisitedKeys e.modules [] ≤ e.modules.length := by
    calc ((e.modules.map Prod.fst).dedup.filter
            (fun x => decide (x ∉ ([] : List Bytes)))).length
        ≤ (e.modules.map Prod.fst).dedup.length := List.length_filter_le _ _
      _ ≤ (e.modules.map Prod.fst).length :=
          List.Sublist.length_le (List.dedup_sublist _)
      _ = e.modules.length := List.length_map _ _
  obtain ⟨res, hops, h1, h2, h3⟩ :=
    lookupLoop_terminates_aux e.modules (e.modules.length + 1) [] s
      (List.not_mem_nil s) (Nat.lt_succ_of_le hsub)
  exact ⟨res, hops, h1, Nat.le_trans h2 hsub, h3⟩

theorem C2_lookup_terminates_witness :
    ∃ res hops,
      lookupLoop [([97], .redirect [98]),
          ([98], .module .javaScript (.ready [1]) (.ready []))] 3 [] [97] =
        some (res, hops) ∧
        hops ≤ 2 ∧
        (∀ m, res = some m → ∃ kind source sourceMap,
          assocLookup [([97], .redirect [98]),
              ([98], EszipV2Module.module .javaScript (.ready [1]) (.ready []))]
              m.specifier =
            some (.module kind source sourceMap)) :=
  C2_lookup_terminates
    ⟨[([97], .redirect [98]), ([98], .module .javaScript (.ready [1]) (.ready []))],
      none, ⟨some .noChecksum, none⟩⟩ [97]

/-- C3: taken is sticky. If `take_module_source` returns `Some(bytes)`,
the source slot is left `Taken`; on a `Taken` source slot every subsequent
`get_module_source` and `take_module_source` resolves to `None` (and the
take leaves the map unchanged, so takenness persists). Analogously for the
source-map slot under `take_module_source_map`. -/
theorem C3_taken_is_sticky :
    (∀ (m : ModMap) (s b : Bytes) (m' : ModMap),
      takeModuleSourcePoll m s = some (.resolved (some b), m') → sourceTakenAt m' s) ∧
    (∀ (m : ModMap) (s : Bytes), sourceTakenAt m s →
      getModuleSourcePoll m s = some (.resolved none) ∧
      takeModuleSourcePoll m s = some (.resolved none, m)) ∧
    (∀ (m : ModMap) (s b : Bytes) (m' : ModMap),
      takeModuleSourceMapPoll m s = some (.resolved (some b), m') →
        sourceMapTakenAt m' s) ∧
    (∀ (m : ModMap) (s : Bytes), sourceMapTakenAt m s →
      getModuleSourceMapPoll m s = some (.resolved none) ∧
      takeModuleSourceMapPoll m s = some (.resolved none, m)) := by
  refine ⟨?_, ?_, ?_, ?_⟩
  · intro m s b m' h
    cases hl : assocLookup m s with
    | none => simp [takeModuleSourcePoll, hl] at h
    | some md =>
      cases md with
      | redirect t => simp [takeModuleSourcePoll, hl] at h
      | module kind src smap =>
        cases src with
        | pending o l => simp [takeModuleSourcePoll, hl] at h
        | taken => simp [takeModuleSourcePoll, hl] at h
        | ready bytes =>
          simp only [takeModuleSourcePoll, hl, Option.some.injEq, Prod.mk.injEq,
            PollValue.resolved.injEq] at h
          refine ⟨kind, smap, ?_⟩
          rw [← h.2]
          exact assocLookup_assocReplace _ hl
  · intro m s h
    obtain ⟨kind, smap, hl⟩ := h
    exact ⟨by simp [getModuleSourcePoll, hl], by simp [takeModuleSourcePoll, hl]⟩
  · intro m s b m' h
    cases hl : assocLookup m s with
    | none => simp [takeModuleSourceMapPoll, hl] at h
    | some md =>
      cases md with
      | redirect t => simp [takeModuleSourceMapPoll, hl] at h
      | module kind src smap =>
        cases smap with
        | pending o l => simp [takeModuleSourceMapPoll, hl] at h
        | taken => simp [takeModuleSourceMapPoll, hl] at h
        | ready bytes =>
          simp only [takeModuleSourceMapPoll, hl, Option.some.injEq, Prod.mk.injEq,
            PollValue.resolved.injEq] at h
          refine ⟨kind, src, ?_⟩
          rw [← h.2]
          exact assocLookup_assocReplace _ hl
  · intro m s h
    obtain ⟨kind, src, hl⟩ := h
    refine ⟨by simp [getModuleSourceMapPoll, hl], ?_⟩
    simp only [takeModuleSourceMapPoll, hl]
    rw [assocReplace_self hl]

theorem C3_taken_is_sticky_witness :
    sourceTakenAt [([97], .module .javaScript .taken (.ready [2]))] [97] ∧
    getModuleSourcePoll [([97], .module .javaScript .taken (.ready [2]))] [97] =
      some (.resolved none) := by
  have h1 := C3_taken_is_sticky.1
    [([97], .module .javaScript (.ready [1]) (.ready [2]))] [97] [1]
    [([97], .module .javaScript .taken (.ready [2]))] (by decide)
  have h2 := (C3_taken_is_sticky.2.1
    [([97], .module .javaScript .taken (.ready [2]))] [97] h1).1
  exact ⟨h1, h2⟩

/-- C4: for a specifier whose redirect-resolved lookup lands on a `Jsonc`
module, `get_module` returns `None` while `get_import_map` returns the
module; dually, on a `JavaScript` module `get_import_map` returns `None`
while `get_module` returns the module. -/
theorem C4_jsonc_import_map_duality (e : EszipV2) (s : Bytes) (m : Module)
    (h : e.lookupModule s = some m) :
    (m.kind = .jsonc → e.getModule s = none ∧ e.getImportMap s = some m) ∧
    (m.kind = .javaScript → e.getImportMap s = none ∧ e.getModule s = some m) := by
  constructor
  · intro hk
    constructor
    · simp [EszipV2.getModule, h, hk]
    · simp [EszipV2.getImportMap, h, hk]
  · intro hk
    constructor
    · simp [EszipV2.getImportMap, h, hk]
    · simp [EszipV2.getModule, h, hk]

theorem C4_jsonc_import_map_duality_witness :
    ((⟨[([99], .module .jsonc (.ready [123]) (.ready []))], none,
        ⟨some .noChecksum, none⟩⟩ : EszipV2).getModule [99] = none) ∧
    ((⟨[([99], .module .jsonc (.ready [123]) (.ready []))], none,
        ⟨some .noChecksum, none⟩⟩ : EszipV2).getImportMap [99] =
      some ⟨[99], .jsonc⟩) := by
  have h := C4_jsonc_import_map_duality
    ⟨[([99], .module .jsonc (.ready [123]) (.ready []))], none,
      ⟨some .noChecksum, none⟩⟩ [99] ⟨[99], .jsonc⟩ (by decide)
  exact h.1 rfl

/-- C5: `add_import_map` makes the given specifier the first key in
enumeration order; when the specifier already exists its entry (kind and
source) is kept unchanged, only moved to the front; when it is absent a
fresh entry of the given kind with the given source and an empty source
map is inserted at the front. -/
theorem C5_add_import_map_front (e : EszipV2) (kind : ModuleKind) (s src : Bytes) :
    ((e.addImportMap kind s src).modules.head?.map Prod.fst = some s) ∧
    (∀ v, assocLookup e.modules s = some v →
      (e.addImportMap kind s src).modules = (s, v) :: assocEraseKey e.modules s) ∧
    (assocLookup e.modules s = none →
      (e.addImportMap kind s src).modules =
        (s, .module kind (.ready src) (.ready [])) :: e.modules) := by
  have habsent : assocLookup e.modules s = none →
      (e.addImportMap kind s src).modules =
        (s, EszipV2Module.module kind (.ready src) (.ready [])) :: e.modules := by
    intro hnone
    have hsing : assocLookup [(s, EszipV2Module.module kind (.ready src) (.ready []))] s
        = some (.module kind (.ready src) (.ready [])) := by
      simp [assocLookup]
    have hlook : assocLookup
        (e.modules ++ [(s, EszipV2Module.module kind (.ready src) (.ready []))]) s =
        some (.module kind (.ready src) (.ready [])) := by
      rw [assocLookup_append_of_none _ hnone, hsing]
    have herase : assocEraseKey
        (e.modules ++ [(s, EszipV2Module.module kind (.ready src) (.ready []))]) s =
        e.modules := by
      rw [assocEraseKey_append_of_none _ hnone]
      simp [assocEraseKey]
    simp only [EszipV2.addImportMap, hnone, Option.isSome_none, Bool.false_eq_true,
      if_false, lhmInsert, lhmToFront, hlook, herase]
  have hpresent : ∀ v, assocLookup e.modules s = some v →
      (e.addImportMap kind s src).modules = (s, v) :: assocEraseKey e.modules s := by
    intro v hv
    simp only [EszipV2.addImportMap, hv, Option.isSome_some, if_true, lhmToFront, hv]
  refine ⟨?_, hpresent, habsent⟩
  cases hv : assocLookup e.modules s with
  | none => rw [habsent hv]; rfl
  | some v => rw [hpresent v hv]; rfl

theorem C5_add_import_map_front_witness :
    ((⟨[([97], .module .javaScript (.ready [1]) (.ready []))], none,
        ⟨some .noChecksum, none⟩⟩ : EszipV2).addImportMap .json [120] [123]).modules =
      ([120], .module .json (.ready [123]) (.ready [])) ::
        [([97], .module .javaScript (.ready [1]) (.ready []))] :=
  (C5_add_import_map_front
    ⟨[([97], .module .javaScript (.ready [1]) (.ready []))], none,
      ⟨some .noChecksum, none⟩⟩ .json [120] [123]).2.2 (by decide)

/-- C7: when a parsed V2.2 archive recorded a checksum selector unknown to
this decoder together with an explicit digest size: `Checksum::from_u8`
yields `None` for the unknown discriminant; the options loop records
`checksum = None` with the explicit size; every section checksum
validation short-circuits to `true`; `should_be_checksumed()` is `true`
while `is_checksumed()` is `false`; and `into_bytes()` panics (models as
`none`) unless `set_checksum` is called first. -/
theorem C7_unknown_checksum (v s : Nat) (hv : 3 ≤ v) :
    (Checksum.fromU8 v = none) ∧
    (∀ o : Options,
      (applyOptionPairs [0, v, 1, s] o).checksum = none ∧
      (applyOptionPairs [0, v, 1, s] o).checksumSize = some s) ∧
    (∀ e : EszipV2, e.options.checksum = none →
      e.shouldBeChecksumed = true ∧ e.isChecksumed = false ∧ e.intoBytes = none) ∧
    (∀ sec : Section, sec.opts.checksum = none → sec.isChecksumValid = true) := by
  have hfrom : Checksum.fromU8 v = none := by
    rcases v with _ | _ | _ | n
    · omega
    · omega
    · omega
    · rfl
  refine ⟨hfrom, ?_, ?_, ?_⟩
  · intro o
    constructor
    · simp [applyOptionPairs, hfrom]
    · simp [applyOptionPairs]
  · intro e h
    refine ⟨?_, ?_, ?_⟩
    · simp [EszipV2.shouldBeChecksumed, h]
    · simp [EszipV2.isChecksumed, h]
    · cases hr : e.options.checksumSizeResolved <;>
        simp [EszipV2.intoBytes, h, hr]
  · intro sec h
    simp [Section.isChecksumValid, h]

theorem C7_unknown_checksum_witness :
    Checksum.fromU8 9 = none ∧
    (applyOptionPairs [0, 9, 1, 8] ⟨some .noChecksum, none⟩).checksum = none ∧
    (⟨[], none, ⟨none, some 8⟩⟩ : EszipV2).shouldBeChecksumed = true ∧
    (⟨[], none, ⟨none, some 8⟩⟩ : EszipV2).isChecksumed = false ∧
    (⟨[], none, ⟨none, some 8⟩⟩ : EszipV2).intoBytes = none := by
  have h := C7_unknown_checksum 9 8 (by omega)
  have he := h.2.2.1 ⟨[], none, ⟨none, some 8⟩⟩ rfl
  exact ⟨h.1, (h.2.1 ⟨some .noChecksum, none⟩).1, he.1, he.2.1, he.2.2⟩

/-- C10: `add_npm_snapshot` with an empty package list leaves the archive
unchanged (in particular a fresh archive still yields `None` from
`take_npm_snapshot`); a snapshot with at least one package is stored; and
`take_npm_snapshot` removes the snapshot, so a second take returns
`None`. -/
theorem C10_npm_snapshot (e : EszipV2) (sn : NpmSnapshot) :
    (sn.packages = [] → e.addNpmSnapshot sn = e) ∧
    (sn.packages = [] →
      ((EszipV2.default.addNpmSnapshot sn).takeNpmSnapshot).1 = none) ∧
    (sn.packages ≠ [] → (e.addNpmSnapshot sn).npmSnapshot = some sn) ∧
    (sn.packages ≠ [] →
      ((e.addNpmSnapshot sn).takeNpmSnapshot).1 = some sn ∧
      ((((e.addNpmSnapshot sn).takeNpmSnapshot).2).takeNpmSnapshot).1 = none) := by
  refine ⟨?_, ?_, ?_, ?_⟩
  · intro h
    simp [EszipV2.addNpmSnapshot, h]
  · intro h
    simp [EszipV2.addNpmSnapshot, h, EszipV2.takeNpmSnapshot, EszipV2.default]
  · intro h
    cases hp : sn.packages with
    | nil => exact absurd hp h
    | cons a t => simp [EszipV2.addNpmSnapshot, hp]
  · intro h
    cases hp : sn.packages with
    | nil => exact absurd hp h
    | cons a t =>
      constructor
      · simp [EszipV2.addNpmSnapshot, hp, EszipV2.takeNpmSnapshot]
      · simp [EszipV2.addNpmSnapshot, hp, EszipV2.takeNpmSnapshot]

/-- Helper for C6: the option-applying loop never changes the checksum
selector when no pair has option id 0. -/
theorem applyOptionPairs_checksum_of_noOptId0 :
    ∀ (body : Bytes) (o : Options), noOptId0 body = true →
      (applyOptionPairs body o).checksum = o.checksum
  | [], _, _ => rfl
  | [_], _, _ => rfl
  | optId :: value :: rest, o, h => by
    have h' : (decide (optId ≠ 0) && noOptId0 rest) = true := h
    rw [Bool.and_eq_true] at h'
    obtain ⟨h1, h2⟩ := h'
    have h1' : optId ≠ 0 := of_decide_eq_true h1
    rcases optId with _ | _ | n
    · exact absurd rfl h1'
    · show (applyOptionPairs rest { o with checksumSize := some value }).checksum =
        o.checksum
      rw [applyOptionPairs_checksum_of_noOptId0 rest _ h2]
    · show (applyOptionPairs rest o).checksum = o.checksum
      exact applyOptionPairs_checksum_of_noOptId0 rest o h2

/-- C6: version-dependent checksum defaults. Parsing under magic
`ESZIP_V2` or `ESZIP2.1` uses the SHA-256 default and never reads an
options section (the parse goes straight to the module table with the
per-version default options); parsing under `ESZIP2.2` whose options body
never sets option id 0 keeps the V2.2 default of `NoChecksum`. -/
theorem C6_version_checksum_defaults :
    (Options.defaultForVersion ESZIP_V2_MAGIC =
      { checksum := some .sha256, checksumSize := none }) ∧
    (Options.defaultForVersion ESZIP_V2_1_MAGIC =
      { checksum := some .sha256, checksumSize := none }) ∧
    (∀ b : Bytes, parseWithMagic ESZIP_V2_MAGIC b =
      parseAfterOptions { checksum := some .sha256, checksumSize := none } false b) ∧
    (∀ b : Bytes, parseWithMagic ESZIP_V2_1_MAGIC b =
      parseAfterOptions { checksum := some .sha256, checksumSize := none } true b) ∧
    (∀ (body : Bytes) (o : Options), noOptId0 body = true →
      (applyOptionPairs body o).checksum = o.checksum) ∧
    (∀ body : Bytes, noOptId0 body = true →
      (applyOptionPairs body (Options.defaultForVersion ESZIP_V2_2_MAGIC)).checksum =
        some .noChecksum) := by
  refine ⟨by decide, by decide, fun b => rfl, fun b => rfl,
    applyOptionPairs_checksum_of_noOptId0, ?_⟩
  intro body h
  rw [applyOptionPairs_checksum_of_noOptId0 body _ h]
  decide

theorem C6_version_checksum_defaults_witness :
    (applyOptionPairs [1, 8] (Options.defaultForVersion ESZIP_V2_2_MAGIC)).checksum =
      some .noChecksum ∧
    parseWithMagic ESZIP_V2_MAGIC [] =
      parseAfterOptions { checksum := some .sha256, checksumSize := none } false [] :=
  ⟨C6_version_checksum_defaults.2.2.2.2.2 [1, 8] (by decide),
    C6_version_checksum_defaults.2.2.1 []⟩

/-- C8: when the configured checksum function detects a digest mismatch,
the module-table section fails the parse with `InvalidV2HeaderHash`, the
npm snapshot section with `InvalidV2NpmSnapshotHash`, and a source (or
source-map) body in the region loop with `InvalidV2SourceHash` carrying
that module's specifier — all variants of the `ParseError` type the parse
returns. -/
theorem C8_digest_mismatch_errors :
    (∀ (opts : Options) (supportsNpm : Bool) (b : Bytes) (sec : Section) (rest : Bytes),
      sectionRead opts b = .ok (sec, rest) → sec.isChecksumValid = false →
      parseAfterOptions opts supportsNpm b = .fail .invalidV2HeaderHash) ∧
    (∀ (opts : Options) (specs : List (Bytes × Nat)) (b : Bytes) (sec : Section)
      (rest : Bytes),
      sectionRead opts b = .ok (sec, rest) → sec.isChecksumValid = false →
      readNpmSection opts specs b = .fail .invalidV2NpmSnapshotHash) ∧
    (∀ (opts : Options) (isMap : Bool) (fuel : Nat)
      (offsets offsets' : List (Nat × (Nat × Bytes))) (modules : ModMap)
      (readPos total length : Nat) (specifier : Bytes) (b rest : Bytes) (sec : Section),
      readPos < total →
      assocRemove offsets readPos = some ((length, specifier), offsets') →
      sectionReadWithSize opts length b = .ok (sec, rest) →
      sec.isChecksumValid = false →
      runRegionLoop opts isMap (fuel + 1) offsets modules readPos total b =
        .fail (.invalidV2SourceHash specifier)) := by
  refine ⟨?_, ?_, ?_⟩
  · intro opts supportsNpm b sec rest h1 h2
    simp only [parseAfterOptions, h1, h2, Bool.false_eq_true, not_false_eq_true,
      if_true]
  · intro opts specs b sec rest h1 h2
    simp only [readNpmSection, h1, h2, Bool.false_eq_true, not_false_eq_true,
      if_true]
  · intro opts isMap fuel offsets offsets' modules readPos total length specifier
      b rest sec hlt hrem hread h2
    simp only [runRegionLoop, if_pos hlt, hrem, hread, h2, Bool.false_eq_true,
      if_false]

theorem C8_digest_mismatch_errors_witness :
    parseAfterOptions { checksum := some .sha256, checksumSize := none } true
        ([0, 0, 0, 0] ++ List.replicate 32 0) = .fail .invalidV2HeaderHash ∧
    readNpmSection { checksum := some .sha256, checksumSize := none } []
        ([0, 0, 0, 0] ++ List.replicate 32 0) = .fail .invalidV2NpmSnapshotHash ∧
    runRegionLoop { checksum := some .sha256, checksumSize := none } false 1
        [(0, (0, [97]))] [] 0 1 (List.replicate 32 0) =
      .fail (.invalidV2SourceHash [97]) := by
  refine ⟨?_, ?_, ?_⟩
  · exact C8_digest_mismatch_errors.1 _ true _
      ⟨[], List.replicate 32 0, { checksum := some .sha256, checksumSize := none }⟩ []
      (by decide) (by decide)
  · exact C8_digest_mismatch_errors.2.1 _ [] _
      ⟨[], List.replicate 32 0, { checksum := some .sha256, checksumSize := none }⟩ []
      (by decide) (by decide)
  · exact C8_digest_mismatch_errors.2.2 _ false 0 [(0, (0, [97]))] [] [] 0 1 0 [97]
      (List.replicate 32 0) []
      ⟨[], List.replicate 32 0, { checksum := some .sha256, checksumSize := none }⟩
      (by decide) (by decide) (by decide) (by decide)

/-- C9: a module-table record whose source `(offset, length)` pair is
`(0, 0)` gives a slot born `Ready` with empty bytes — and
`get_module_source` on such a slot resolves immediately with
`Some(empty)` — while any other pair gives a `Pending` slot; likewise for
the source-map pair. -/
theorem C9_zero_pair_born_ready (supportsNpm : Bool) (fuel : Nat) (spec : Bytes)
    (so sl smo sml pos : Nat) (kind : ModuleKind) (modules : ModMap)
    (npmAcc : List (Bytes × Nat))
    (hspec : validUtf8 spec = true) (hlen : spec.length < 4294967296)
    (hso : so < 4294967296) (hsl : sl < 4294967296)
    (hsmo : smo < 4294967296) (hsml : sml < 4294967296) :
    (parseHeaderRecordsLoop supportsNpm (fuel + 2)
        (u32be spec.length ++ spec ++ [0] ++ u32be so ++ u32be sl ++
          u32be smo ++ u32be sml ++ [kind.toTag]) pos modules npmAcc =
      .ok (lhmInsert modules spec
        (.module kind
          (if so = 0 ∧ sl = 0 then .ready [] else .pending so sl)
          (if smo = 0 ∧ sml = 0 then .ready [] else .pending smo sml)),
        npmAcc)) ∧
    (∀ (m : ModMap) (kind' : ModuleKind) (sourceMap : EszipV2SourceSlot),
      assocLookup m spec = some (.module kind' (.ready []) sourceMap) →
      getModuleSourcePoll m spec = some (.resolved (some []))) := by
  constructor
  · have hstep := parseHeaderRecordsLoop_module_step supportsNpm (fuel + 1) spec []
      so sl smo sml pos kind modules npmAcc hspec hlen hso hsl hsmo hsml
    rw [List.append_nil] at hstep
    rw [hstep]
    exact parseHeaderRecordsLoop_nil supportsNpm fuel _ _ _
  · intro m kind' sourceMap h
    simp [getModuleSourcePoll, h]

theorem C9_zero_pair_born_ready_witness :
    (parseHeaderRecordsLoop true (0 + 2)
        (u32be (List.length [97]) ++ [97] ++ [0] ++ u32be 5 ++ u32be 0 ++
          u32be 0 ++ u32be 0 ++ [ModuleKind.javaScript.toTag]) 0 [] [] =
      .ok (lhmInsert [] [97]
        (.module .javaScript
          (if 5 = 0 ∧ 0 = 0 then .ready [] else .pending 5 0)
          (if 0 = 0 ∧ 0 = 0 then .ready [] else .pending 0 0)), [])) ∧
    getModuleSourcePoll [([97], .module .json (.ready []) (.ready []))] [97] =
      some (.resolved (some [])) := by
  have h := C9_zero_pair_born_ready true 0 [97] 5 0 0 0 0 .javaScript [] []
    (by decide) (by decide) (by decide) (by decide) (by decide) (by decide)
  exact ⟨h.1, h.2 [([97], .module .json (.ready []) (.ready []))] .json (.ready [])
    (by decide)⟩

theorem C10_npm_snapshot_witness :
    ((EszipV2.default.addNpmSnapshot ⟨[], []⟩).takeNpmSnapshot).1 = none ∧
    ((EszipV2.default.addNpmSnapshot ⟨[⟨[112], []⟩], []⟩).takeNpmSnapshot).1 =
      some ⟨[⟨[112], []⟩], []⟩ := by
  have h1 := (C10_npm_snapshot EszipV2.default ⟨[], []⟩).2.1 rfl
  have h2 := ((C10_npm_snapshot EszipV2.default ⟨[⟨[112], []⟩], []⟩).2.2.2
    (by simp)).1
  exact ⟨h1, h2⟩

set_option maxHeartbeats 1600000 in
/-- C1: for every archive whose checksum selector is known (and whose
contents satisfy the serializability side conditions the writer's `u32`
casts and panics impose: well-formed module entries, distinct specifiers,
in-range region/table/snapshot sizes, a well-formed snapshot), `into_bytes`
succeeds and parsing the produced buffer yields an archive with the same
modules map (same specifier sequence, kinds, sources, source maps and
redirect targets), the written checksum configuration, and the same npm
snapshot up to the hash-map orderings the wire format does not preserve. -/
theorem C1_round_trip (A : EszipV2) (c : Checksum)
    (hc : A.options.checksum = some c)
    (hsize : A.options.checksumSize = none ∨
      A.options.checksumSize = some c.digestSize)
    (hWF : ∀ e ∈ A.modules, entryWFB e = true)
    (hnodup : (A.modules.map Prod.fst).Nodup)
    (hsrcB : (regionBytes c (srcEntries A.modules)).length < 4294967296)
    (hmapB : (regionBytes c (mapEntries A.modules)).length < 4294967296)
    (htable : tableLenOf A.modules +
      (match A.npmSnapshot with
        | none => 0
        | some sn => rootsLenOf (sortBy pairLe sn.rootPackages)) < 4294967296)
    (hnpm : ∀ sn, A.npmSnapshot = some sn →
      npmWFB sn = true ∧ npmBytesLenOf sn.packages < 4294967296) :
    ∃ bs A', A.intoBytes = some bs ∧ parseV2 bs = .ok (A', []) ∧
      A'.modules = A.modules ∧
      A'.options = ⟨some c, some c.digestSize⟩ ∧
      npmSnapshotMatches A.npmSnapshot A'.npmSnapshot := by
  have hres : A.options.checksumSizeResolved = some c.digestSize := by
    rcases hsize with h | h <;> simp [Options.checksumSizeResolved, h, hc]
  obtain ⟨Δm, hwrite, hΔmlen, hΔmparse⟩ :=
    writeModulesLoop_spec c A.modules [] [] [] hWF (by simpa using hsrcB)
      (by simpa using hmapB)
  simp only [List.nil_append] at hwrite
  simp only [List.length_nil] at hΔmparse
  have hms : A.modules.length ≤ Δm.length := hΔmlen ▸ tableLenOf_ge A.modules
  cases hnp : A.npmSnapshot with
  | none =>
    have htable0 : tableLenOf A.modules < 4294967296 := by simpa [hnp] using htable
    have htable' : Δm.length < 4294967296 := by
      rw [hΔmlen]
      omega
    refine ⟨ESZIP_V2_2_MAGIC ++ (u32be 4 ++ ([0, c.toTag, 1, c.digestSize] ++
        (c.hash [0, c.toTag, 1, c.digestSize] ++
          (u32be Δm.length ++ (Δm ++ (c.hash Δm ++
            (u32be 0 ++ (c.hash [] ++
              (u32be (regionBytes c (srcEntries A.modules)).length ++
                (regionBytes c (srcEntries A.modules) ++
                  (u32be (regionBytes c (mapEntries A.modules)).length ++
                    regionBytes c (mapEntries A.modules)))))))))))),
      ⟨A.modules, none, ⟨some c, some c.digestSize⟩⟩, ?_, ?_, rfl, rfl, ?_⟩
    · simp only [EszipV2.intoBytes, hc, hres, hwrite, hnp]
      simp [List.append_assoc]
    · rw [parseV2_v22, parseWithMagic_v22]
      exact parseAfterOptions_none c A.modules Δm hWF hnodup htable' hms hsrcB
        hmapB (fun fuel tail pos mods npmAcc => hΔmparse true fuel tail pos mods npmAcc)
    · trivial
  | some sn =>
    have htableS : tableLenOf A.modules +
        rootsLenOf (sortBy pairLe sn.rootPackages) < 4294967296 := by
      simpa [hnp] using htable
    obtain ⟨hsnWF, hNBlenB⟩ := hnpm sn hnp
    have hb := hsnWF
    simp only [npmWFB, Bool.and_eq_true, decide_eq_true_eq] at hb
    obtain ⟨⟨⟨⟨hpne, hplen⟩, hpall⟩, hrnodup⟩, hrall⟩ := hb
    have hpkgWF : ∀ p ∈ sn.packages, pkgWFB sn.packages p = true := by
      intro p hp
      exact List.all_eq_true.mp hpall p hp
    have hrootsWF : ∀ r ∈ sortBy pairLe sn.rootPackages,
        validUtf8 r.1 = true ∧ r.1.length < 4294967296 ∧
          (idsToIndex sn.packages r.2).isSome = true := by
      intro r hr
      have hr' : r ∈ sn.rootPackages :=
        (sortBy_perm pairLe sn.rootPackages).mem_iff.mp hr
      have hx := List.all_eq_true.mp hrall r hr'
      simp only [Bool.and_eq_true, decide_eq_true_eq] at hx
      exact ⟨hx.1.1, hx.1.2, hx.2⟩
    have hdeps : ∀ p ∈ sn.packages, ∀ d ∈ p.dependencies,
        (idsToIndex sn.packages d.2).isSome = true := by
      intro p hp d hd
      have hx := List.all_eq_true.mp hpall p hp
      simp only [pkgWFB, Bool.and_eq_true, decide_eq_true_eq,
        List.all_eq_true] at hx
      have hy := hx.2 d hd
      simp only [Bool.and_eq_true, decide_eq_true_eq] at hy
      exact hy.2
    have hsroots : ∀ r ∈ sortBy pairLe sn.rootPackages,
        (idsToIndex sn.packages r.2).isSome = true :=
      fun r hr => (hrootsWF r hr).2.2
    have hsrootsNodup : ((sortBy pairLe sn.rootPackages).map Prod.fst).Nodup :=
      (((sortBy_perm pairLe sn.rootPackages).map Prod.fst).nodup_iff).mpr hrnodup
    obtain ⟨Δr, hrwrite, hΔrlen, hΔrparse⟩ :=
      writeNpmRootsLoop_spec sn.packages hplen (sortBy pairLe sn.rootPackages)
        Δm hrootsWF
    obtain ⟨ΔN, hNwrite, hΔNlen, hΔNparse⟩ :=
      writeNpmPackagesLoop_spec sn.packages hplen sn.packages [] hpkgWF
    simp only [List.nil_append] at hNwrite
    have hrootslen : (sortBy pairLe sn.rootPackages).length ≤ Δr.length :=
      hΔrlen ▸ rootsLenOf_ge (sortBy pairLe sn.rootPackages)
    have htable' : (Δm ++ Δr).length < 4294967296 := by
      rw [List.length_append, hΔmlen, hΔrlen]
      omega
    have hNBlt : ΔN.length < 4294967296 := hΔNlen ▸ hNBlenB
    have hpkgslen : sn.packages.length ≤ ΔN.length :=
      hΔNlen ▸ npmBytesLenOf_ge sn.packages
    have hNBne : ΔN ≠ [] := by
      have hpos : 0 < sn.packages.length := List.length_pos.mpr hpne
      have : 0 < ΔN.length := by omega
      exact List.length_pos.mp this
    refine ⟨ESZIP_V2_2_MAGIC ++ (u32be 4 ++ ([0, c.toTag, 1, c.digestSize] ++
        (c.hash [0, c.toTag, 1, c.digestSize] ++
          (u32be (Δm ++ Δr).length ++ ((Δm ++ Δr) ++ (c.hash (Δm ++ Δr) ++
            (u32be ΔN.length ++ (ΔN ++ (c.hash ΔN ++
              (u32be (regionBytes c (srcEntries A.modules)).length ++
                (regionBytes c (srcEntries A.modules) ++
                  (u32be (regionBytes c (mapEntries A.modules)).length ++
                    regionBytes c (mapEntries A.modules))))))))))))),
      ⟨A.modules,
        some ⟨sn.packages.map (fun p => ⟨p.id, sortBy pairLe p.dependencies⟩),
          sortBy pairLe sn.rootPackages⟩,
        ⟨some c, some c.digestSize⟩⟩, ?_, ?_, rfl, rfl, ?_⟩
    · simp only [EszipV2.intoBytes, hc, hres, hwrite, hnp, hrwrite, hNwrite]
      simp [List.append_assoc]
    · rw [parseV2_v22, parseWithMagic_v22]
      exact parseAfterOptions_some c A.modules Δm Δr ΔN sn.packages
        (sortBy pairLe sn.rootPackages) hWF hnodup htable' hms hrootslen
        hsrootsNodup hsrcB hmapB hNBlt hNBne hpkgslen hdeps hsroots
        (fun fuel tail pos mods npmAcc => hΔmparse true fuel tail pos mods npmAcc)
        hΔrparse hΔNparse
    · exact ⟨forall2_sorted sn.packages,
        (sortBy_perm pairLe sn.rootPackages).symm⟩

theorem C1_round_trip_witness :
    ∃ bs A',
      (EszipV2.mk [([97], .module .javaScript (.ready [104, 105]) (.ready []))]
          none ⟨some .noChecksum, none⟩).intoBytes = some bs ∧
      parseV2 bs = .ok (A', []) ∧
      A'.modules =
        [([97], .module .javaScript (.ready [104, 105]) (.ready []))] ∧
      A'.options = ⟨some .noChecksum, some Checksum.noChecksum.digestSize⟩ ∧
      npmSnapshotMatches none A'.npmSnapshot :=
  C1_round_trip
    ⟨[([97], .module .javaScript (.ready [104, 105]) (.ready []))], none,
      ⟨some .noChecksum, none⟩⟩
    .noChecksum rfl (Or.inl rfl) (by decide) (by decide) (by decide) (by decide)
    (by decide) (fun sn h => nomatch h)

end Eszip
